import Mathlib

/-!
# Verification development for the dashboard metrics aggregator

Shallow embedding of `class DashboardMetrics` (src/dashboard-metrics.js).

Modelling conventions
* `Date.now()` is an explicit integer argument (milliseconds); a method that reads the
  clock several times takes one argument per reading, in source order.
* Numbers that the source only adds, subtracts and compares are `Nat` / `Int`: integers
  of magnitude below `2^53`, which a JavaScript number holds exactly.
* The rates `clickFrequency` and `registrationsPerHour` are `JsNum`s: a finite binary64
  value, given by its exact rational value, an infinity or `NaN`. Every division that
  computes them rounds the exact quotient to the nearest binary64 value, ties to even
  (`JsNum.nearest`). The mean `averageRegistrationTime` is the exact quotient of an
  integer sum by a length that the source has tested.
* A plain object used as a dictionary is a `JsObject`: the list of its own entries in
  property enumeration order. A property read on it also finds the members that a plain
  object inherits from `Object.prototype` (`objectPrototypeMembers`); `JsObject.truthyAt`
  is the truthiness of such a read. `Object.prototype` has its standard members
  throughout: what a call writes to an inherited value is not tracked. Heat map keys have
  the form `i-j` and name no inherited member.
* `this.metrics.occurrences` is an `Option`: `none` is the JavaScript `undefined` that a
  missing property reads as, and reading a member of it raises a `TypeError`.
-/

namespace DashboardMetrics

/-! ## JavaScript values -/

/-- Exception raised by the JavaScript runtime. -/
inductive JsError
  | typeError (msg : String)
  deriving DecidableEq

/-- A JavaScript number: a finite binary64 value, given by its exact rational value, an
infinity or `NaN`. The sign of a zero is not kept. -/
inductive JsNum
  | fin (q : ℚ)
  | posInf
  | negInf
  | nan
  deriving DecidableEq

namespace JsNum

/-- The integer nearest to `x`, the even one when two integers are equally near. -/
def roundHalfEven (x : ℚ) : Int :=
  if x - ⌊x⌋ < 1 / 2 then ⌊x⌋
  else if 1 / 2 < x - ⌊x⌋ then ⌊x⌋ + 1
  else if ⌊x⌋ % 2 = 0 then ⌊x⌋ else ⌊x⌋ + 1

/-- The binary64 value nearest to a positive rational `x`, ties to even. With `e` the
binary exponent of `x`, not below -1022 (the exponent of the subnormal values), the
significand is `x / 2^(e - 52)` rounded to an integer; a result that reaches `2^1024` is
`Infinity`. -/
def roundPos (x : ℚ) : JsNum :=
  let e := max (Int.log 2 x) (-1022)
  let m := roundHalfEven (x / 2 ^ (e - 52))
  if (2 : ℚ) ^ (1024 : Int) ≤ m * 2 ^ (e - 52) then posInf else fin (m * 2 ^ (e - 52))

/-- Change of sign. -/
def neg : JsNum → JsNum
  | fin q => fin (-q)
  | posInf => negInf
  | negInf => posInf
  | nan => nan

/-- The binary64 value nearest to the rational `x`: the rounding of an exact result. -/
def nearest (x : ℚ) : JsNum :=
  if x = 0 then fin 0 else if 0 < x then roundPos x else neg (roundPos (-x))

/-- The quotient `a / b` of two finite numbers (`b` is never the negative zero here): the
exact quotient, rounded. -/
def div (a b : ℚ) : JsNum :=
  if b = 0 then
    if a = 0 then nan else if 0 < a then posInf else negInf
  else nearest (a / b)

/-- The operator `/` on numbers. -/
def divide : JsNum → JsNum → JsNum
  | fin a, fin b => div a b
  | fin _, posInf => fin 0
  | fin _, negInf => fin 0
  | posInf, fin b => if 0 ≤ b then posInf else negInf
  | negInf, fin b => if 0 ≤ b then negInf else posInf
  | _, _ => nan

/-- JavaScript truthiness of a number: everything but `0` and `NaN`. -/
def truthy : JsNum → Bool
  | fin q => decide (q ≠ 0)
  | posInf => true
  | negInf => true
  | nan => false

/-- The expression `x || 0`. -/
def orZero (x : JsNum) : JsNum :=
  if x.truthy then x else fin 0

/-- A number that is neither `NaN` nor infinite. -/
def isFinite : JsNum → Bool
  | fin _ => true
  | _ => false

/-- The comparison `x > c` with a finite `c` (false on `NaN`). -/
def gt (x : JsNum) (c : ℚ) : Bool :=
  match x with
  | fin q => decide (c < q)
  | posInf => true
  | negInf => false
  | nan => false

end JsNum

/-- A plain object used as a dictionary: own entries in enumeration order. -/
abbrev JsObject (α : Type) := List (String × α)

/-- The names of the members that a plain object inherits from `Object.prototype`. -/
def objectPrototypeMembers : List String :=
  ["constructor", "__defineGetter__", "__defineSetter__", "hasOwnProperty",
   "__lookupGetter__", "__lookupSetter__", "isPrototypeOf", "propertyIsEnumerable",
   "toString", "valueOf", "__proto__", "toLocaleString"]

/-- Value of a decimal digit string. -/
def digitsValue (cs : List Char) : Nat :=
  cs.foldl (fun n c => n * 10 + (c.toNat - 48)) 0

/-- The array index a property key denotes, if it is a canonical numeric string
below `2^32 - 1`; such keys are enumerated first, in ascending order. -/
def arrayIndex? (k : String) : Option Nat :=
  match k.data with
  | [] => none
  | c :: cs =>
    if (c :: cs).all Char.isDigit && (c != '0' || cs.isEmpty)
        && digitsValue (c :: cs) < 4294967295 then
      some (digitsValue (c :: cs))
    else none

namespace JsObject

variable {α : Type}

/-- The own property of `o` under the key `k` (`none` when `o` has no such own
property). -/
def get (o : JsObject α) (k : String) : Option α :=
  List.lookup k o

/-- Truthiness of the property read `o[k]` on a dictionary whose own values are objects:
an own value is truthy, and so is the function or object that `o` inherits from
`Object.prototype` under a key that names one of its members. -/
def truthyAt (o : JsObject α) (k : String) : Bool :=
  (o.get k).isSome || decide (k ∈ objectPrototypeMembers)

/-- Position of a new array-index key `k` (value `n`) among the entries. -/
def insertIndex : JsObject α → String → Nat → α → JsObject α
  | [], k, _, v => [(k, v)]
  | (k', v') :: rest, k, n, v =>
    match arrayIndex? k' with
    | some m =>
      if m < n then (k', v') :: insertIndex rest k n v else (k, v) :: (k', v') :: rest
    | none => (k, v) :: (k', v') :: rest

/-- Creation of a property that the object does not have yet. -/
def insertNew (o : JsObject α) (k : String) (v : α) : JsObject α :=
  match arrayIndex? k with
  | none => o ++ [(k, v)]
  | some n => insertIndex o k n v

/-- In-place update of the value stored under `k` (nothing happens without such a key). -/
def modify (o : JsObject α) (k : String) (f : α → α) : JsObject α :=
  o.map (fun p => if p.1 = k then (p.1, f p.2) else p)

/-- Property write `o[k] = v`: an existing property keeps its place. -/
def set (o : JsObject α) (k : String) (v : α) : JsObject α :=
  if o.any (fun p => p.1 == k) then modify o k (fun _ => v) else insertNew o k v

end JsObject

/-- Insertion-ordered `Set` of strings: `Set.prototype.add`. -/
def setAdd (s : List String) (x : String) : List String :=
  if x ∈ s then s else s ++ [x]

/-! ## DOM inputs -/

/-- The properties of a DOM element that `getFieldInfo` reads. `closestId` is
`element.closest('[id]')?.id`. -/
structure Element where
  id : String
  closestId : Option String
  tagName : String
  textContent : Option String
  value : Option String
  alt : Option String
  className : String
  deriving DecidableEq

/-- The properties of a DOM mouse event that `recordClick` reads. -/
structure ClickEvent where
  target : Element
  clientX : Int
  clientY : Int
  deriving DecidableEq

/-- White space and line terminators removed by `String.prototype.trim`. -/
def isJsSpace (c : Char) : Bool :=
  let n := c.toNat
  n ∈ [9, 10, 11, 12, 13, 32, 160, 5760, 8232, 8233, 8239, 8287, 12288, 65279]
    || (8192 ≤ n && n ≤ 8202)

/-- `String.prototype.trim`. -/
def jsTrim (s : String) : String :=
  String.mk ((s.data.dropWhile isJsSpace).reverse.dropWhile isJsSpace).reverse

/-- `String.prototype.toLowerCase` on the letters `A` to `Z` (tag names are ASCII). -/
def jsToLowerCase (s : String) : String :=
  String.mk (s.data.map Char.toLower)

/-- The operand of `||` when it is truthy (a defined, non-empty string). -/
def truthyString : Option String → Option String
  | some s => if s = "" then none else some s
  | none => none

/-! ## State -/

/-- Result of `getFieldInfo`. -/
structure FieldInfo where
  id : String
  type : String
  text : String
  className : String
  deriving DecidableEq

/-- One entry of `metrics.clicks`. -/
structure ClickData where
  timestamp : Int
  fieldId : String
  fieldType : String
  fieldText : String
  coordinates : Int × Int
  sessionTime : Int
  deriving DecidableEq

/-- One value of `metrics.fieldInteractions`. -/
structure FieldStats where
  clicks : Nat
  hovers : Nat
  focuses : Nat
  firstInteraction : Int
  lastInteraction : Int
  fieldType : String
  fieldText : String
  deriving DecidableEq

/-- The object `metrics.userBehavior`. -/
structure UserBehavior where
  mostClickedField : Option String
  averageTimeOnDashboard : Int
  clickFrequency : JsNum
  deriving DecidableEq

/-- The object `metrics.occurrences`. -/
structure Occurrences where
  totalRegistered : Nat
  patrimonialRegistered : Nat
  veicularRegistered : Nat
  registrationTimes : List Int
  averageRegistrationTime : ℚ
  registrationsThisSession : Nat
  lastRegistrationTime : Option Int
  deriving DecidableEq

/-- The object `this.metrics`. -/
structure Metrics where
  clicks : List ClickData
  fieldInteractions : JsObject FieldStats
  sessionStart : Int
  totalClicks : Nat
  uniqueFields : List String
  heatmap : JsObject Nat
  userBehavior : UserBehavior
  occurrences : Option Occurrences
  deriving DecidableEq

/-- The state built by `constructor()` at clock reading `now`. -/
def new (now : Int) : Metrics :=
  { clicks := []
    fieldInteractions := []
    sessionStart := now
    totalClicks := 0
    uniqueFields := []
    heatmap := []
    userBehavior :=
      { mostClickedField := none, averageTimeOnDashboard := 0, clickFrequency := .fin 0 }
    occurrences := some
      { totalRegistered := 0
        patrimonialRegistered := 0
        veicularRegistered := 0
        registrationTimes := []
        averageRegistrationTime := 0
        registrationsThisSession := 0
        lastRegistrationTime := none } }

/-- The method `reset()`: the object literal it assigns has no `occurrences` member. -/
def reset (_m : Metrics) (now : Int) : Metrics :=
  { clicks := []
    fieldInteractions := []
    sessionStart := now
    totalClicks := 0
    uniqueFields := []
    heatmap := []
    userBehavior :=
      { mostClickedField := none, averageTimeOnDashboard := 0, clickFrequency := .fin 0 }
    occurrences := none }

/-! ## Operations -/

/-- The method `getFieldInfo(element)`; `now` is the clock reading of the fallback id. -/
def getFieldInfo (element : Element) (now : Int) : FieldInfo :=
  { id := (truthyString (some element.id) <|> truthyString element.closestId).getD
      ("element-" ++ toString now)
    type := jsToLowerCase element.tagName
    text := (truthyString (element.textContent.map jsTrim) <|> truthyString element.value
      <|> truthyString element.alt).getD "Sem texto"
    className := element.className }

/-- The scan of `updateUserBehaviorMetrics` over `Object.entries(fieldInteractions)`:
the pair `(maxClicks, mostClickedField)` after the loop. -/
def mostClicked (fi : JsObject FieldStats) : Nat × Option String :=
  fi.foldl (fun acc p => if p.2.clicks > acc.1 then (p.2.clicks, some p.1) else acc) (0, none)

/-- The method `updateUserBehaviorMetrics()` at clock reading `currentTime`. -/
def updateUserBehaviorMetrics (m : Metrics) (currentTime : Int) : Metrics :=
  let timeInMinutes : JsNum := JsNum.div ((currentTime - m.sessionStart : Int) : ℚ) 60000
  { m with
    userBehavior :=
      { mostClickedField := (mostClicked m.fieldInteractions).2
        averageTimeOnDashboard := currentTime - m.sessionStart
        clickFrequency :=
          if timeInMinutes.gt 0 then JsNum.divide (.fin (m.totalClicks : ℚ)) timeInMinutes
          else .fin 0 } }

/-- The method `generateRecommendations()`. -/
def generateRecommendations (m : Metrics) : List String :=
  (if m.totalClicks > 10 then ["Usuário muito ativo - considere adicionar atalhos"] else [])
    ++ (if m.uniqueFields.length < 3 then
          ["Usuário focado em poucos campos - otimizar layout"] else [])
    ++ (if m.userBehavior.clickFrequency.gt 5 then
          ["Alta frequência de cliques - verificar usabilidade"] else [])

/-- `Number.prototype.toFixed(2)` on an exact value below `10^21`: nearest hundredth,
the larger one on a tie, after the sign has been split off. -/
def toFixed2 (x : ℚ) : String :=
  let n := (⌊|x| * 100 + 1 / 2⌋).toNat
  let body := toString (n / 100) ++ "." ++ (if n % 100 < 10 then "0" else "")
    ++ toString (n % 100)
  if x < 0 then "-" ++ body else body

/-- `Number.prototype.toFixed(2)` on a `JsNum`. -/
def JsNum.toFixed2 : JsNum → String
  | .fin q => DashboardMetrics.toFixed2 q
  | .posInf => "Infinity"
  | .negInf => "-Infinity"
  | .nan => "NaN"

/-- The member `summary` of a snapshot. -/
structure Summary where
  totalClicks : Nat
  uniqueFields : Nat
  sessionDuration : Int
  clicksPerMinute : String
  deriving DecidableEq

/-- Result of `getMetrics()`. -/
structure Snapshot where
  summary : Summary
  fieldInteractions : JsObject FieldStats
  userBehavior : UserBehavior
  heatmap : JsObject Nat
  recentClicks : List ClickData
  recommendations : List String
  deriving DecidableEq

/-- The method `getMetrics()` at clock reading `now`; `slice(-10)` keeps the last ten. -/
def getMetrics (m : Metrics) (now : Int) : Snapshot :=
  { summary :=
      { totalClicks := m.totalClicks
        uniqueFields := m.uniqueFields.length
        sessionDuration := now - m.sessionStart
        clicksPerMinute := m.userBehavior.clickFrequency.toFixed2 }
    fieldInteractions := m.fieldInteractions
    userBehavior := m.userBehavior
    heatmap := m.heatmap
    recentClicks := m.clicks.drop (m.clicks.length - 10)
    recommendations := generateRecommendations m }

/-- The `detail` of the `dashboardMetricGenerated` event. -/
structure MetricDetail where
  clickData : ClickData
  currentMetrics : Snapshot
  recommendations : List String
  deriving DecidableEq

/-- The method `generateRealTimeMetric(clickData)`: the new state and the dispatched
detail. `currentTime` and `reportTime` are its two clock readings. -/
def generateRealTimeMetric (m : Metrics) (clickData : ClickData) (currentTime reportTime : Int) :
    Metrics × MetricDetail :=
  let m := updateUserBehaviorMetrics m currentTime
  (m, { clickData := clickData
        currentMetrics := getMetrics m reportTime
        recommendations := generateRecommendations m })

/-- The clock readings of one `recordClick` call, in source order. -/
structure ClickClock where
  timestamp : Int
  fieldInfoTime : Int
  currentTime : Int
  reportTime : Int
  deriving DecidableEq

/-- The heat map key of a click position. -/
def heatmapKey (x y : Int) : String :=
  toString (Int.fdiv x 50) ++ "-" ++ toString (Int.fdiv y 50)

/-- The method `recordClick(event)`. For an id that has no record and names a member of
`Object.prototype` the test `!fieldInteractions[id]` fails: no record is created, and the
two writes that follow go to the inherited value, which is no part of this state. -/
def recordClick (m : Metrics) (event : ClickEvent) (clock : ClickClock) :
    Metrics × MetricDetail :=
  let timestamp := clock.timestamp
  let fieldInfo := getFieldInfo event.target clock.fieldInfoTime
  let clickData : ClickData :=
    { timestamp := timestamp
      fieldId := fieldInfo.id
      fieldType := fieldInfo.type
      fieldText := fieldInfo.text
      coordinates := (event.clientX, event.clientY)
      sessionTime := timestamp - m.sessionStart }
  let created : JsObject FieldStats :=
    if m.fieldInteractions.truthyAt fieldInfo.id then m.fieldInteractions
    else
      m.fieldInteractions.set fieldInfo.id
        { clicks := 0
          hovers := 0
          focuses := 0
          firstInteraction := timestamp
          lastInteraction := timestamp
          fieldType := fieldInfo.type
          fieldText := fieldInfo.text }
  let counted := created.modify fieldInfo.id
    (fun d => { d with clicks := d.clicks + 1, lastInteraction := timestamp })
  let key := heatmapKey event.clientX event.clientY
  let m1 : Metrics :=
    { m with
      clicks := m.clicks ++ [clickData]
      totalClicks := m.totalClicks + 1
      uniqueFields := setAdd m.uniqueFields fieldInfo.id
      fieldInteractions := counted
      heatmap := m.heatmap.set key ((m.heatmap.get key).getD 0 + 1) }
  generateRealTimeMetric m1 clickData clock.currentTime clock.reportTime

/-- The method `recordHover(event)`; the id of `getFieldInfo` is never empty. The test
also passes for an id without a record that names a member of `Object.prototype`; the
increment then goes to the inherited value and this state stays as it is. -/
def recordHover (m : Metrics) (target : Element) (now : Int) : Metrics :=
  let fieldInfo := getFieldInfo target now
  if fieldInfo.id ≠ "" ∧ (m.fieldInteractions.get fieldInfo.id).isSome then
    { m with fieldInteractions :=
        m.fieldInteractions.modify fieldInfo.id (fun d => { d with hovers := d.hovers + 1 }) }
  else m

/-- The method `recordFocus(event)`, with the same test as `recordHover`. -/
def recordFocus (m : Metrics) (target : Element) (now : Int) : Metrics :=
  let fieldInfo := getFieldInfo target now
  if fieldInfo.id ≠ "" ∧ (m.fieldInteractions.get fieldInfo.id).isSome then
    { m with fieldInteractions :=
        m.fieldInteractions.modify fieldInfo.id (fun d => { d with focuses := d.focuses + 1 }) }
  else m

/-- The loop of `updateAverageRegistrationTime`: sum of `times[i] - times[i-1]`. -/
def sumDeltas : List Int → Int
  | a :: b :: rest => (b - a) + sumDeltas (b :: rest)
  | _ => 0

/-- The method `updateAverageRegistrationTime(newTime)`; the argument is not read. -/
def updateAverageRegistrationTime (o : Occurrences) (_newTime : Int) : Occurrences :=
  let times := o.registrationTimes
  if times.length ≤ 1 then { o with averageRegistrationTime := 0 }
  else
    { o with averageRegistrationTime := (sumDeltas times : ℚ) / ((times.length - 1 : Nat) : ℚ) }

/-- The metric handed to `sendMetricToAnalytics` by `generateOccurrenceMetric`. -/
structure OccurrenceMetric where
  occurrenceType : String
  timestamp : Int
  sessionTotal : Nat
  totalRegistered : Nat
  averageTime : ℚ
  deriving DecidableEq

/-- The method `recordOccurrenceRegistration(type, registrationTime = null)`; `now` is
the clock reading used when `registrationTime` is falsy. -/
def recordOccurrenceRegistration (m : Metrics) (type : String) (registrationTime : Option Int)
    (now : Int) : Except JsError (Metrics × OccurrenceMetric) :=
  let timestamp :=
    match registrationTime with
    | some t => if t = 0 then now else t
    | none => now
  match m.occurrences with
  | none => .error (.typeError "Cannot read properties of undefined (reading totalRegistered)")
  | some o =>
    let o := { o with
      totalRegistered := o.totalRegistered + 1
      registrationsThisSession := o.registrationsThisSession + 1
      lastRegistrationTime := some timestamp }
    let o :=
      if type = "patrimonial" then { o with patrimonialRegistered := o.patrimonialRegistered + 1 }
      else if type = "veicular" then { o with veicularRegistered := o.veicularRegistered + 1 }
      else o
    let o :=
      match o.registrationTimes.getLast? with
      | some lastTime => updateAverageRegistrationTime o (timestamp - lastTime)
      | none => o
    let o := { o with registrationTimes := o.registrationTimes ++ [timestamp] }
    .ok ({ m with occurrences := some o },
         { occurrenceType := type
           timestamp := timestamp
           sessionTotal := o.registrationsThisSession
           totalRegistered := o.totalRegistered
           averageTime := o.averageRegistrationTime })

/-- Result of `getOccurrenceStats()`. -/
structure OccurrenceStats where
  total : Nat
  patrimonial : Nat
  veicular : Nat
  thisSession : Nat
  averageRegistrationTime : ℚ
  registrationsPerHour : JsNum
  lastRegistration : Option Int
  deriving DecidableEq

/-- The method `getOccurrenceStats()` at clock reading `now`. -/
def getOccurrenceStats (m : Metrics) (now : Int) : Except JsError OccurrenceStats :=
  let sessionDuration : Int := now - m.sessionStart
  match m.occurrences with
  | none =>
    .error (.typeError "Cannot read properties of undefined (reading registrationsThisSession)")
  | some o =>
    let registrationsPerHour :=
      JsNum.divide (.fin (o.registrationsThisSession : ℚ))
        (JsNum.divide (JsNum.divide (JsNum.div (sessionDuration : ℚ) 1000) (.fin 60)) (.fin 60))
    .ok { total := o.totalRegistered
          patrimonial := o.patrimonialRegistered
          veicular := o.veicularRegistered
          thisSession := o.registrationsThisSession
          averageRegistrationTime := o.averageRegistrationTime
          registrationsPerHour := registrationsPerHour.orZero
          lastRegistration := o.lastRegistrationTime }

/-! ## Call sequences -/

/-- A call of one of the public methods, with its arguments and clock readings. -/
inductive Op
  | recordClick (event : ClickEvent) (clock : ClickClock)
  | recordHover (target : Element) (now : Int)
  | recordFocus (target : Element) (now : Int)
  | recordOccurrenceRegistration (type : String) (registrationTime : Option Int) (now : Int)
  | getOccurrenceStats (now : Int)
  | getMetrics (now : Int)
  | reset (now : Int)
  deriving DecidableEq

/-- The state after one call, or the exception the call raises. -/
def step (m : Metrics) : Op → Except JsError Metrics
  | .recordClick event clock => .ok (recordClick m event clock).1
  | .recordHover target now => .ok (recordHover m target now)
  | .recordFocus target now => .ok (recordFocus m target now)
  | .recordOccurrenceRegistration type registrationTime now =>
    (recordOccurrenceRegistration m type registrationTime now).map Prod.fst
  | .getOccurrenceStats now => (getOccurrenceStats m now).map (fun _ => m)
  | .getMetrics now => let _snapshot := getMetrics m now; .ok m
  | .reset now => .ok (reset m now)

/-- The state after a sequence of calls; the first exception ends the run. -/
def run (m : Metrics) : List Op → Except JsError Metrics
  | [] => .ok m
  | op :: ops => (step m op).bind (fun m1 => run m1 ops)

/-- The calls that `recordClick`, `recordHover`, `recordFocus` and `reset` make up. -/
inductive Interaction
  | click (event : ClickEvent) (clock : ClickClock)
  | hover (target : Element) (now : Int)
  | focus (target : Element) (now : Int)
  | reset (now : Int)
  deriving DecidableEq

/-- The state after one interaction call. -/
def interact (m : Metrics) : Interaction → Metrics
  | .click event clock => (recordClick m event clock).1
  | .hover target now => recordHover m target now
  | .focus target now => recordFocus m target now
  | .reset now => reset m now

/-- The interaction calls that record no click and do not reset: hover and focus. -/
def Interaction.isPassive : Interaction → Bool
  | .hover _ _ => true
  | .focus _ _ => true
  | _ => false

/-- One step of the count of `recordClick` calls since construction or the latest
`reset`. -/
def countClick (n : Nat) : Interaction → Nat
  | .click _ _ => n + 1
  | .reset _ => 0
  | _ => n

/-- Number of `recordClick` calls since construction or the latest `reset`. -/
def clicksSinceReset (ops : List Interaction) : Nat :=
  ops.foldl countClick 0

/-- The state after a sequence of `recordClick` calls. -/
def clickAll (m : Metrics) (calls : List (ClickEvent × ClickClock)) : Metrics :=
  calls.foldl (fun acc c => (recordClick acc c.1 c.2).1) m

/-- The field id that a `recordClick` call works with. -/
def clickedId (c : ClickEvent × ClickClock) : String :=
  (getFieldInfo c.1.target c.2.fieldInfoTime).id

/-- The rate that the specification gives for a snapshot summary: `totalClicks` over the
minutes of the `sessionDuration` of the same summary, 0 when that duration is 0, to two
decimals. -/
def specClicksPerMinute (s : Summary) : String :=
  if s.sessionDuration = 0 then toFixed2 0
  else toFixed2 ((s.totalClicks : ℚ) / ((s.sessionDuration : ℚ) / 60000))

/-- The facts about the per-field table that every interaction call keeps; `n` is the
number of clicks since construction or reset. -/
def TableInv (m : Metrics) (n : Nat) : Prop :=
  m.userBehavior.mostClickedField = (mostClicked m.fieldInteractions).2
    ∧ (∀ p ∈ m.fieldInteractions, 1 ≤ p.2.clicks)
    ∧ (m.fieldInteractions = [] ↔ n = 0)
    ∧ (m.fieldInteractions.map Prod.fst).Nodup

/-- The file that `exportMetrics()` offers for download. `payload` is the value that
`JSON.stringify(metrics, null, 2)` serialises: the text is identified with the structure
it encodes. -/
structure Download where
  filename : String
  mimeType : String
  payload : Snapshot
  deriving DecidableEq

/-- The method `exportMetrics()`: the state it leaves, the snapshot it returns and the
download it starts. `now` is the clock reading of `getMetrics()`, `isoString` the value of
`new Date().toISOString()`, of which the part before the first `T` names the file. -/
def exportMetrics (m : Metrics) (now : Int) (isoString : String) :
    Metrics × Snapshot × Download :=
  let metrics := getMetrics m now
  (m, metrics,
    { filename := "dashboard-metrics-"
        ++ String.mk (isoString.data.takeWhile (fun c => c != 'T')) ++ ".json"
      mimeType := "application/json"
      payload := metrics })

/-- The entry that `recordClick` appends to `metrics.clicks` in a session started at
`sessionStart`. -/
def clickDataOf (sessionStart : Int) (c : ClickEvent × ClickClock) : ClickData :=
  { timestamp := c.2.timestamp
    fieldId := (getFieldInfo c.1.target c.2.fieldInfoTime).id
    fieldType := (getFieldInfo c.1.target c.2.fieldInfoTime).type
    fieldText := (getFieldInfo c.1.target c.2.fieldInfoTime).text
    coordinates := (c.1.clientX, c.1.clientY)
    sessionTime := c.2.timestamp - sessionStart }

/-- The three messages of `generateRecommendations`, in the order of its tests. -/
def recommendationMessages : List String :=
  ["Usuário muito ativo - considere adicionar atalhos",
   "Usuário focado em poucos campos - otimizar layout",
   "Alta frequência de cliques - verificar usabilidade"]

/-- The state after a sequence of `recordOccurrenceRegistration(type, registrationTime)`
calls, each with its clock reading; the first exception ends the run. -/
def registerAll (m : Metrics) : List (String × Option Int × Int) → Except JsError Metrics
  | [] => .ok m
  | c :: rest =>
    (recordOccurrenceRegistration m c.1 c.2.1 c.2.2).bind (fun r => registerAll r.1 rest)

/-- The record that `recordClick` creates for a field id without one, before it counts
the click. -/
def freshFieldStats (event : ClickEvent) (clock : ClickClock) : FieldStats :=
  { clicks := 0
    hovers := 0
    focuses := 0
    firstInteraction := clock.timestamp
    lastInteraction := clock.timestamp
    fieldType := (getFieldInfo event.target clock.fieldInfoTime).type
    fieldText := (getFieldInfo event.target clock.fieldInfoTime).text }

/-- The interaction is no click on an id that names a member of `Object.prototype`. -/
def Interaction.clicksOwnKey : Interaction → Bool
  | .click event clock => decide (clickedId (event, clock) ∉ objectPrototypeMembers)
  | _ => true

/-- The calls of `reset()`. -/
def Op.isReset : Op → Bool
  | .reset _ => true
  | _ => false

/-- The clock readings that the `recordClick` calls of a sequence store as `timestamp`,
in call order. -/
def clickStamps : List Interaction → List Int
  | [] => []
  | .click _ clock :: rest => clock.timestamp :: clickStamps rest
  | _ :: rest => clickStamps rest

/-- The heat map cell of a click position: `Math.floor(x / 50)`, `Math.floor(y / 50)`. -/
def cellOf (x y : Int) : Int × Int :=
  (Int.fdiv x 50, Int.fdiv y 50)

/-- The heat map key of a cell: the template literal with the two cell numbers. -/
def cellKey (cell : Int × Int) : String :=
  toString cell.1 ++ "-" ++ toString cell.2

/-- The count stored under a heat map key, 0 without an entry: `heatmap[key] || 0`. -/
def bucketCount (heatmap : JsObject Nat) (key : String) : Nat :=
  (heatmap.get key).getD 0

/-! ## Sample states -/

/-- A `div` element with the given id. -/
def sampleElement (id : String) : Element :=
  { id := id, closestId := none, tagName := "DIV", textContent := some id, value := none,
    alt := none, className := "" }

/-- A click on `sampleElement id` at position (10, 10), all clock readings being `t`. -/
def sampleClick (id : String) (t : Int) : ClickEvent × ClickClock :=
  ({ target := sampleElement id, clientX := 10, clientY := 10 },
   { timestamp := t, fieldInfoTime := t, currentTime := t, reportTime := t })

/-- An element with the given id, tag name and text content. -/
def labelledElement (id tagName text : String) : Element :=
  { id := id, closestId := none, tagName := tagName, textContent := some text, value := none,
    alt := none, className := "" }

/-- A click on `labelledElement id tagName text` at (10, 10), all clock readings `t`. -/
def labelledClick (id tagName text : String) (t : Int) : ClickEvent × ClickClock :=
  ({ target := labelledElement id tagName text, clientX := 10, clientY := 10 },
   { timestamp := t, fieldInfoTime := t, currentTime := t, reportTime := t })

/-- The state after `recordOccurrenceRegistration(veicular)` on the aggregator
constructed at time 0, in the same millisecond. -/
def registeredOnce : Metrics :=
  match recordOccurrenceRegistration (new 0) "veicular" none 0 with
  | .ok r => r.1
  | .error _ => new 0

end DashboardMetrics

/-!
# The event emitter (src/js/core/eventEmitter.js)

Shallow embedding of `class EventEmitter`.

* A function value is identified by a number (its reference); the `listener` argument of
  `on` / `off` is an `Arg`, which also covers strings and other values.
* `this.events` (a `Map` from event names to arrays) is the list of its entries in
  insertion order; an array that the source mutates in place is written back under its key.
* `Array.prototype.sort` is stable, and priorities are integers, so the call
  `listeners.sort((a, b) => b.priority - a.priority)` is the stable sort by non-increasing
  priority; it is `List.insertionSort`, which is stable.
* A listener either returns or throws when it is called (`throws`); listeners that call
  back into the emitter are outside the model. `emit` returns the invocations it made.
-/

namespace EventEmitter

open DashboardMetrics (JsError)

/-- The value passed as `listener`. -/
inductive Arg
  | func (f : Nat)
  | str (s : String)
  | other
  deriving DecidableEq

/-- The `options` argument of `on`, after the `||` defaults for absent members. -/
structure Options where
  once : Bool
  priority : Int
  context : Option Nat
  id : Option String
  deriving DecidableEq

/-- The object `listenerData`. -/
structure ListenerData where
  fn : Nat
  once : Bool
  priority : Int
  context : Option Nat
  id : String
  deriving DecidableEq

/-- The entries of `this.events`. -/
abbrev Events := List (String × List ListenerData)

/-- `Map.prototype.get` (`none` when `has` is false). -/
def mapGet (events : Events) (event : String) : Option (List ListenerData) :=
  List.lookup event events

/-- `Map.prototype.set`: an existing key keeps its place, a new key goes last. -/
def mapSet (events : Events) (event : String) (listeners : List ListenerData) : Events :=
  if events.any (fun p => p.1 == event) then
    events.map (fun p => if p.1 = event then (p.1, listeners) else p)
  else events ++ [(event, listeners)]

/-- `Map.prototype.delete`. -/
def mapDelete (events : Events) (event : String) : Events :=
  events.filter (fun p => p.1 != event)

/-- The fields of an `EventEmitter`. -/
structure Emitter where
  events : Events
  maxListeners : Nat
  deriving DecidableEq

/-- The state built by `constructor()`. -/
def create : Emitter :=
  { events := [], maxListeners := 10 }

/-- The order of `listeners.sort((a, b) => b.priority - a.priority)`: `a` may stand before
`b` when its priority is not lower. -/
def byPriority (a b : ListenerData) : Prop :=
  b.priority ≤ a.priority

instance : DecidableRel byPriority :=
  fun a b => inferInstanceAs (Decidable (b.priority ≤ a.priority))

/-- The stable sort by non-increasing priority. -/
def sortByPriority (listeners : List ListenerData) : List ListenerData :=
  List.insertionSort byPriority listeners

/-- The listeners registered for an event (empty when the event is not a key). -/
def listenersOf (em : Emitter) (event : String) : List ListenerData :=
  (mapGet em.events event).getD []

/-- The `listenerData` that `on` builds; `freshId` is the value of `generateListenerId()`,
used when `options.id` is absent or empty. -/
def listenerDataOf (f : Nat) (options : Options) (freshId : String) : ListenerData :=
  { fn := f
    once := options.once
    priority := options.priority
    context := options.context
    id := match options.id with
      | some s => if s = "" then freshId else s
      | none => freshId }

/-- The method `on(event, listener, options)` (`on` is reserved, hence the name). -/
def addListener (em : Emitter) (event : String) (listener : Arg) (options : Options)
    (freshId : String) : Except JsError Emitter :=
  match listener with
  | .func f =>
    let events :=
      if (mapGet em.events event).isNone then mapSet em.events event [] else em.events
    let listeners := (mapGet events event).getD []
    let listenerData := listenerDataOf f options freshId
    .ok { em with
      events := mapSet events event (sortByPriority (listeners ++ [listenerData])) }
  | _ => .error (.typeError "Listener deve ser uma função")

/-- The method `once(event, listener, options)`. -/
def once (em : Emitter) (event : String) (listener : Arg) (options : Options)
    (freshId : String) : Except JsError Emitter :=
  addListener em event listener { options with once := true } freshId

/-- The pair `findIndex(p)` / `splice(index, 1)`: removal of the first match. -/
def spliceFirst (p : ListenerData → Bool) (listeners : List ListenerData) :
    List ListenerData :=
  match listeners.findIdx? p with
  | some index => listeners.eraseIdx index
  | none => listeners

/-- The method `off(event, listener)`. -/
def off (em : Emitter) (event : String) (listener : Arg) : Emitter :=
  match mapGet em.events event with
  | none => em
  | some listeners =>
    let remaining :=
      match listener with
      | .str s => spliceFirst (fun l => l.id = s) listeners
      | .func f => spliceFirst (fun l => l.fn = f) listeners
      | .other => listeners
    if remaining.length = 0 then { em with events := mapDelete em.events event }
    else { em with events := mapSet em.events event remaining }

/-- The invocations made by an `emit`: event name and listener, in call order. -/
abbrev Log := List (String × ListenerData)

/-- The loop of `emit` over the copied array. `onCatch` is the `catch` block. -/
def runListeners (throws : Nat → Bool) (event : String) (onCatch : Emitter → Emitter × Log) :
    List ListenerData → Emitter → Emitter × Log
  | [], em => (em, [])
  | listenerData :: rest, em =>
    let body : Emitter × Log :=
      if throws listenerData.fn then onCatch em
      else if listenerData.once then (off em event (.func listenerData.fn), [])
      else (em, [])
    let after := runListeners throws event onCatch rest body.1
    (after.1, (event, listenerData) :: body.2 ++ after.2)

/-- The call `this.emit('error', ...)`: its `catch` block emits nothing further. -/
def emitError (throws : Nat → Bool) (em : Emitter) : Emitter × Log × Bool :=
  match mapGet em.events "error" with
  | none => (em, [], false)
  | some listeners =>
    let r := runListeners throws "error" (fun e => (e, [])) listeners em
    (r.1, r.2, !listeners.isEmpty)

/-- The method `emit(event, ...args)`: the state, the invocations and the result. -/
def emit (throws : Nat → Bool) (em : Emitter) (event : String) : Emitter × Log × Bool :=
  match mapGet em.events event with
  | none => (em, [], false)
  | some listeners =>
    let r := runListeners throws event
      (fun e => if event ≠ "error" then ((emitError throws e).1, (emitError throws e).2.1)
        else (e, []))
      listeners em
    (r.1, r.2, !listeners.isEmpty)

/-- A call of `on` (constructor `add`), `once` or `off`. -/
inductive Call
  | add (event : String) (listener : Arg) (options : Options) (freshId : String)
  | once (event : String) (listener : Arg) (options : Options) (freshId : String)
  | off (event : String) (listener : Arg)
  deriving DecidableEq

/-- The state after one call; a call that throws leaves the state as it was. -/
def applyCall (em : Emitter) : Call → Emitter
  | .add event listener options freshId =>
    match addListener em event listener options freshId with
    | .ok em1 => em1
    | .error _ => em
  | .once event listener options freshId =>
    match once em event listener options freshId with
    | .ok em1 => em1
    | .error _ => em
  | .off event listener => off em event listener

/-- The listener that a call registers for `event`, if it registers one. -/
def Call.registers (event : String) : Call → Option ListenerData
  | .add e (.func f) options freshId =>
    if e = event then some (listenerDataOf f options freshId) else none
  | .once e (.func f) options freshId =>
    if e = event then some (listenerDataOf f { options with once := true } freshId) else none
  | _ => none

/-- The order of two listeners tagged with the index of the call that registered them:
higher priority first, and the earlier registration first among equal priorities. -/
def TagOrder (a b : ListenerData × Nat) : Prop :=
  b.1.priority < a.1.priority ∨ (b.1.priority = a.1.priority ∧ a.2 < b.2)

/-! ## Sample emitters -/

/-- Options with the defaults, a given `once` flag and id. -/
def sampleOptions (once : Bool) (id : String) : Options :=
  { once := once, priority := 0, context := none, id := some id }

/-- The emitter after `on(e, f, id p)` and `once(e, f, id o)` for one function `f = 1`. -/
def persistentThenOnce : Emitter :=
  applyCall (applyCall create (.add "e" (.func 1) (sampleOptions false "p") "x"))
    (.once "e" (.func 1) (sampleOptions false "o") "y")

/-- The emitter after `once(e, g, id o)` for a function `g = 2`. -/
def onceOnly : Emitter :=
  applyCall create (.once "e" (.func 2) (sampleOptions false "o") "y")

end EventEmitter

/-!
# The cache manager (src/js/core/performance.js)

Shallow embedding of `class CacheManager`. The two `Map`s are lists of entries in
insertion order, `Date.now()` readings are explicit arguments, stored values are strings,
and the events that the methods emit (which no method reads back) are left out.
-/

namespace JsMap

variable {α : Type}

/-- `Map.prototype.get` (`none` when the key is absent). -/
def get (m : List (String × α)) (k : String) : Option α :=
  List.lookup k m

/-- `Map.prototype.has`. -/
def has (m : List (String × α)) (k : String) : Bool :=
  (get m k).isSome

/-- `Map.prototype.set`: an existing key keeps its place, a new key goes last. -/
def set (m : List (String × α)) (k : String) (v : α) : List (String × α) :=
  if m.any (fun p => p.1 == k) then m.map (fun p => if p.1 = k then (p.1, v) else p)
  else m ++ [(k, v)]

/-- `Map.prototype.delete`. -/
def delete (m : List (String × α)) (k : String) : List (String × α) :=
  m.filter (fun p => p.1 != k)

end JsMap

namespace CacheManager

/-- A cache entry. -/
structure Item where
  value : String
  expiresAt : Int
  createdAt : Int
  accessCount : Nat
  deriving DecidableEq

/-- The fields of a `CacheManager` that its cache methods use. -/
structure Cache where
  maxSize : Nat
  ttl : Int
  cache : List (String × Item)
  accessTimes : List (String × Int)
  deriving DecidableEq

/-- The state built by `constructor(options)`: `options.maxSize || 100`,
`options.ttl || 5 * 60 * 1000`. -/
def create (maxSize : Option Nat) (ttl : Option Int) : Cache :=
  { maxSize := match maxSize with
      | some n => if n = 0 then 100 else n
      | none => 100
    ttl := match ttl with
      | some t => if t = 0 then 5 * 60 * 1000 else t
      | none => 5 * 60 * 1000
    cache := []
    accessTimes := [] }

/-- The method `delete(key)`. -/
def delete (c : Cache) (key : String) : Cache :=
  { c with cache := JsMap.delete c.cache key, accessTimes := JsMap.delete c.accessTimes key }

/-- The scan of `evictLeastRecentlyUsed`: the pair `(oldestKey, oldestTime)`. -/
def oldest (accessTimes : List (String × Int)) (now : Int) : Option String × Int :=
  accessTimes.foldl (fun acc p => if p.2 < acc.2 then (some p.1, p.2) else acc) (none, now)

/-- The method `evictLeastRecentlyUsed()` at clock reading `now`; `if (oldestKey)` is
false for `null` and for the empty string. -/
def evictLeastRecentlyUsed (c : Cache) (now : Int) : Cache :=
  match (oldest c.accessTimes now).1 with
  | some key => if key = "" then c else delete c key
  | none => c

/-- The clock readings of one `set` call, in source order. -/
structure SetClock where
  expires : Int
  evict : Int
  created : Int
  access : Int
  deriving DecidableEq

/-- The method `set(key, value, customTtl = null)`. -/
def set (c : Cache) (key value : String) (customTtl : Option Int) (clock : SetClock) :
    Cache :=
  let ttl := match customTtl with
    | some t => if t = 0 then c.ttl else t
    | none => c.ttl
  let expiresAt := clock.expires + ttl
  let c1 :=
    if c.cache.length ≥ c.maxSize ∧ JsMap.has c.cache key = false then
      evictLeastRecentlyUsed c clock.evict
    else c
  { c1 with
    cache := JsMap.set c1.cache key
      { value := value, expiresAt := expiresAt, createdAt := clock.created, accessCount := 0 }
    accessTimes := JsMap.set c1.accessTimes key clock.access }

/-- The method `get(key)`: `now` is the reading of the expiry test, `accessNow` the one
stored as access time. `none` is `null`. -/
def get (c : Cache) (key : String) (now accessNow : Int) : Cache × Option String :=
  match JsMap.get c.cache key with
  | none => (c, none)
  | some item =>
    if now > item.expiresAt then (delete c key, none)
    else
      ({ c with
          cache := JsMap.set c.cache key { item with accessCount := item.accessCount + 1 }
          accessTimes := JsMap.set c.accessTimes key accessNow },
        some item.value)

/-- The method `has(key)` at clock reading `now`. -/
def has (c : Cache) (key : String) (now : Int) : Cache × Bool :=
  match JsMap.get c.cache key with
  | none => (c, false)
  | some item => if now > item.expiresAt then (delete c key, false) else (c, true)

/-- The method `cleanup()` at clock reading `now`. -/
def cleanup (c : Cache) (now : Int) : Cache :=
  let expiredKeys := (c.cache.filter (fun p => decide (now > p.2.expiresAt))).map Prod.fst
  expiredKeys.foldl delete c

/-- The cache with `maxSize = 1` after `set(a)` and `set(b)`, every clock reading 0. -/
def twoSetsSameMillisecond : Cache :=
  set (set (create (some 1) none) "a" "1" none ⟨0, 0, 0, 0⟩) "b" "2" none ⟨0, 0, 0, 0⟩

/-- The cache after `set(k, v, 1000)` at time 5 on a new cache. -/
def oneEntry : Cache :=
  set (create none none) "k" "v" (some 1000) ⟨5, 5, 5, 5⟩

end CacheManager

/-!
# The error handler (src/js/core/errorHandler.js, src/js/core/config.js)

Shallow embedding of `ErrorHandler.log` and `ErrorHandler.addError`. The logging section of
`APP_CONFIG`, which `updateConfig` can change at run time, is an argument; the clock text
of `new Date().toISOString()` is an argument; `toUpperCase` acts on the letters `a` to `z`.
-/

namespace ErrorHandler

/-- The object `APP_CONFIG.logging`. -/
structure Logging where
  level : String
  console : Bool
  remote : Bool
  maxLogSize : Nat
  deriving DecidableEq

/-- The default `APP_CONFIG.logging`. -/
def defaultLogging : Logging :=
  { level := "info", console := true, remote := false, maxLogSize := 1000 }

/-- The object `CONSTANTS.LOG_LEVELS`. -/
def LOG_LEVELS : List (String × Nat) :=
  [("DEBUG", 0), ("INFO", 1), ("WARN", 2), ("ERROR", 3)]

/-- `String.prototype.toUpperCase` on the letters `a` to `z`. -/
def jsToUpperCase (s : String) : String :=
  String.mk (s.data.map Char.toUpper)

/-- The expression `CONSTANTS.LOG_LEVELS[level.toUpperCase()] || CONSTANTS.LOG_LEVELS.INFO`:
the `||` takes the second operand for a missing key and for the number 0. -/
def levelOrInfo (level : String) : Nat :=
  match List.lookup (jsToUpperCase level) LOG_LEVELS with
  | some n => if n = 0 then 1 else n
  | none => 1

/-- The object `logEntry`. -/
structure LogEntry where
  timestamp : String
  level : String
  message : String
  data : String
  deriving DecidableEq

/-- What a call of `log` produces: the line written to the console and the entry passed to
`this.emit('log', ...)`; both are absent when the method returns before them. -/
structure LogOutput where
  consoleLine : Option String
  emitted : Option LogEntry
  deriving DecidableEq

/-- The method `log(level, message, data)` under the logging configuration `config`;
`isoNow` is the value of `new Date().toISOString()`. -/
def log (config : Logging) (level message data isoNow : String) : LogOutput :=
  let logLevel := levelOrInfo level
  let configLevel := levelOrInfo config.level
  if logLevel < configLevel then { consoleLine := none, emitted := none }
  else
    let logEntry : LogEntry :=
      { timestamp := isoNow, level := jsToUpperCase level, message := message, data := data }
    { consoleLine :=
        if config.console then
          some ("[" ++ logEntry.timestamp ++ "] " ++ logEntry.level ++ ": " ++ message)
        else none
      emitted := some logEntry }

/-- An error record kept in `this.errors`. -/
structure ErrorInfo where
  type : String
  message : String
  deriving DecidableEq

/-- The fields `errors` and `maxErrors` of an `ErrorHandler`. -/
structure Handler where
  errors : List ErrorInfo
  maxErrors : Nat
  deriving DecidableEq

/-- The state built by `constructor()`: `APP_CONFIG.logging.maxLogSize || 1000`. -/
def create (config : Logging) : Handler :=
  { errors := [], maxErrors := if config.maxLogSize = 0 then 1000 else config.maxLogSize }

/-- The method `addError(errorInfo)`: `unshift`, then `slice(0, maxErrors)` when the list
is longer than `maxErrors`. -/
def addError (h : Handler) (errorInfo : ErrorInfo) : Handler :=
  let errors := errorInfo :: h.errors
  if errors.length > h.maxErrors then { h with errors := errors.take h.maxErrors }
  else { h with errors := errors }

end ErrorHandler

/-!
# The validator (src/validator.js)

Shallow embedding of the rule `cpf`, of `Validator.validateValue` and of
`ValidationUtils.sanitizeString`. Strings are lists of characters; the patterns of the
source match ASCII characters only, so code units and characters agree on them.
-/

namespace Validator

/-- The object a rule returns. -/
structure RuleResult where
  valid : Bool
  message : Option String
  deriving DecidableEq

/-- The call `value.replace(/\D/g, '')`. -/
def removeNonDigits (value : String) : String :=
  String.mk (value.data.filter Char.isDigit)

/-- The expression `parseInt(s.charAt(i))` on a string of decimal digits; past the end
(`NaN` in the source, never reached after the length test) it is 0. -/
def digitAt (s : String) (i : Nat) : Nat :=
  match s.data[i]? with
  | some c => c.toNat - 48
  | none => 0

/-- The test `/^(\d)\1{10}$/.test(s)`: eleven times the same digit. -/
def elevenEqualDigits (s : String) : Bool :=
  match s.data with
  | c :: rest => c.isDigit && rest.length == 10 && rest.all (fun x => x == c)
  | [] => false

/-- The rule `cpf`. -/
def cpfRule (value : String) : RuleResult :=
  if value = "" then { valid := true, message := none }
  else
    let cpf := removeNonDigits value
    if cpf.length ≠ 11 then { valid := false, message := some "CPF deve ter 11 dígitos" }
    else if elevenEqualDigits cpf then { valid := false, message := some "CPF inválido" }
    else
      let sum1 := (List.range 9).foldl (fun sum i => sum + digitAt cpf i * (10 - i)) 0
      let digit1 := if 11 - sum1 % 11 > 9 then 0 else 11 - sum1 % 11
      let sum2 := (List.range 10).foldl (fun sum i => sum + digitAt cpf i * (11 - i)) 0
      let digit2 := if 11 - sum2 % 11 > 9 then 0 else 11 - sum2 % 11
      if digitAt cpf 9 ≠ digit1 ∨ digitAt cpf 10 ≠ digit2 then
        { valid := false, message := some "CPF inválido" }
      else { valid := true, message := none }

/-- The digit characters of a value, in order. -/
def cpfDigitChars (value : String) : List Char :=
  value.data.filter Char.isDigit

/-- The digits of a value as numbers. -/
def cpfDigits (value : String) : List Nat :=
  (cpfDigitChars value).map (fun c => c.toNat - 48)

/-- The mod-11 check digit of the specification: the weighted sum of the digits modulo
11; a remainder below 2 gives 0, any other remainder `r` gives `11 - r`. -/
def checkDigit (digits weights : List Nat) : Nat :=
  if (List.zipWith (fun d w => d * w) digits weights).sum % 11 < 2 then 0
  else 11 - (List.zipWith (fun d w => d * w) digits weights).sum % 11

/-- The values that the specification accepts as CPF: eleven digits, not all identical,
the tenth being the check digit of the first nine with weights 10 to 2 and the eleventh
the check digit of the first ten with weights 11 to 2. -/
def CpfAccepted (value : String) : Prop :=
  (cpfDigitChars value).length = 11
    ∧ ¬ (∀ c ∈ cpfDigitChars value, some c = (cpfDigitChars value).head?)
    ∧ (cpfDigits value)[9]?
      = some (checkDigit ((cpfDigits value).take 9) [10, 9, 8, 7, 6, 5, 4, 3, 2])
    ∧ (cpfDigits value)[10]?
      = some (checkDigit ((cpfDigits value).take 10) [11, 10, 9, 8, 7, 6, 5, 4, 3, 2])

/-! ## validateValue -/

/-- The values that a rule receives as parameters. -/
inductive JsParam
  | undefined
  | null
  | num (n : Int)
  | str (s : String)
  | object (tag : Nat)
  deriving DecidableEq

/-- Truthiness of a parameter value. -/
def JsParam.truthy : JsParam → Bool
  | .undefined => false
  | .null => false
  | .num n => n != 0
  | .str s => s != ""
  | .object _ => true

/-- The expression `a || b` on parameter values. -/
def JsParam.orElse (a b : JsParam) : JsParam :=
  if a.truthy then a else b

/-- The expression `a || b` on names: `none` is `undefined`, the empty string is falsy. -/
def nameOrElse (a b : Option String) : Option String :=
  match DashboardMetrics.truthyString a with
  | some s => some s
  | none => b

/-- An element of the argument `rules`: a string, the value `null`, an object with its
properties `rule`, `name`, `params` and `value` (names are strings or missing), or a
value of any other type (number, boolean, `undefined`, function). -/
inductive RuleSpec
  | name (s : String)
  | null
  | object (rule name : Option String) (params value : JsParam)
  | other
  deriving DecidableEq

/-- The argument `rules`: an array of rules or a single rule. -/
inductive RulesArg
  | array (rules : List RuleSpec)
  | single (rule : RuleSpec)

/-- A rule function applied to the value, the parameters and all values: it returns an
object, of which `valid` is read for its truthiness, or throws an error with a message
(also the case of a rule that returns `undefined` or `null`, where reading `valid`
throws). -/
abbrev RuleFn (V A : Type) := V → JsParam → A → Except String RuleResult

/-- An element of the array `errors`. -/
structure ValidationError where
  rule : String
  message : Option String
  params : JsParam
  deriving DecidableEq

/-- A call of `errorHandler.handleError`, which reports and returns. -/
inductive Handled
  | notFound (ruleName : Option String)
  | threw (ruleName : String) (error : String)
  deriving DecidableEq

/-- The object that `validateValue` returns. -/
structure ValidationResult where
  valid : Bool
  errors : List ValidationError
  deriving DecidableEq

/-- The variables `ruleName` and `ruleParams` of one turn of the loop; reading a property
of `null` throws. -/
def ruleNameAndParams : RuleSpec → Except DashboardMetrics.JsError (Option String × JsParam)
  | .name s => .ok (some s, .null)
  | .null => .error (.typeError "Cannot read properties of null")
  | .object rule name params value => .ok (nameOrElse rule name, params.orElse value)
  | .other => .ok (none, .undefined)

/-- The calls `this.rules.has(ruleName)` and `this.rules.get(ruleName)`; the keys of the
registry are strings. -/
def lookupRule {V A : Type} (rules : List (String × RuleFn V A)) :
    Option String → Option (String × RuleFn V A)
  | some n => (JsMap.get rules n).map (fun f => (n, f))
  | none => none

/-- The loop `for (const rule of rulesArray)` on the arrays `errors` and of the errors
handed to the error handler. -/
def validateLoop {V A : Type} (rules : List (String × RuleFn V A)) (value : V) (allValues : A) :
    List RuleSpec → List ValidationError → List Handled →
      Except DashboardMetrics.JsError (List ValidationError × List Handled)
  | [], errors, handled => .ok (errors, handled)
  | rule :: rest, errors, handled =>
    match ruleNameAndParams rule with
    | .error e => .error e
    | .ok (ruleName, ruleParams) =>
      match lookupRule rules ruleName with
      | none => validateLoop rules value allValues rest errors (handled ++ [.notFound ruleName])
      | some (name, validator) =>
        match validator value ruleParams allValues with
        | .ok result =>
          if !result.valid then
            validateLoop rules value allValues rest
              (errors ++ [{ rule := name, message := result.message, params := ruleParams }])
              handled
          else validateLoop rules value allValues rest errors handled
        | .error msg =>
          validateLoop rules value allValues rest
            (errors ++ [{ rule := name, message := some "Erro interno de validação",
                          params := ruleParams }])
            (handled ++ [.threw name msg])

/-- The array `rulesArray`. -/
def rulesArray : RulesArg → List RuleSpec
  | .array rules => rules
  | .single rule => [rule]

/-- The method `validateValue`, with the errors handed to the error handler. -/
def validateValue {V A : Type} (rules : List (String × RuleFn V A)) (value : V)
    (arg : RulesArg) (allValues : A) :
    Except DashboardMetrics.JsError (ValidationResult × List Handled) :=
  match validateLoop rules value allValues (rulesArray arg) [] [] with
  | .error e => .error e
  | .ok (errors, handled) => .ok ({ valid := errors.length == 0, errors := errors }, handled)

/-! ### The specification of validateValue -/

/-- The name that a listed rule refers to, if it has one. -/
def listedName : RuleSpec → Option String
  | .name s => some s
  | .object rule name _ _ => nameOrElse rule name
  | _ => none

/-- A listed rule is registered. -/
def isRegistered {V A : Type} (rules : List (String × RuleFn V A)) (rule : RuleSpec) : Bool :=
  match listedName rule with
  | some n => JsMap.has rules n
  | none => false

/-- The parameters that a listed rule passes on. -/
def listedParams : RuleSpec → JsParam
  | .name _ => .null
  | .object _ _ params value => params.orElse value
  | _ => .undefined

/-- A registered rule rejects the value or throws. -/
def rejectsOrThrows {V A : Type} (rules : List (String × RuleFn V A)) (value : V)
    (allValues : A) (rule : RuleSpec) : Bool :=
  match listedName rule with
  | some n =>
    match JsMap.get rules n with
    | some f =>
      match f value (listedParams rule) allValues with
      | .ok result => !result.valid
      | .error _ => true
    | none => false
  | none => false

/-- The entry of `errors` for a listed rule that is registered and rejects or throws. -/
def entryOf {V A : Type} (rules : List (String × RuleFn V A)) (value : V)
    (allValues : A) (rule : RuleSpec) : Option ValidationError :=
  match listedName rule with
  | some n =>
    match JsMap.get rules n with
    | some f =>
      match f value (listedParams rule) allValues with
      | .ok result => some { rule := n, message := result.message, params := listedParams rule }
      | .error _ =>
        some { rule := n, message := some "Erro interno de validação",
               params := listedParams rule }
    | none => none
  | none => none

/-- A registry with the rules `required` and `cpf` and a rule that throws. -/
def sampleRules : List (String × RuleFn String Unit) :=
  [("required", fun value _ _ =>
      .ok (if value = "" then { valid := false, message := some "Este campo é obrigatório" }
        else { valid := true, message := none })),
   ("cpf", fun value _ _ => .ok (cpfRule value)),
   ("broken", fun _ _ _ => .error "boom")]

end Validator

namespace ValidationUtils

/-- The table `entities` of the replacement callback, on the characters that the pattern
`/[<>"'&]/g` matches; `none` for every other character. -/
def entityOf (c : Char) : Option String :=
  if c = '<' then some "&lt;"
  else if c = '>' then some "&gt;"
  else if c = Char.ofNat 34 then some "&quot;"
  else if c = Char.ofNat 39 then some "&#x27;"
  else if c = '&' then some "&amp;"
  else none

/-- The call `str.replace(/[<>"'&]/g, callback)`: every matched character is replaced by
its entity, every other character is kept. -/
def escapeChars : List Char → List Char
  | [] => []
  | c :: rest =>
    (match entityOf c with
      | some entity => entity.data
      | none => [c]) ++ escapeChars rest

/-- The result of `sanitizeString` on a string. -/
def sanitizeText (str : String) : String :=
  DashboardMetrics.jsTrim (String.mk (escapeChars str.data))

/-- The argument of `sanitizeString`: a string, or a value of another type. -/
inductive JsValue
  | str (s : String)
  | notString (tag : Nat)
  deriving DecidableEq

/-- The function `ValidationUtils.sanitizeString`. -/
def sanitizeString : JsValue → JsValue
  | .str s => .str (sanitizeText s)
  | .notString tag => .notString tag

/-- The five entities of the specification. -/
def entities : List String :=
  ["&lt;", "&gt;", "&quot;", "&#x27;", "&amp;"]

end ValidationUtils

/-! ## Theorems -/

namespace DashboardMetrics

/-! ### Auxiliary facts -/

theorem setAdd_nodup (s : List String) (x : String) (h : s.Nodup) : (setAdd s x).Nodup := by
  unfold setAdd
  split_ifs with hx
  · exact h
  · exact List.Nodup.append h (List.nodup_singleton x) (by simpa using hx)

theorem setAdd_toFinset (s : List String) (x : String) :
    (setAdd s x).toFinset = insert x s.toFinset := by
  unfold setAdd
  split_ifs with hx
  · ext y; simp only [List.mem_toFinset, Finset.mem_insert]
    constructor
    · exact fun h => Or.inr h
    · rintro (rfl | h)
      · exact hx
      · exact h
  · ext y; simp only [List.toFinset_append, List.toFinset_cons, List.toFinset_nil,
      Finset.mem_union, List.mem_toFinset, Finset.mem_insert, Finset.mem_singleton,
      insert_emptyc_eq]
    tauto

/-! ### Binary64 rounding -/

theorem JsNum.roundHalfEven_of_close (x : ℚ) (m : Int) (h1 : (m : ℚ) - 1 / 2 < x)
    (h2 : x < m + 1 / 2) : JsNum.roundHalfEven x = m := by
  unfold JsNum.roundHalfEven
  by_cases hx : (m : ℚ) ≤ x
  · have hf : ⌊x⌋ = m := by
      rw [Int.floor_eq_iff]
      constructor
      · exact hx
      · linarith
    rw [hf, if_pos (by linarith)]
  · have hx2 : x < m := not_le.mp hx
    have hf : ⌊x⌋ = m - 1 := by
      rw [Int.floor_eq_iff]
      push_cast
      constructor <;> linarith
    rw [hf]
    push_cast
    rw [if_neg (by linarith), if_pos (by linarith)]
    ring

theorem JsNum.roundHalfEven_abs (x : ℚ) : |(JsNum.roundHalfEven x : ℚ) - x| ≤ 1 / 2 := by
  have h1 := Int.floor_le x
  have h2 := Int.lt_floor_add_one x
  unfold JsNum.roundHalfEven
  rw [abs_le]
  split_ifs with ha hb hc
  · constructor <;> linarith
  · push_cast; constructor <;> linarith
  · have : x - ⌊x⌋ = 1 / 2 := le_antisymm (not_lt.mp hb) (not_lt.mp ha)
    constructor <;> linarith
  · have : x - ⌊x⌋ = 1 / 2 := le_antisymm (not_lt.mp hb) (not_lt.mp ha)
    push_cast; constructor <;> linarith

theorem JsNum.log_two_eq (x : ℚ) (e : Int) (hlo : (2 : ℚ) ^ e ≤ x)
    (hhi : x < (2 : ℚ) ^ (e + 1)) : Int.log 2 x = e := by
  have hx : 0 < x := lt_of_lt_of_le (by positivity) hlo
  have h1 : e ≤ Int.log 2 x := by
    rw [← Int.zpow_le_iff_le_log (by norm_num) hx]
    simpa using hlo
  have h2 : Int.log 2 x < e + 1 := by
    rw [← Int.lt_zpow_iff_log_lt (by norm_num) hx]
    simpa using hhi
  omega

theorem JsNum.two_zpow_split (e : Int) :
    (2 : ℚ) ^ (e + 1) = 2 ^ (53 : Int) * 2 ^ (e - 52)
      ∧ (2 : ℚ) ^ e = 2 ^ (52 : Int) * 2 ^ (e - 52)
      ∧ (2 : ℚ) ^ (e + 2) = 2 ^ (54 : Int) * 2 ^ (e - 52) := by
  refine ⟨?_, ?_, ?_⟩ <;> rw [← zpow_add₀ (by norm_num : (2 : ℚ) ≠ 0)] <;> congr 1 <;> ring

/-- In the range of the normal binary64 values the rounding returns the significand
times the unit of the binade, within half a unit of the argument. -/
theorem JsNum.roundPos_core (x : ℚ) (e : Int) (hlo : (2 : ℚ) ^ e ≤ x)
    (hhi : x < (2 : ℚ) ^ (e + 1)) (he1 : -1022 ≤ e) (he2 : e ≤ 1022) :
    JsNum.roundPos x = .fin (JsNum.roundHalfEven (x / 2 ^ (e - 52)) * 2 ^ (e - 52))
      ∧ |(JsNum.roundHalfEven (x / 2 ^ (e - 52)) : ℚ) * 2 ^ (e - 52) - x| ≤ 2 ^ (e - 52) / 2
      ∧ (0 : ℚ) < JsNum.roundHalfEven (x / 2 ^ (e - 52)) * 2 ^ (e - 52) := by
  have hu : (0 : ℚ) < 2 ^ (e - 52) := by positivity
  obtain ⟨hs1, hs0, hs2⟩ := JsNum.two_zpow_split e
  have habs := JsNum.roundHalfEven_abs (x / 2 ^ (e - 52))
  rw [abs_le] at habs
  obtain ⟨ha1, ha2⟩ := habs
  have hxu : x / 2 ^ (e - 52) * 2 ^ (e - 52) = x := div_mul_cancel₀ x (ne_of_gt hu)
  generalize hU : (2 : ℚ) ^ (e - 52) = u at *
  generalize hy : x / u = y at *
  generalize hm : (JsNum.roundHalfEven y : ℚ) = m at *
  have hp53 : (2 : ℚ) ^ (53 : Int) = 9007199254740992 := by norm_num
  have hp52 : (2 : ℚ) ^ (52 : Int) = 4503599627370496 := by norm_num
  have hp54 : (2 : ℚ) ^ (54 : Int) = 18014398509481984 := by norm_num
  rw [hp53] at hs1
  rw [hp52] at hs0
  rw [hp54] at hs2
  have hylo : 4503599627370496 ≤ y := by
    by_contra hc
    have : y * u < 4503599627370496 * u := mul_lt_mul_of_pos_right (not_le.mp hc) hu
    linarith
  have hyhi : y < 9007199254740992 := by
    by_contra hc
    have : 9007199254740992 * u ≤ y * u := mul_le_mul_of_nonneg_right (not_lt.mp hc) hu.le
    linarith
  have hmu1 : m * u - x ≤ u / 2 := by nlinarith
  have hmu2 : -(u / 2) ≤ m * u - x := by nlinarith
  have hmpos : 0 < m := by linarith
  have hlog : Int.log 2 x = e := JsNum.log_two_eq x e hlo hhi
  have hover : ¬ (2 : ℚ) ^ (1024 : Int) ≤ m * u := by
    rw [not_le]
    have h1 : m * u < (2 : ℚ) ^ (e + 2) := by rw [hs2]; nlinarith
    have h2 : (2 : ℚ) ^ (e + 2) ≤ 2 ^ (1024 : Int) :=
      zpow_le_zpow_right₀ (by norm_num) (by omega)
    exact lt_of_lt_of_le h1 h2
  refine ⟨?_, ?_, ?_⟩
  · unfold JsNum.roundPos
    simp only [hlog, max_eq_left he1, hU, hy, hm]
    rw [if_neg hover]
  · rw [abs_le]
    exact ⟨hmu2, hmu1⟩
  · positivity

theorem JsNum.roundPos_eq (x : ℚ) (e m : Int) (hlo : (2 : ℚ) ^ e ≤ x)
    (hhi : x < (2 : ℚ) ^ (e + 1)) (he1 : -1022 ≤ e) (he2 : e ≤ 1022)
    (h1 : (m : ℚ) - 1 / 2 < x / 2 ^ (e - 52)) (h2 : x / 2 ^ (e - 52) < m + 1 / 2) :
    JsNum.roundPos x = .fin (m * 2 ^ (e - 52)) := by
  rw [(JsNum.roundPos_core x e hlo hhi he1 he2).1, JsNum.roundHalfEven_of_close _ m h1 h2]

theorem JsNum.roundPos_rel (x : ℚ) (hlo : (2 : ℚ) ^ (-1022 : Int) ≤ x)
    (hhi : x < (2 : ℚ) ^ (1023 : Int)) :
    ∃ r, JsNum.roundPos x = .fin r ∧ 0 < r ∧ |r - x| ≤ x / 2 ^ 53 := by
  have hx : 0 < x := lt_of_lt_of_le (by positivity) hlo
  have h1 : (2 : ℚ) ^ Int.log 2 x ≤ x := by
    simpa using Int.zpow_log_le_self (b := 2) (by norm_num) hx
  have h2 : x < (2 : ℚ) ^ (Int.log 2 x + 1) := by
    simpa using Int.lt_zpow_succ_log_self (b := 2) (by norm_num) x
  have he1 : -1022 ≤ Int.log 2 x := by
    rw [← Int.zpow_le_iff_le_log (by norm_num) hx]
    simpa using hlo
  have he2 : Int.log 2 x < 1023 := by
    rw [← Int.lt_zpow_iff_log_lt (by norm_num) hx]
    simpa using hhi
  obtain ⟨hr, habs, hpos⟩ := JsNum.roundPos_core x (Int.log 2 x) h1 h2 he1 (by omega)
  refine ⟨_, hr, hpos, le_trans habs ?_⟩
  obtain ⟨-, hs0, -⟩ := JsNum.two_zpow_split (Int.log 2 x)
  have hp52 : (2 : ℚ) ^ (52 : Int) = 4503599627370496 := by norm_num
  rw [hs0, hp52] at h1
  have hp : (2 : ℚ) ^ 53 = 9007199254740992 := by norm_num
  rw [hp, le_div_iff₀ (by norm_num)]
  linarith

/-- The rounding of a positive rational that is not below the least normal value is
`Infinity` or a positive number. -/
theorem JsNum.roundPos_gt_zero (x : ℚ) (hlo : (2 : ℚ) ^ (-1022 : Int) ≤ x) :
    (JsNum.roundPos x).gt 0 = true := by
  have hx : 0 < x := lt_of_lt_of_le (by positivity) hlo
  have h1 : (2 : ℚ) ^ Int.log 2 x ≤ x := by
    simpa using Int.zpow_log_le_self (b := 2) (by norm_num) hx
  have he1 : -1022 ≤ Int.log 2 x := by
    rw [← Int.zpow_le_iff_le_log (by norm_num) hx]
    simpa using hlo
  obtain ⟨-, hs0, -⟩ := JsNum.two_zpow_split (Int.log 2 x)
  have hu : (0 : ℚ) < 2 ^ (Int.log 2 x - 52) := by positivity
  have habs := JsNum.roundHalfEven_abs (x / 2 ^ (Int.log 2 x - 52))
  rw [abs_le] at habs
  have hxu : x / 2 ^ (Int.log 2 x - 52) * 2 ^ (Int.log 2 x - 52) = x :=
    div_mul_cancel₀ x (ne_of_gt hu)
  have hp52 : (2 : ℚ) ^ (52 : Int) = 4503599627370496 := by norm_num
  rw [hs0, hp52] at h1
  have hy : 4503599627370496 ≤ x / 2 ^ (Int.log 2 x - 52) := by
    rw [le_div_iff₀ hu]
    exact h1
  have hm : (0 : ℚ) < JsNum.roundHalfEven (x / 2 ^ (Int.log 2 x - 52)) := by linarith [habs.1]
  unfold JsNum.roundPos
  simp only [max_eq_left he1]
  split_ifs
  · rfl
  · simp only [JsNum.gt, decide_eq_true_eq]
    positivity

theorem JsNum.roundHalfEven_nonneg (x : ℚ) (hx : 0 ≤ x) : 0 ≤ JsNum.roundHalfEven x := by
  have hf : (0 : Int) ≤ ⌊x⌋ := Int.floor_nonneg.mpr hx
  unfold JsNum.roundHalfEven
  split_ifs <;> omega

/-- The rounding of a rational that is not positive is not positive. -/
theorem JsNum.nearest_gt_zero_of_nonpos (x : ℚ) (hx : x ≤ 0) :
    (JsNum.nearest x).gt 0 = false := by
  unfold JsNum.nearest
  by_cases h0 : x = 0
  · rw [if_pos h0]
    simp [JsNum.gt]
  · have hneg : ¬ 0 < x := not_lt.mpr hx
    rw [if_neg h0, if_neg hneg]
    have hm : (0 : ℚ) ≤ JsNum.roundHalfEven
        (-x / 2 ^ (max (Int.log 2 (-x)) (-1022) - 52)) := by
      exact_mod_cast JsNum.roundHalfEven_nonneg _
        (div_nonneg (by linarith) (by positivity))
    unfold JsNum.roundPos
    simp only []
    split_ifs
    · rfl
    · simp only [JsNum.neg, JsNum.gt, decide_eq_false_iff_not, not_lt, neg_nonpos]
      exact mul_nonneg hm (by positivity)

theorem JsNum.div_pos_eq (a b : ℚ) (e m : Int) (hb : 0 < b) (hlo : (2 : ℚ) ^ e ≤ a / b)
    (hhi : a / b < (2 : ℚ) ^ (e + 1)) (he1 : -1022 ≤ e) (he2 : e ≤ 1022)
    (h1 : (m : ℚ) - 1 / 2 < a / b / 2 ^ (e - 52)) (h2 : a / b / 2 ^ (e - 52) < m + 1 / 2) :
    JsNum.div a b = .fin (m * 2 ^ (e - 52)) := by
  have hx : 0 < a / b := lt_of_lt_of_le (by positivity) hlo
  unfold JsNum.div JsNum.nearest
  rw [if_neg (ne_of_gt hb), if_neg (ne_of_gt hx), if_pos hx]
  exact JsNum.roundPos_eq _ e m hlo hhi he1 he2 h1 h2

/-- A quotient of two positive numbers inside the binary64 range is a positive number
within the relative error `2^-53` of the exact quotient. -/
theorem JsNum.div_pos_rel (a b : ℚ) (ha : 0 < a) (hb : 0 < b) (hlo : 1 / 2 ^ 100 ≤ a / b)
    (hhi : a / b ≤ 2 ^ 100) :
    ∃ r, JsNum.div a b = .fin r ∧ 0 < r ∧ |r - a / b| ≤ a / b * (1 / 2 ^ 53) := by
  have hx : 0 < a / b := div_pos ha hb
  have h1 : (2 : ℚ) ^ (-1022 : Int) ≤ a / b := by
    refine le_trans ?_ hlo
    have : (1 : ℚ) / 2 ^ 100 = 2 ^ (-100 : Int) := by norm_num
    rw [this]
    exact zpow_le_zpow_right₀ (by norm_num) (by norm_num)
  have h2 : a / b < (2 : ℚ) ^ (1023 : Int) := by
    refine lt_of_le_of_lt hhi ?_
    have : (2 : ℚ) ^ 100 = 2 ^ (100 : Int) := by norm_num
    rw [this]
    exact zpow_lt_zpow_right₀ (by norm_num) (by norm_num)
  obtain ⟨r, hr, hpos, habs⟩ := JsNum.roundPos_rel (a / b) h1 h2
  refine ⟨r, ?_, hpos, ?_⟩
  · unfold JsNum.div JsNum.nearest
    rw [if_neg (ne_of_gt hb), if_neg (ne_of_gt hx), if_pos hx]
    exact hr
  · rw [mul_one_div]
    exact habs

/-- The quotient of a positive number by a positive one, not below the least normal
value, compares as positive. -/
theorem JsNum.div_gt_zero (a b : ℚ) (hb : 0 < b) (hlo : (2 : ℚ) ^ (-1022 : Int) ≤ a / b) :
    (JsNum.div a b).gt 0 = true := by
  have hx : 0 < a / b := lt_of_lt_of_le (by positivity) hlo
  unfold JsNum.div JsNum.nearest
  rw [if_neg (ne_of_gt hb), if_neg (ne_of_gt hx), if_pos hx]
  exact JsNum.roundPos_gt_zero _ hlo

theorem JsNum.div_gt_zero_of_nonpos (a b : ℚ) (ha : a ≤ 0) (hb : 0 < b) :
    (JsNum.div a b).gt 0 = false := by
  unfold JsNum.div
  rw [if_neg (ne_of_gt hb)]
  exact JsNum.nearest_gt_zero_of_nonpos _ (div_nonpos_of_nonpos_of_nonneg ha hb.le)

/-- Error of a quotient by a constant when the dividend carries an error. -/
theorem JsNum.rel_error_div_const (Y y c z ε u : ℚ) (hY : 0 < Y) (hc : 0 < c) (hε0 : 0 ≤ ε)
    (hε : ε ≤ 1) (hu : 0 ≤ u) (hy : |y - Y| ≤ Y * ε) (hz : |z - y / c| ≤ y / c * u) :
    |z - Y / c| ≤ Y / c * (ε + 2 * u) := by
  rw [abs_le] at hy hz ⊢
  obtain ⟨hy1, hy2⟩ := hy
  obtain ⟨hz1, hz2⟩ := hz
  have hyc : y / c ≤ Y / c * (1 + ε) := by
    rw [div_mul_eq_mul_div, div_le_div_iff_of_pos_right hc]
    linarith
  have hyc2 : Y / c * (1 - ε) ≤ y / c := by
    rw [div_mul_eq_mul_div, div_le_div_iff_of_pos_right hc]
    linarith
  have hYc : 0 < Y / c := div_pos hY hc
  have hyc0 : 0 ≤ y / c := le_trans (mul_nonneg hYc.le (by linarith)) hyc2
  constructor
  · nlinarith [mul_nonneg hyc0 hu, mul_nonneg hYc.le hu, mul_nonneg (mul_nonneg hYc.le hε0) hu]
  · nlinarith [mul_nonneg hyc0 hu, mul_nonneg hYc.le hu, mul_nonneg (mul_nonneg hYc.le hε0) hu]

/-- Error of a quotient when the divisor carries an error. -/
theorem JsNum.rel_error_div_by (N X r z ε u : ℚ) (hN : 0 ≤ N) (hX : 0 < X) (hr : 0 < r)
    (hε0 : 0 ≤ ε) (hε : ε ≤ 1 / 2) (hu0 : 0 ≤ u) (hrX : |r - X| ≤ X * ε)
    (hz : |z - N / r| ≤ N / r * u) :
    |z - N / X| ≤ N / X * (2 * ε + 2 * u) := by
  rw [abs_le] at hrX hz ⊢
  obtain ⟨hr1, hr2⟩ := hrX
  obtain ⟨hz1, hz2⟩ := hz
  have hE : 0 ≤ N / X := div_nonneg hN hX.le
  have hF : 0 ≤ N / r := div_nonneg hN hr.le
  have hFr : N / r * r = N := div_mul_cancel₀ N (ne_of_gt hr)
  have hEX : N / X * X = N := div_mul_cancel₀ N (ne_of_gt hX)
  generalize N / r = F at *
  generalize N / X = E at *
  have h1 : F * (1 - ε) ≤ E := by
    have : F * (X * (1 - ε)) ≤ E * X := by
      rw [hEX, ← hFr]
      exact mul_le_mul_of_nonneg_left (by linarith) hF
    have h2 : F * (1 - ε) * X ≤ E * X := by linarith
    exact le_of_mul_le_mul_right h2 hX
  have h2 : E ≤ F * (1 + ε) := by
    have : E * X ≤ F * (X * (1 + ε)) := by
      rw [hEX, ← hFr]
      exact mul_le_mul_of_nonneg_left (by linarith) hF
    have h2 : E * X ≤ F * (1 + ε) * X := by linarith
    exact le_of_mul_le_mul_right h2 hX
  have h3 : F ≤ E * (1 + 2 * ε) := by
    nlinarith [mul_nonneg hF hε0, mul_nonneg (mul_nonneg hF hε0) (by linarith : (0:ℚ) ≤ 1 - 2 * ε)]
  have h4 : E * (1 - ε) ≤ F := by
    nlinarith [mul_nonneg hF hε0, mul_nonneg (mul_nonneg hF hε0) hε0]
  constructor
  · nlinarith [mul_nonneg hF hu0, mul_nonneg hE hu0, mul_nonneg hE hε0,
      mul_nonneg (mul_nonneg hE hε0) hu0]
  · nlinarith [mul_nonneg hF hu0, mul_nonneg hE hu0, mul_nonneg hE hε0,
      mul_nonneg (mul_nonneg hE hε0) hu0]

/-- A quotient that is itself a normal binary64 value is returned exactly. -/
theorem JsNum.div_exact (a b : ℚ) (e m : Int) (hb : 0 < b) (hx : a / b = m * 2 ^ (e - 52))
    (hm1 : (4503599627370496 : ℚ) ≤ m) (hm2 : (m : ℚ) < 9007199254740992)
    (he1 : -1022 ≤ e) (he2 : e ≤ 1022) : JsNum.div a b = .fin (a / b) := by
  obtain ⟨hs1, hs0, -⟩ := JsNum.two_zpow_split e
  have hp53 : (2 : ℚ) ^ (53 : Int) = 9007199254740992 := by norm_num
  have hp52 : (2 : ℚ) ^ (52 : Int) = 4503599627370496 := by norm_num
  rw [hp53] at hs1
  rw [hp52] at hs0
  have hu : (0 : ℚ) < 2 ^ (e - 52) := by positivity
  have hq : a / b / 2 ^ (e - 52) = m := by
    rw [hx]
    exact mul_div_cancel_right₀ _ (ne_of_gt hu)
  rw [JsNum.div_pos_eq a b e m hb
    (by rw [hs0, hx]; exact mul_le_mul_of_nonneg_right hm1 hu.le)
    (by rw [hs1, hx]; exact mul_lt_mul_of_pos_right hm2 hu) he1 he2
    (by rw [hq]; linarith) (by rw [hq]; linarith), hx]

theorem JsNum.div_minutes_gt_zero (d : Int) (hd : 0 < d) :
    (JsNum.div (d : ℚ) 60000).gt 0 = true := by
  have hq : (1 : ℚ) ≤ (d : ℚ) := by exact_mod_cast hd
  apply JsNum.div_gt_zero _ _ (by norm_num)
  have h1 : (2 : ℚ) ^ (-1022 : Int) ≤ 2 ^ (-17 : Int) :=
    zpow_le_zpow_right₀ (by norm_num) (by norm_num)
  have h2 : (2 : ℚ) ^ (-17 : Int) = 1 / 131072 := by norm_num
  rw [h2] at h1
  refine le_trans h1 ?_
  rw [le_div_iff₀ (by norm_num)]
  linarith

/-- The rate that a click stores for `n` clicks after `d` milliseconds, both positive
and below `2^53`: a positive number within the relative error `2^-51` of the exact
quotient. -/
theorem JsNum.clickRate_rel (n : Nat) (d : Int) (hn : 0 < n) (hn2 : n < 2 ^ 53) (hd : 0 < d)
    (hd2 : d < 2 ^ 53) :
    ∃ q, JsNum.divide (.fin (n : ℚ)) (JsNum.div (d : ℚ) 60000) = .fin q ∧ 0 < q
      ∧ |q - (n : ℚ) / ((d : ℚ) / 60000)| ≤ (n : ℚ) / ((d : ℚ) / 60000) * (1 / 2 ^ 51) := by
  have hD1 : (1 : ℚ) ≤ d := by exact_mod_cast hd
  have hD2 : (d : ℚ) < 9007199254740992 := by
    have h53 : d < 9007199254740992 := lt_of_lt_of_eq hd2 (by norm_num)
    exact_mod_cast h53
  have hN1 : (1 : ℚ) ≤ n := by exact_mod_cast hn
  have hN2 : (n : ℚ) < 9007199254740992 := by
    have h53 : n < 9007199254740992 := lt_of_lt_of_eq hn2 (by norm_num)
    exact_mod_cast h53
  obtain ⟨r1, h1, hr1, ha1⟩ := JsNum.div_pos_rel (d : ℚ) 60000 (by linarith) (by norm_num)
    (by rw [le_div_iff₀ (by norm_num)]; norm_num; linarith)
    (by rw [div_le_iff₀ (by norm_num)]; norm_num; linarith)
  have hb := abs_le.mp ha1
  obtain ⟨l1, l2⟩ := hb
  norm_num at l1 l2
  obtain ⟨q, h2, hq, ha2⟩ := JsNum.div_pos_rel (n : ℚ) r1 (by linarith) hr1
    (by rw [le_div_iff₀ hr1]; norm_num; linarith)
    (by rw [div_le_iff₀ hr1]; norm_num; linarith)
  refine ⟨q, ?_, hq, ?_⟩
  · rw [h1]
    exact h2
  · have h := JsNum.rel_error_div_by (n : ℚ) ((d : ℚ) / 60000) r1 q (1 / 2 ^ 53) (1 / 2 ^ 53)
      (by linarith) (by positivity) hr1 (by norm_num) (by norm_num) (by norm_num) ha1 ha2
    have hc : (2 : ℚ) * (1 / 2 ^ 53) + 2 * (1 / 2 ^ 53) = 1 / 2 ^ 51 := by norm_num
    rw [hc] at h
    exact h

/-- The elapsed hours of `getOccurrenceStats` for `d` milliseconds, positive and below
`2^53`: a positive number within the relative error `5 * 2^-53` of `d / 3600000`. -/
theorem JsNum.hours_rel (d : Int) (hd : 0 < d) (hd2 : d < 2 ^ 53) :
    ∃ r3, JsNum.divide (JsNum.divide (JsNum.div (d : ℚ) 1000) (.fin 60)) (.fin 60) = .fin r3
      ∧ 0 < r3
      ∧ |r3 - (d : ℚ) / 1000 / 60 / 60|
          ≤ (d : ℚ) / 1000 / 60 / 60 * (1 / 2 ^ 53 + 2 * (1 / 2 ^ 53) + 2 * (1 / 2 ^ 53)) := by
  have hD1 : (1 : ℚ) ≤ d := by exact_mod_cast hd
  have hD2 : (d : ℚ) < 9007199254740992 := by
    have h53 : d < 9007199254740992 := lt_of_lt_of_eq hd2 (by norm_num)
    exact_mod_cast h53
  obtain ⟨r1, h1, hr1, ha1⟩ := JsNum.div_pos_rel (d : ℚ) 1000 (by linarith) (by norm_num)
    (by rw [le_div_iff₀ (by norm_num)]; norm_num; linarith)
    (by rw [div_le_iff₀ (by norm_num)]; norm_num; linarith)
  obtain ⟨l1, l2⟩ := abs_le.mp ha1
  norm_num at l1 l2
  obtain ⟨r2, h2, hr2p, ha2⟩ := JsNum.div_pos_rel r1 60 hr1 (by norm_num)
    (by rw [le_div_iff₀ (by norm_num)]; norm_num; linarith)
    (by rw [div_le_iff₀ (by norm_num)]; norm_num; linarith)
  have hb2 := JsNum.rel_error_div_const ((d : ℚ) / 1000) r1 60 r2 (1 / 2 ^ 53) (1 / 2 ^ 53)
    (by positivity) (by norm_num) (by norm_num) (by norm_num) (by norm_num) ha1 ha2
  obtain ⟨l3, l4⟩ := abs_le.mp hb2
  norm_num at l3 l4
  obtain ⟨r3, h3, hr3p, ha3⟩ := JsNum.div_pos_rel r2 60 hr2p (by norm_num)
    (by rw [le_div_iff₀ (by norm_num)]; norm_num; linarith)
    (by rw [div_le_iff₀ (by norm_num)]; norm_num; linarith)
  have hb3 := JsNum.rel_error_div_const ((d : ℚ) / 1000 / 60) r2 60 r3
    (1 / 2 ^ 53 + 2 * (1 / 2 ^ 53)) (1 / 2 ^ 53)
    (by positivity) (by norm_num) (by norm_num) (by norm_num) (by norm_num) hb2 ha3
  refine ⟨r3, ?_, hr3p, hb3⟩
  rw [h1]
  show JsNum.divide (JsNum.div r1 60) _ = _
  rw [h2]
  exact h3

/-- The hourly rate of `getOccurrenceStats` for `r` registrations after `d`
milliseconds, both positive and below `2^53`: a positive number within the relative error
`2^-49` of the exact quotient. -/
theorem JsNum.perHour_rel (r : Nat) (d : Int) (hr : 0 < r) (hr2 : r < 2 ^ 53) (hd : 0 < d)
    (hd2 : d < 2 ^ 53) :
    ∃ q, JsNum.divide (.fin (r : ℚ))
          (JsNum.divide (JsNum.divide (JsNum.div (d : ℚ) 1000) (.fin 60)) (.fin 60)) = .fin q
      ∧ 0 < q
      ∧ |q - (r : ℚ) / ((d : ℚ) / 3600000)| ≤ (r : ℚ) / ((d : ℚ) / 3600000) * (1 / 2 ^ 49) := by
  have hD1 : (1 : ℚ) ≤ d := by exact_mod_cast hd
  have hD2 : (d : ℚ) < 9007199254740992 := by
    have h53 : d < 9007199254740992 := lt_of_lt_of_eq hd2 (by norm_num)
    exact_mod_cast h53
  have hN1 : (1 : ℚ) ≤ r := by exact_mod_cast hr
  have hN2 : (r : ℚ) < 9007199254740992 := by
    have h53 : r < 9007199254740992 := lt_of_lt_of_eq hr2 (by norm_num)
    exact_mod_cast h53
  obtain ⟨r3, h3, hr3p, hb3⟩ := JsNum.hours_rel d hd hd2
  obtain ⟨l5, l6⟩ := abs_le.mp hb3
  norm_num at l5 l6
  obtain ⟨q, h4, hq, ha4⟩ := JsNum.div_pos_rel (r : ℚ) r3 (by linarith) hr3p
    (by rw [le_div_iff₀ hr3p]; norm_num; linarith)
    (by rw [div_le_iff₀ hr3p]; norm_num; linarith)
  refine ⟨q, ?_, hq, ?_⟩
  · rw [h3]
    exact h4
  · have h := JsNum.rel_error_div_by (r : ℚ) ((d : ℚ) / 1000 / 60 / 60) r3 q
      (1 / 2 ^ 53 + 2 * (1 / 2 ^ 53) + 2 * (1 / 2 ^ 53)) (1 / 2 ^ 53)
      (by linarith) (by positivity) hr3p (by norm_num) (by norm_num) (by norm_num) hb3 ha4
    have hX : (d : ℚ) / 1000 / 60 / 60 = (d : ℚ) / 3600000 := by ring
    rw [hX] at h
    refine le_trans h (mul_le_mul_of_nonneg_left (by norm_num) ?_)
    positivity

/-! ### Counters under `recordClick` -/

theorem recordClick_totalClicks (m : Metrics) (event : ClickEvent) (clock : ClickClock) :
    (recordClick m event clock).1.totalClicks = m.totalClicks + 1 := rfl

theorem recordClick_uniqueFields (m : Metrics) (event : ClickEvent) (clock : ClickClock) :
    (recordClick m event clock).1.uniqueFields
      = setAdd m.uniqueFields (getFieldInfo event.target clock.fieldInfoTime).id := rfl

theorem recordClick_sessionStart (m : Metrics) (event : ClickEvent) (clock : ClickClock) :
    (recordClick m event clock).1.sessionStart = m.sessionStart := rfl

theorem clickAll_counts (calls : List (ClickEvent × ClickClock)) (m : Metrics)
    (h : m.uniqueFields.Nodup) :
    (clickAll m calls).totalClicks = m.totalClicks + calls.length
      ∧ (clickAll m calls).uniqueFields.Nodup
      ∧ (clickAll m calls).uniqueFields.toFinset
        = m.uniqueFields.toFinset ∪ (calls.map clickedId).toFinset := by
  induction calls generalizing m with
  | nil => simp [clickAll, h]
  | cons c rest ih =>
    have hstep := ih (recordClick m c.1 c.2).1
      (by rw [recordClick_uniqueFields]; exact setAdd_nodup _ _ h)
    rw [recordClick_totalClicks, recordClick_uniqueFields, setAdd_toFinset] at hstep
    obtain ⟨h1, h2, h3⟩ := hstep
    refine ⟨?_, h2, ?_⟩
    · show (clickAll (recordClick m c.1 c.2).1 rest).totalClicks = _
      rw [h1, List.length_cons]; omega
    · show (clickAll (recordClick m c.1 c.2).1 rest).uniqueFields.toFinset = _
      rw [h3]
      ext y
      simp only [clickedId, Finset.mem_union, Finset.mem_insert, List.mem_toFinset,
        List.map_cons, List.mem_cons]
      tauto

theorem clickAll_fresh (calls : List (ClickEvent × ClickClock)) (m : Metrics)
    (h0 : m.totalClicks = 0) (hu : m.uniqueFields = []) :
    (clickAll m calls).totalClicks = calls.length
      ∧ (clickAll m calls).uniqueFields.length = (calls.map clickedId).toFinset.card := by
  obtain ⟨h1, h2, h3⟩ := clickAll_counts calls m (by rw [hu]; exact List.nodup_nil)
  refine ⟨by rw [h1, h0]; omega, ?_⟩
  rw [← List.toFinset_card_of_nodup h2, h3, hu]
  simp

theorem recordClick_clickFrequency (m : Metrics) (event : ClickEvent) (clock : ClickClock) :
    (recordClick m event clock).1.userBehavior.clickFrequency
      = if clock.currentTime - m.sessionStart ≤ 0 then JsNum.fin 0
        else JsNum.divide (.fin ((m.totalClicks + 1 : Nat) : ℚ))
          (JsNum.div ((clock.currentTime - m.sessionStart : Int) : ℚ) 60000) := by
  show (if (JsNum.div ((clock.currentTime - m.sessionStart : Int) : ℚ) 60000).gt 0 = true
      then JsNum.divide (.fin ((m.totalClicks + 1 : Nat) : ℚ))
        (JsNum.div ((clock.currentTime - m.sessionStart : Int) : ℚ) 60000)
      else JsNum.fin 0) = _
  by_cases h : clock.currentTime - m.sessionStart ≤ 0
  · have hq : ((clock.currentTime - m.sessionStart : Int) : ℚ) ≤ 0 := by exact_mod_cast h
    rw [JsNum.div_gt_zero_of_nonpos _ _ hq (by norm_num), if_pos h]
    rfl
  · rw [JsNum.div_minutes_gt_zero _ (not_le.mp h), if_neg h]
    rfl

theorem toFixed2_of_floor (q : ℚ) (n : Nat) (hq : 0 ≤ q) (h : ⌊q * 100 + 1 / 2⌋ = (n : Int)) :
    toFixed2 q = toString (n / 100) ++ "." ++ (if n % 100 < 10 then "0" else "")
      ++ toString (n % 100) := by
  unfold toFixed2
  rw [abs_of_nonneg hq, h, if_neg (not_lt.mpr hq)]
  simp

theorem toFixed2_zero : toFixed2 0 = "0.00" := by
  rw [toFixed2_of_floor 0 0 (le_refl 0) (by rw [Int.floor_eq_iff]; norm_num)]
  decide

theorem toFixed2_one : toFixed2 1 = "1.00" := by
  rw [toFixed2_of_floor 1 100 (by norm_num) (by rw [Int.floor_eq_iff]; norm_num)]
  decide

theorem toFixed2_half : toFixed2 (1 / 2) = "0.50" := by
  rw [toFixed2_of_floor (1 / 2) 50 (by norm_num) (by rw [Int.floor_eq_iff]; norm_num)]
  decide

theorem interact_passive_frame (m : Metrics) (i : Interaction) (h : i.isPassive = true) :
    (interact m i).userBehavior = m.userBehavior
      ∧ (interact m i).sessionStart = m.sessionStart
      ∧ (interact m i).totalClicks = m.totalClicks := by
  cases i with
  | click event clock => simp [Interaction.isPassive] at h
  | reset now => simp [Interaction.isPassive] at h
  | hover target now =>
    simp only [interact, recordHover]
    split_ifs <;> exact ⟨rfl, rfl, rfl⟩
  | focus target now =>
    simp only [interact, recordFocus]
    split_ifs <;> exact ⟨rfl, rfl, rfl⟩

theorem foldl_interact_passive_frame (later : List Interaction) (m : Metrics)
    (h : ∀ i ∈ later, i.isPassive = true) :
    (later.foldl interact m).userBehavior = m.userBehavior
      ∧ (later.foldl interact m).sessionStart = m.sessionStart
      ∧ (later.foldl interact m).totalClicks = m.totalClicks := by
  induction later generalizing m with
  | nil => exact ⟨rfl, rfl, rfl⟩
  | cons i rest ih =>
    obtain ⟨h1, h2, h3⟩ := interact_passive_frame m i (h i (List.mem_cons_self i rest))
    obtain ⟨k1, k2, k3⟩ := ih (interact m i) (fun j hj => h j (List.mem_cons_of_mem i hj))
    exact ⟨k1.trans h1, k2.trans h2, k3.trans h3⟩

/-- One `recordOccurrenceRegistration` call on a state that has stored at least one
timestamp: the call appends its timestamp, and the average it leaves is computed from the
timestamps stored before the call only. -/
theorem recordOccurrenceRegistration_average (m : Metrics) (o : Occurrences) (type : String)
    (t now : Int) (hocc : m.occurrences = some o) (hne : o.registrationTimes ≠ [])
    (ht : t ≠ 0) :
    ∃ r o1, recordOccurrenceRegistration m type (some t) now = .ok r
      ∧ r.1.occurrences = some o1
      ∧ o1.registrationTimes = o.registrationTimes ++ [t]
      ∧ o1.averageRegistrationTime
        = (if o.registrationTimes.length ≤ 1 then 0
           else (sumDeltas o.registrationTimes : ℚ)
             / ((o.registrationTimes.length - 1 : Nat) : ℚ)) := by
  obtain ⟨lastTime, hlast⟩ : ∃ x, o.registrationTimes.getLast? = some x := by
    cases h : o.registrationTimes.getLast? with
    | none => exact absurd (List.getLast?_eq_none_iff.mp h) hne
    | some x => exact ⟨x, rfl⟩
  have hlen : o.registrationTimes.length ≤ 1 ∨ ¬ o.registrationTimes.length ≤ 1 :=
    (le_or_lt _ _).imp id not_le.mpr
  by_cases hp : type = "patrimonial" <;> by_cases hv : type = "veicular" <;>
    rcases hlen with hl | hl <;>
    simp [recordOccurrenceRegistration, hocc, hp, hv, hlast, ht, updateAverageRegistrationTime, hl]

/-! ### Dictionaries -/

theorem JsObject.insertIndex_perm {α : Type} (o : JsObject α) (k : String) (n : Nat) (v : α) :
    List.Perm (JsObject.insertIndex o k n v) ((k, v) :: o) := by
  induction o with
  | nil => exact List.Perm.refl _
  | cons p rest ih =>
    obtain ⟨k1, v1⟩ := p
    simp only [JsObject.insertIndex]
    split
    · split_ifs
      · exact (List.Perm.cons _ ih).trans (List.Perm.swap _ _ _)
      · exact List.Perm.refl _
    · exact List.Perm.refl _

theorem JsObject.insertNew_perm {α : Type} (o : JsObject α) (k : String) (v : α) :
    List.Perm (JsObject.insertNew o k v) ((k, v) :: o) := by
  unfold JsObject.insertNew
  split
  · exact List.perm_append_singleton _ _
  · exact JsObject.insertIndex_perm o k _ v

theorem JsObject.insertNew_of_not_index {α : Type} (o : JsObject α) (k : String) (v : α)
    (h : arrayIndex? k = none) : JsObject.insertNew o k v = o ++ [(k, v)] := by
  unfold JsObject.insertNew
  rw [h]

theorem JsObject.get_eq_none_iff {α : Type} (o : JsObject α) (k : String) :
    JsObject.get o k = none ↔ k ∉ o.map Prod.fst := by
  induction o with
  | nil => simp [JsObject.get]
  | cons p rest ih =>
    obtain ⟨k1, v1⟩ := p
    unfold JsObject.get at ih ⊢
    by_cases h : k = k1
    · subst h
      simp [List.lookup]
    · have hb : (k == k1) = false := by simpa using h
      simp only [List.lookup, hb, ih, List.map_cons, List.mem_cons, h, false_or]

theorem JsObject.get_of_mem {α : Type} (o : JsObject α) (k : String) (v : α)
    (hnd : (o.map Prod.fst).Nodup) (hmem : (k, v) ∈ o) : JsObject.get o k = some v := by
  induction o with
  | nil => simp at hmem
  | cons p rest ih =>
    obtain ⟨k1, v1⟩ := p
    rw [List.map_cons, List.nodup_cons] at hnd
    unfold JsObject.get at ih ⊢
    rcases List.mem_cons.mp hmem with heq | hrest
    · obtain ⟨rfl, rfl⟩ := Prod.mk.inj heq
      simp [List.lookup]
    · have hk : k ≠ k1 := by
        rintro rfl
        exact hnd.1 (List.mem_map.mpr ⟨(k, v), hrest, rfl⟩)
      have hb : (k == k1) = false := by simpa using hk
      simp only [List.lookup, hb]
      exact ih hnd.2 hrest

theorem JsObject.set_of_get_none {α : Type} (o : JsObject α) (k : String) (v : α)
    (h : JsObject.get o k = none) : JsObject.set o k v = JsObject.insertNew o k v := by
  unfold JsObject.set
  rw [if_neg]
  rw [JsObject.get_eq_none_iff] at h
  simp only [List.any_eq_true, beq_iff_eq, not_exists, not_and]
  intro p hp hk
  exact h (List.mem_map.mpr ⟨p, hp, hk⟩)

theorem JsObject.modify_keys {α : Type} (o : JsObject α) (k : String) (f : α → α) :
    (JsObject.modify o k f).map Prod.fst = o.map Prod.fst := by
  unfold JsObject.modify
  rw [List.map_map]
  apply List.map_congr_left
  intro p _
  simp only [Function.comp]
  split_ifs <;> rfl

theorem JsObject.mem_modify {α : Type} (o : JsObject α) (k : String) (f : α → α)
    (p : String × α) (hp : p ∈ JsObject.modify o k f) :
    ∃ q ∈ o, p.1 = q.1 ∧ ((q.1 ≠ k ∧ p.2 = q.2) ∨ (q.1 = k ∧ p.2 = f q.2)) := by
  unfold JsObject.modify at hp
  obtain ⟨q, hq, rfl⟩ := List.mem_map.mp hp
  refine ⟨q, hq, ?_⟩
  split_ifs with h
  · exact ⟨rfl, Or.inr ⟨h, rfl⟩⟩
  · exact ⟨rfl, Or.inl ⟨h, rfl⟩⟩

theorem JsObject.modify_of_get_none {α : Type} (o : JsObject α) (k : String) (f : α → α)
    (h : JsObject.get o k = none) : JsObject.modify o k f = o := by
  have hk := (JsObject.get_eq_none_iff o k).mp h
  unfold JsObject.modify
  conv_rhs => rw [← List.map_id o]
  apply List.map_congr_left
  intro p hp
  have hne : p.1 ≠ k := fun e => hk (e ▸ List.mem_map_of_mem Prod.fst hp)
  rw [if_neg hne]
  rfl

theorem JsObject.truthyAt_of_get_some {α : Type} (o : JsObject α) (k : String) (v : α)
    (h : JsObject.get o k = some v) : JsObject.truthyAt o k = true := by
  simp [JsObject.truthyAt, h]

theorem JsObject.truthyAt_of_member {α : Type} (o : JsObject α) (k : String)
    (hk : k ∈ objectPrototypeMembers) : JsObject.truthyAt o k = true := by
  simp [JsObject.truthyAt, hk]

theorem JsObject.truthyAt_of_neither {α : Type} (o : JsObject α) (k : String)
    (h : JsObject.get o k = none) (hk : k ∉ objectPrototypeMembers) :
    JsObject.truthyAt o k = false := by
  simp [JsObject.truthyAt, h, hk]

/-! ### The scan for the most clicked field -/

theorem mostClicked_scan (fi : JsObject FieldStats) (n : Nat) (r : Option String) :
    (fi.foldl (fun acc p => if p.2.clicks > acc.1 then (p.2.clicks, some p.1) else acc) (n, r)
        = (n, r) ∧ ∀ p ∈ fi, p.2.clicks ≤ n)
      ∨ ∃ pre f d post, fi = pre ++ (f, d) :: post
          ∧ fi.foldl (fun acc p => if p.2.clicks > acc.1 then (p.2.clicks, some p.1) else acc)
              (n, r) = (d.clicks, some f)
          ∧ n < d.clicks
          ∧ (∀ p ∈ pre, p.2.clicks < d.clicks)
          ∧ (∀ p ∈ post, p.2.clicks ≤ d.clicks) := by
  induction fi generalizing n r with
  | nil => exact Or.inl ⟨rfl, fun p hp => absurd hp (List.not_mem_nil p)⟩
  | cons p rest ih =>
    rw [List.foldl_cons]
    by_cases hgt : p.2.clicks > n
    · simp only [hgt, if_true]
      rcases ih p.2.clicks (some p.1) with ⟨hres, hall⟩ | ⟨pre, f, d, post, hsplit, hres, hlt, hpre, hpost⟩
      · exact Or.inr ⟨[], p.1, p.2, rest, rfl, hres, hgt,
          fun q hq => absurd hq (List.not_mem_nil q), hall⟩
      · refine Or.inr ⟨p :: pre, f, d, post, by rw [hsplit]; rfl, hres, lt_trans hgt hlt, ?_, hpost⟩
        intro q hq
        rcases List.mem_cons.mp hq with rfl | hq
        · exact hlt
        · exact hpre q hq
    · simp only [hgt, if_false]
      rcases ih n r with ⟨hres, hall⟩ | ⟨pre, f, d, post, hsplit, hres, hlt, hpre, hpost⟩
      · refine Or.inl ⟨hres, ?_⟩
        intro q hq
        rcases List.mem_cons.mp hq with rfl | hq
        · exact not_lt.mp hgt
        · exact hall q hq
      · refine Or.inr ⟨p :: pre, f, d, post, by rw [hsplit]; rfl, hres, hlt, ?_, hpost⟩
        intro q hq
        rcases List.mem_cons.mp hq with rfl | hq
        · exact lt_of_le_of_lt (not_lt.mp hgt) hlt
        · exact hpre q hq

theorem mostClicked_some (fi : JsObject FieldStats) (f : String)
    (h : (mostClicked fi).2 = some f) :
    ∃ pre d post, fi = pre ++ (f, d) :: post
      ∧ (∀ p ∈ pre, p.2.clicks < d.clicks) ∧ (∀ p ∈ post, p.2.clicks ≤ d.clicks) := by
  unfold mostClicked at h
  rcases mostClicked_scan fi 0 none with ⟨hres, -⟩ | ⟨pre, g, d, post, hsplit, hres, -, hpre, hpost⟩
  · rw [hres] at h
    exact absurd h (by simp)
  · rw [hres] at h
    obtain rfl : g = f := Option.some.inj h
    exact ⟨pre, d, post, hsplit, hpre, hpost⟩

theorem mostClicked_none (fi : JsObject FieldStats) (h : (mostClicked fi).2 = none) :
    ∀ p ∈ fi, p.2.clicks = 0 := by
  unfold mostClicked at h
  rcases mostClicked_scan fi 0 none with ⟨-, hall⟩ | ⟨pre, g, d, post, -, hres, -, -, -⟩
  · exact fun p hp => Nat.le_zero.mp (hall p hp)
  · rw [hres] at h
    exact absurd h (by simp)

theorem mostClicked_modify (fi : JsObject FieldStats) (k : String) (f : FieldStats → FieldStats)
    (hf : ∀ d, (f d).clicks = d.clicks) :
    mostClicked (JsObject.modify fi k f) = mostClicked fi := by
  unfold mostClicked JsObject.modify
  rw [List.foldl_map]
  congr 1
  funext acc p
  split_ifs <;> simp_all

/-! ### The per-field table under `recordClick` -/

theorem recordClick_fieldInteractions_eq (m : Metrics) (event : ClickEvent)
    (clock : ClickClock) :
    (recordClick m event clock).1.fieldInteractions
      = JsObject.modify
          (if m.fieldInteractions.truthyAt (clickedId (event, clock)) = true then
             m.fieldInteractions
           else
             JsObject.set m.fieldInteractions (clickedId (event, clock))
               (freshFieldStats event clock))
          (clickedId (event, clock))
          (fun d => { d with clicks := d.clicks + 1, lastInteraction := clock.timestamp }) :=
  rfl

theorem recordClick_fieldInteractions (m : Metrics) (event : ClickEvent) (clock : ClickClock)
    (hid : clickedId (event, clock) ∉ objectPrototypeMembers) :
    ∃ created, (recordClick m event clock).1.fieldInteractions
        = JsObject.modify created (clickedId (event, clock))
            (fun d => { d with clicks := d.clicks + 1, lastInteraction := clock.timestamp })
      ∧ ((∃ d, m.fieldInteractions.get (clickedId (event, clock)) = some d
            ∧ created = m.fieldInteractions)
        ∨ (m.fieldInteractions.get (clickedId (event, clock)) = none
            ∧ ∃ v : FieldStats, created
                = JsObject.insertNew m.fieldInteractions (clickedId (event, clock)) v)) := by
  rw [recordClick_fieldInteractions_eq]
  cases hget : m.fieldInteractions.get (clickedId (event, clock)) with
  | some d =>
    refine ⟨m.fieldInteractions, ?_, Or.inl ⟨d, rfl, rfl⟩⟩
    rw [if_pos (JsObject.truthyAt_of_get_some _ _ d hget)]
  | none =>
    refine ⟨JsObject.set m.fieldInteractions (clickedId (event, clock))
        (freshFieldStats event clock),
      ?_, Or.inr ⟨rfl, _, (JsObject.set_of_get_none _ _ _ hget)⟩⟩
    rw [if_neg (by rw [JsObject.truthyAt_of_neither _ _ hget hid]; exact Bool.false_ne_true)]

/-- A click on an id that has no record and names a member of `Object.prototype` leaves
the per-field table as it is. -/
theorem recordClick_fieldInteractions_inherited (m : Metrics) (event : ClickEvent)
    (clock : ClickClock) (hget : m.fieldInteractions.get (clickedId (event, clock)) = none)
    (hid : clickedId (event, clock) ∈ objectPrototypeMembers) :
    (recordClick m event clock).1.fieldInteractions = m.fieldInteractions := by
  rw [recordClick_fieldInteractions_eq, if_pos (JsObject.truthyAt_of_member _ _ hid),
    JsObject.modify_of_get_none _ _ _ hget]

theorem recordClick_mostClickedField (m : Metrics) (event : ClickEvent) (clock : ClickClock) :
    (recordClick m event clock).1.userBehavior.mostClickedField
      = (mostClicked (recordClick m event clock).1.fieldInteractions).2 := rfl

theorem tableInv_recordClick (m : Metrics) (n : Nat) (event : ClickEvent) (clock : ClickClock)
    (hid : clickedId (event, clock) ∉ objectPrototypeMembers)
    (h : TableInv m n) : TableInv (recordClick m event clock).1 (n + 1) := by
  obtain ⟨-, hpos, -, hnd⟩ := h
  obtain ⟨created, hfi, hcases⟩ := recordClick_fieldInteractions m event clock hid
  have hcreated : (∀ q ∈ created, q.1 ≠ clickedId (event, clock) → q ∈ m.fieldInteractions)
      ∧ clickedId (event, clock) ∈ created.map Prod.fst
      ∧ (created.map Prod.fst).Nodup := by
    rcases hcases with ⟨d, hget, rfl⟩ | ⟨hget, v, rfl⟩
    · refine ⟨fun q hq _ => hq, ?_, hnd⟩
      by_contra hno
      rw [← JsObject.get_eq_none_iff, hget] at hno
      exact absurd hno (by simp)
    · have hperm := JsObject.insertNew_perm m.fieldInteractions (clickedId (event, clock)) v
      refine ⟨?_, ?_, ?_⟩
      · intro q hq hne
        rcases List.mem_cons.mp (hperm.mem_iff.mp hq) with rfl | hq
        · exact absurd rfl hne
        · exact hq
      · exact (hperm.map Prod.fst).mem_iff.mpr (List.mem_cons_self _ _)
      · rw [(hperm.map Prod.fst).nodup_iff, List.map_cons, List.nodup_cons]
        exact ⟨(JsObject.get_eq_none_iff _ _).mp hget, hnd⟩
  obtain ⟨hold, hkey, hcnd⟩ := hcreated
  have hkeys : (recordClick m event clock).1.fieldInteractions.map Prod.fst
      = created.map Prod.fst := by rw [hfi, JsObject.modify_keys]
  refine ⟨recordClick_mostClickedField m event clock, ?_, ?_, by rw [hkeys]; exact hcnd⟩
  · intro p hp
    rw [hfi] at hp
    obtain ⟨q, hq, -, hval | hval⟩ := JsObject.mem_modify _ _ _ p hp
    · rw [hval.2]
      exact hpos q (hold q hq hval.1)
    · rw [hval.2]
      exact Nat.le_add_left 1 _
  · constructor
    · intro hnil
      rw [← hkeys, hnil] at hkey
      exact absurd hkey (List.not_mem_nil _)
    · intro hz
      exact absurd hz (Nat.succ_ne_zero n)

theorem tableInv_modify (m : Metrics) (n : Nat) (k : String) (f : FieldStats → FieldStats)
    (hf : ∀ d, (f d).clicks = d.clicks) (h : TableInv m n) :
    TableInv { m with fieldInteractions := JsObject.modify m.fieldInteractions k f } n := by
  obtain ⟨hmost, hpos, hnil, hnd⟩ := h
  refine ⟨?_, ?_, ?_, ?_⟩
  · show m.userBehavior.mostClickedField = (mostClicked (JsObject.modify _ k f)).2
    rw [mostClicked_modify _ _ _ hf]
    exact hmost
  · intro p hp
    obtain ⟨q, hq, -, hval | hval⟩ := JsObject.mem_modify _ _ _ p hp
    · rw [hval.2]
      exact hpos q hq
    · rw [hval.2, hf]
      exact hpos q hq
  · show JsObject.modify m.fieldInteractions k f = [] ↔ n = 0
    rw [← hnil]
    unfold JsObject.modify
    exact List.map_eq_nil_iff
  · show (List.map Prod.fst (JsObject.modify m.fieldInteractions k f)).Nodup
    rw [JsObject.modify_keys]
    exact hnd

theorem tableInv_fresh (m : Metrics) (hfi : m.fieldInteractions = [])
    (hmost : m.userBehavior.mostClickedField = none) : TableInv m 0 := by
  refine ⟨?_, ?_, ?_, ?_⟩
  · rw [hmost, hfi]; rfl
  · rw [hfi]; exact fun p hp => absurd hp (List.not_mem_nil p)
  · exact ⟨fun _ => rfl, fun _ => hfi⟩
  · rw [hfi]; exact List.nodup_nil

theorem tableInv_foldl (ops : List Interaction) (m : Metrics) (n : Nat) (h : TableInv m n)
    (hown : ∀ i ∈ ops, i.clicksOwnKey = true) :
    TableInv (ops.foldl interact m) (ops.foldl countClick n) := by
  induction ops generalizing m n with
  | nil => exact h
  | cons i rest ih =>
    rw [List.foldl_cons, List.foldl_cons]
    refine ih _ _ ?_ (fun j hj => hown j (List.mem_cons_of_mem i hj))
    have hi := hown i (List.mem_cons_self i rest)
    cases i with
    | click event clock =>
      exact tableInv_recordClick m n event clock
        (by simpa [Interaction.clicksOwnKey] using hi) h
    | reset now => exact tableInv_fresh _ rfl rfl
    | hover target now =>
      simp only [interact, recordHover, countClick]
      split_ifs
      · exact tableInv_modify m n _ _ (fun d => rfl) h
      · exact h
    | focus target now =>
      simp only [interact, recordFocus, countClick]
      split_ifs
      · exact tableInv_modify m n _ _ (fun d => rfl) h
      · exact h

theorem recordClick_keys_of_not_index (m : Metrics) (event : ClickEvent) (clock : ClickClock)
    (hidx : arrayIndex? (clickedId (event, clock)) = none)
    (hid : clickedId (event, clock) ∉ objectPrototypeMembers)
    (h : m.fieldInteractions.map Prod.fst = m.uniqueFields) :
    (recordClick m event clock).1.fieldInteractions.map Prod.fst
      = (recordClick m event clock).1.uniqueFields := by
  obtain ⟨created, hfi, hcases⟩ := recordClick_fieldInteractions m event clock hid
  rw [hfi, JsObject.modify_keys, recordClick_uniqueFields]
  show _ = setAdd m.uniqueFields (clickedId (event, clock))
  unfold setAdd
  rcases hcases with ⟨d, hget, rfl⟩ | ⟨hget, v, rfl⟩
  · have hin : clickedId (event, clock) ∈ m.uniqueFields := by
      rw [← h]
      by_contra hno
      rw [← JsObject.get_eq_none_iff, hget] at hno
      exact absurd hno (by simp)
    rw [if_pos hin, h]
  · have hout : clickedId (event, clock) ∉ m.uniqueFields := by
      rw [← h]
      exact (JsObject.get_eq_none_iff _ _).mp hget
    rw [if_neg hout, JsObject.insertNew_of_not_index _ _ _ hidx, List.map_append, h]
    rfl

theorem clickAll_keys_of_not_index (calls : List (ClickEvent × ClickClock)) (m : Metrics)
    (hidx : ∀ c ∈ calls, arrayIndex? (clickedId c) = none
      ∧ clickedId c ∉ objectPrototypeMembers)
    (h : m.fieldInteractions.map Prod.fst = m.uniqueFields) :
    (clickAll m calls).fieldInteractions.map Prod.fst
      = (calls.map clickedId).foldl setAdd m.uniqueFields := by
  induction calls generalizing m with
  | nil => exact h
  | cons c rest ih =>
    have hc : arrayIndex? (clickedId (c.1, c.2)) = none
        ∧ clickedId (c.1, c.2) ∉ objectPrototypeMembers := hidx c (List.mem_cons_self c rest)
    have hstep := ih (recordClick m c.1 c.2).1 (fun d hd => hidx d (List.mem_cons_of_mem c hd))
      (recordClick_keys_of_not_index m c.1 c.2 hc.1 hc.2 h)
    rw [recordClick_uniqueFields] at hstep
    exact hstep

theorem clickAll_mostClickedField (calls : List (ClickEvent × ClickClock)) (m : Metrics)
    (h : m.userBehavior.mostClickedField = (mostClicked m.fieldInteractions).2) :
    (clickAll m calls).userBehavior.mostClickedField
      = (mostClicked (clickAll m calls).fieldInteractions).2 := by
  induction calls generalizing m with
  | nil => exact h
  | cons c rest ih => exact ih (recordClick m c.1 c.2).1 (recordClick_mostClickedField m c.1 c.2)

/-! ### The claims -/

/-- C1 (evaluation at the failing input): after `reset()` the state has no `occurrences`
member, so `recordOccurrenceRegistration` and `getOccurrenceStats` both raise a `TypeError`
instead of completing, from every state and at every clock reading; the call sequence
`reset(); recordOccurrenceRegistration(veicular)` on a fresh aggregator ends in that error. -/
theorem occurrence_calls_raise_after_reset (m : Metrics) (t t1 : Int) (type : String)
    (registrationTime : Option Int) :
    recordOccurrenceRegistration (reset m t) type registrationTime t1
        = .error (.typeError "Cannot read properties of undefined (reading totalRegistered)")
      ∧ getOccurrenceStats (reset m t) t1
        = .error (.typeError
            "Cannot read properties of undefined (reading registrationsThisSession)")
      ∧ run (new 0) [Op.reset 1, Op.recordOccurrenceRegistration "veicular" none 2]
        = .error (.typeError "Cannot read properties of undefined (reading totalRegistered)") :=
  ⟨rfl, rfl, rfl⟩

/-- C2 (evaluation at the failing input): registrations at the explicit timestamps
1000, 3000, 7000 on a fresh aggregator leave `averageRegistrationTime = 2000`, the mean of
the deltas of the timestamps stored before the last call, not the 3000 of all deltas; after
the first two of them the average is still 0, not 2000. -/
theorem averageRegistrationTime_lags_one_registration :
    (run (new 0)
        [Op.recordOccurrenceRegistration "patrimonial" (some 1000) 0,
         Op.recordOccurrenceRegistration "patrimonial" (some 3000) 0,
         Op.recordOccurrenceRegistration "patrimonial" (some 7000) 0]).map
      (fun m => m.occurrences.map (fun o => o.averageRegistrationTime)) = .ok (some 2000)
    ∧ (run (new 0)
        [Op.recordOccurrenceRegistration "patrimonial" (some 1000) 0,
         Op.recordOccurrenceRegistration "patrimonial" (some 3000) 0]).map
      (fun m => m.occurrences.map (fun o => o.averageRegistrationTime)) = .ok (some 0) := by
  constructor <;>
  simp [run, step, recordOccurrenceRegistration, new, Except.bind, Except.map,
    updateAverageRegistrationTime, sumDeltas]

/-- C4: `reset()` at a clock reading not before the previous `sessionStart` leaves
`totalClicks = 0`, an empty unique-field set, click log, per-field table and heat map,
`mostClickedField = null`, and a `sessionStart` not below the previous one. -/
theorem reset_clears_interaction_metrics (m : Metrics) (now : Int)
    (hclock : m.sessionStart ≤ now) :
    (reset m now).totalClicks = 0
      ∧ (reset m now).uniqueFields = []
      ∧ (reset m now).clicks = []
      ∧ (reset m now).fieldInteractions = []
      ∧ (reset m now).heatmap = []
      ∧ (reset m now).userBehavior.mostClickedField = none
      ∧ m.sessionStart ≤ (reset m now).sessionStart :=
  ⟨rfl, rfl, rfl, rfl, rfl, rfl, hclock⟩

/-- C4 witness: a reset at time 7 of the aggregator constructed at time 5. -/
theorem reset_clears_interaction_metrics_witness :
    (new 5).sessionStart ≤ 7
      ∧ (reset (new 5) 7).totalClicks = 0
      ∧ (reset (new 5) 7).uniqueFields = []
      ∧ (reset (new 5) 7).clicks = []
      ∧ (reset (new 5) 7).fieldInteractions = []
      ∧ (reset (new 5) 7).heatmap = []
      ∧ (reset (new 5) 7).userBehavior.mostClickedField = none
      ∧ (new 5).sessionStart ≤ (reset (new 5) 7).sessionStart :=
  ⟨by decide, reset_clears_interaction_metrics (new 5) 7 (by decide)⟩

/-- C9 (evaluation at the failing input): one registration on a fresh aggregator followed
by `getOccurrenceStats()` in the millisecond of construction (elapsed time 0) returns
`registrationsPerHour = Infinity`, not 0; with no registration the `|| 0` turns the `NaN`
into 0. -/
theorem registrationsPerHour_infinite_at_zero_elapsed :
    ((recordOccurrenceRegistration (new 0) "veicular" none 0).bind
        (fun r => getOccurrenceStats r.1 0)).map (fun st => st.registrationsPerHour)
      = .ok JsNum.posInf
    ∧ (getOccurrenceStats (new 0) 0).map (fun st => st.registrationsPerHour)
      = .ok (JsNum.fin 0) := by
  constructor <;>
  simp [recordOccurrenceRegistration, getOccurrenceStats, new, Except.bind, Except.map,
    JsNum.div, JsNum.divide, JsNum.nearest, JsNum.orZero, JsNum.truthy]

theorem getOccurrenceStats_rate (m : Metrics) (o : Occurrences) (now : Int)
    (hocc : m.occurrences = some o) :
    ∃ st, getOccurrenceStats m now = .ok st
      ∧ st.registrationsPerHour
        = (JsNum.divide (.fin (o.registrationsThisSession : ℚ))
            (JsNum.divide (JsNum.divide
              (JsNum.div ((now - m.sessionStart : Int) : ℚ) 1000) (.fin 60)) (.fin 60))).orZero :=
  ⟨_, by simp only [getOccurrenceStats, hocc]; rfl, rfl⟩

theorem JsNum.perHour_one_after_one_ms :
    JsNum.divide (.fin 1) (JsNum.divide (JsNum.divide (JsNum.div 1 1000) (.fin 60)) (.fin 60))
      = .fin (7730941132799999 / 2147483648) := by
  have h1 : JsNum.div 1 1000 = .fin (1152921504606847 / 1152921504606846976) := by
    rw [JsNum.div_pos_eq 1 1000 (-10) 4611686018427388 (by norm_num) (by norm_num)
      (by norm_num) (by norm_num) (by norm_num) (by norm_num) (by norm_num)]
    norm_num
  rw [h1]
  show JsNum.divide _ (JsNum.divide (JsNum.div _ 60) _) = _
  have h2 : JsNum.div (1152921504606847 / 1152921504606846976) 60
      = .fin (2459565876494607 / 147573952589676412928) := by
    rw [JsNum.div_pos_eq _ 60 (-16) 4919131752989214 (by norm_num) (by norm_num)
      (by norm_num) (by norm_num) (by norm_num) (by norm_num) (by norm_num)]
    norm_num
  rw [h2]
  show JsNum.divide _ (JsNum.div _ 60) = _
  have h3 : JsNum.div (2459565876494607 / 147573952589676412928) 60
      = .fin (2623536934927581 / 9444732965739290427392) := by
    rw [JsNum.div_pos_eq _ 60 (-22) 5247073869855162 (by norm_num) (by norm_num)
      (by norm_num) (by norm_num) (by norm_num) (by norm_num) (by norm_num)]
    norm_num
  rw [h3]
  show JsNum.div 1 _ = _
  rw [JsNum.div_pos_eq 1 _ 21 7730941132799999 (by norm_num) (by norm_num)
    (by norm_num) (by norm_num) (by norm_num) (by norm_num) (by norm_num)]
  norm_num

theorem JsNum.perHour_one_after_half_hour :
    JsNum.divide (.fin 1)
        (JsNum.divide (JsNum.divide (JsNum.div 1800000 1000) (.fin 60)) (.fin 60))
      = .fin 2 := by
  have h1 : JsNum.div 1800000 1000 = .fin 1800 := by
    rw [JsNum.div_exact 1800000 1000 10 7916483719987200 (by norm_num) (by norm_num)
      (by norm_num) (by norm_num) (by norm_num) (by norm_num)]
    norm_num
  rw [h1]
  show JsNum.divide _ (JsNum.divide (JsNum.div _ 60) _) = _
  have h2 : JsNum.div 1800 60 = .fin 30 := by
    rw [JsNum.div_exact 1800 60 4 8444249301319680 (by norm_num) (by norm_num)
      (by norm_num) (by norm_num) (by norm_num) (by norm_num)]
    norm_num
  rw [h2]
  show JsNum.divide _ (JsNum.div _ 60) = _
  have h3 : JsNum.div 30 60 = .fin (1 / 2) := by
    rw [JsNum.div_exact 30 60 (-1) 4503599627370496 (by norm_num) (by norm_num)
      (by norm_num) (by norm_num) (by norm_num) (by norm_num)]
    norm_num
  rw [h3]
  show JsNum.div 1 _ = _
  rw [JsNum.div_exact 1 (1 / 2) 1 4503599627370496 (by norm_num) (by norm_num)
    (by norm_num) (by norm_num) (by norm_num) (by norm_num)]
  norm_num

/-- C10 (counterexample): one registration in the millisecond of construction, queried
1 ms later. The four divisions of `getOccurrenceStats` return 3599999.9999999995, which is
`7730941132799999 / 2^31`, and not the quotient `1 / (1 / 3600000) = 3600000`. -/
theorem registrationsPerHour_rounded_counterexample :
    (getOccurrenceStats registeredOnce 1).map (fun st => st.registrationsPerHour)
        = .ok (JsNum.fin (7730941132799999 / 2147483648))
      ∧ (7730941132799999 / 2147483648 : ℚ) ≠ 1 / ((1 : ℚ) / 3600000)
      ∧ registeredOnce.occurrences.map (fun o => o.registrationsThisSession) = some 1
      ∧ 1 - registeredOnce.sessionStart = 1 := by
  refine ⟨?_, by norm_num, rfl, rfl⟩
  obtain ⟨st, hst, hrate⟩ := getOccurrenceStats_rate registeredOnce
    { totalRegistered := 1, patrimonialRegistered := 0, veicularRegistered := 1,
      registrationTimes := [0], averageRegistrationTime := 0,
      registrationsThisSession := 1, lastRegistrationTime := some 0 } 1 rfl
  have hs : registeredOnce.sessionStart = 0 := rfl
  rw [hs] at hrate
  norm_num at hrate
  rw [JsNum.perHour_one_after_one_ms] at hrate
  rw [hst, Except.map, hrate]
  simp [JsNum.orZero, JsNum.truthy]

/-- C10 (amended): for a positive elapsed session time `e` below `2^53` ms,
`getOccurrenceStats()` raises a `TypeError` when the `occurrences` member is missing (after
`reset()`), and otherwise returns as `registrationsPerHour` the binary64 value of
`r / (e / 1000 / 60 / 60) || 0` for the count `r` of registrations of the session, every
division rounded: 0 for `r = 0`, and for `0 < r < 2^53` a number that is not negative and
lies within the relative error `2^-49` of the quotient `r / (e / 3600000)`. -/
theorem registrationsPerHour_positive_elapsed (m : Metrics) (now : Int)
    (helapsed : 0 < now - m.sessionStart) (hrange : now - m.sessionStart < 2 ^ 53) :
    (m.occurrences = none → ∃ e, getOccurrenceStats m now = .error e)
      ∧ ∀ o, m.occurrences = some o → o.registrationsThisSession < 2 ^ 53 →
          ∃ st q, getOccurrenceStats m now = .ok st
            ∧ st.registrationsPerHour
              = (JsNum.divide (.fin (o.registrationsThisSession : ℚ))
                  (JsNum.divide (JsNum.divide
                    (JsNum.div ((now - m.sessionStart : Int) : ℚ) 1000) (.fin 60))
                    (.fin 60))).orZero
            ∧ st.registrationsPerHour = JsNum.fin q
            ∧ 0 ≤ q
            ∧ |q - (o.registrationsThisSession : ℚ) / (((now - m.sessionStart : Int) : ℚ) / 3600000)|
                ≤ (o.registrationsThisSession : ℚ) / (((now - m.sessionStart : Int) : ℚ) / 3600000)
                  * (1 / 2 ^ 49) := by
  constructor
  · intro hnone
    exact ⟨_, by simp only [getOccurrenceStats, hnone]; rfl⟩
  · intro o hocc hcount
    obtain ⟨st, hst, hrate⟩ := getOccurrenceStats_rate m o now hocc
    by_cases hr : o.registrationsThisSession = 0
    · obtain ⟨r3, h3, hr3p, -⟩ := JsNum.hours_rel (now - m.sessionStart) helapsed hrange
      refine ⟨st, 0, hst, hrate, ?_, le_refl 0, ?_⟩
      · rw [hrate, h3, hr]
        simp [JsNum.divide, JsNum.div, JsNum.nearest, JsNum.orZero, JsNum.truthy,
          ne_of_gt hr3p]
      · rw [hr]
        simp
    · obtain ⟨q, hq, hpos, habs⟩ := JsNum.perHour_rel o.registrationsThisSession
        (now - m.sessionStart) (Nat.pos_of_ne_zero hr) hcount helapsed hrange
      refine ⟨st, q, hst, hrate, ?_, hpos.le, habs⟩
      rw [hrate, hq]
      simp [JsNum.orZero, JsNum.truthy, ne_of_gt hpos]

/-- C10 witness: one registration at session start, queried 30 minutes later, gives
exactly 2. -/
theorem registrationsPerHour_positive_elapsed_witness :
    0 < 1800000 - registeredOnce.sessionStart
      ∧ 1800000 - registeredOnce.sessionStart < 2 ^ 53
      ∧ ∃ st, getOccurrenceStats registeredOnce 1800000 = .ok st
          ∧ st.registrationsPerHour = JsNum.fin 2 := by
  obtain ⟨-, h⟩ := registrationsPerHour_positive_elapsed registeredOnce 1800000
    (by decide) (by decide)
  obtain ⟨st, q, h1, h2, -, -, -⟩ := h
    { totalRegistered := 1, patrimonialRegistered := 0, veicularRegistered := 1,
      registrationTimes := [0], averageRegistrationTime := 0,
      registrationsThisSession := 1, lastRegistrationTime := some 0 } rfl (by decide)
  refine ⟨by decide, by decide, st, h1, ?_⟩
  have hs : registeredOnce.sessionStart = 0 := rfl
  rw [hs] at h2
  norm_num at h2
  rw [JsNum.perHour_one_after_half_hour] at h2
  rw [h2]
  simp [JsNum.orZero, JsNum.truthy]

/-- C3: after any sequence of `recordClick` calls on a freshly constructed aggregator, and
on one that has just been reset, `totalClicks` is the number of calls and
`uniqueFields.size` is the number of distinct field ids of the calls. -/
theorem recordClick_counts_calls_and_distinct_ids (calls : List (ClickEvent × ClickClock))
    (m : Metrics) (t0 : Int) :
    ((clickAll (new t0) calls).totalClicks = calls.length
        ∧ (clickAll (new t0) calls).uniqueFields.length = (calls.map clickedId).toFinset.card)
      ∧ ((clickAll (reset m t0) calls).totalClicks = calls.length
        ∧ (clickAll (reset m t0) calls).uniqueFields.length
          = (calls.map clickedId).toFinset.card) :=
  ⟨clickAll_fresh calls (new t0) rfl rfl, clickAll_fresh calls (reset m t0) rfl rfl⟩

theorem JsNum.rate_three_clicks_after_200_ms :
    JsNum.divide (.fin 3) (JsNum.div 200 60000)
      = .fin (7916483719987199 / 8796093022208) := by
  have h1 : JsNum.div 200 60000 = .fin (7686143364045647 / 2305843009213693952) := by
    rw [JsNum.div_pos_eq 200 60000 (-9) 7686143364045647 (by norm_num) (by norm_num)
      (by norm_num) (by norm_num) (by norm_num) (by norm_num) (by norm_num)]
    norm_num
  rw [h1]
  show JsNum.div 3 _ = _
  rw [JsNum.div_pos_eq 3 _ 9 7916483719987199 (by norm_num) (by norm_num) (by norm_num)
    (by norm_num) (by norm_num) (by norm_num) (by norm_num)]
  norm_num

/-- C7 (counterexample): three clicks, the third one processed 200 ms after
construction, store `clickFrequency = 899.9999999999999` (the binary64 value
`7916483719987199 / 2^43`), not the exact rational `3 * 60000 / 200 = 900`. -/
theorem clickFrequency_rounded_counterexample :
    (clickAll (new 0) [sampleClick "A" 200, sampleClick "A" 200,
        sampleClick "A" 200]).userBehavior.clickFrequency
        = JsNum.fin (7916483719987199 / 8796093022208)
      ∧ (clickAll (new 0) [sampleClick "A" 200, sampleClick "A" 200,
          sampleClick "A" 200]).totalClicks = 3
      ∧ (7916483719987199 / 8796093022208 : ℚ) ≠ 3 * 60000 / 200 := by
  refine ⟨?_, rfl, by norm_num⟩
  show (recordClick (clickAll (new 0) [sampleClick "A" 200, sampleClick "A" 200])
    (sampleClick "A" 200).1 (sampleClick "A" 200).2).1.userBehavior.clickFrequency = _
  rw [recordClick_clickFrequency, if_neg (by decide)]
  have ht : (clickAll (new 0) [sampleClick "A" 200, sampleClick "A" 200]).totalClicks = 2 :=
    rfl
  have hs : (clickAll (new 0) [sampleClick "A" 200, sampleClick "A" 200]).sessionStart = 0 :=
    rfl
  have hc : (sampleClick "A" 200).2.currentTime = 200 := rfl
  rw [ht, hs, hc]
  norm_num
  exact JsNum.rate_three_clicks_after_200_ms

/-- C7 (amended): right after a `recordClick` whose `updateUserBehaviorMetrics` reads the
clock at `t`, with `totalClicks` and `t - sessionStart` below `2^53`: `clickFrequency` is 0
when `t - sessionStart <= 0`, and otherwise it is the binary64 value of
`totalClicks / ((t - sessionStart) / 60000)`, both divisions rounded, a positive number
within the relative error `2^-51` of the rational `totalClicks * 60000 / (t - sessionStart)`.
It is a finite number that is not negative, never `NaN` or infinite. -/
theorem clickFrequency_after_recordClick (m : Metrics) (event : ClickEvent)
    (clock : ClickClock) (hclicks : m.totalClicks + 1 < 2 ^ 53)
    (helapsed : clock.currentTime - m.sessionStart < 2 ^ 53) :
    (clock.currentTime - (recordClick m event clock).1.sessionStart ≤ 0 →
        (recordClick m event clock).1.userBehavior.clickFrequency = JsNum.fin 0)
      ∧ (0 < clock.currentTime - (recordClick m event clock).1.sessionStart →
          (recordClick m event clock).1.userBehavior.clickFrequency
              = JsNum.divide (.fin ((recordClick m event clock).1.totalClicks : ℚ))
                  (JsNum.div
                    ((clock.currentTime - (recordClick m event clock).1.sessionStart : Int) : ℚ)
                    60000)
            ∧ ∃ q : ℚ, (recordClick m event clock).1.userBehavior.clickFrequency = JsNum.fin q
                ∧ 0 < q
                ∧ |q - ((recordClick m event clock).1.totalClicks : ℚ) * 60000
                      / ((clock.currentTime - (recordClick m event clock).1.sessionStart : Int) : ℚ)|
                  ≤ ((recordClick m event clock).1.totalClicks : ℚ) * 60000
                      / ((clock.currentTime - (recordClick m event clock).1.sessionStart : Int) : ℚ)
                    * (1 / 2 ^ 51))
      ∧ ∃ q : ℚ, (recordClick m event clock).1.userBehavior.clickFrequency = JsNum.fin q
          ∧ 0 ≤ q := by
  rw [recordClick_sessionStart, recordClick_totalClicks, recordClick_clickFrequency]
  obtain hle | hpos := le_or_lt (clock.currentTime - m.sessionStart) 0
  · refine ⟨fun _ => by rw [if_pos hle], fun h => absurd h (not_lt.mpr hle), 0, ?_, le_refl 0⟩
    rw [if_pos hle]
  · obtain ⟨q, hq, hqpos, habs⟩ := JsNum.clickRate_rel (m.totalClicks + 1)
      (clock.currentTime - m.sessionStart) (Nat.succ_pos _) hclicks hpos helapsed
    rw [div_div_eq_mul_div] at habs
    rw [if_neg (not_le.mpr hpos)]
    exact ⟨fun h => absurd hpos (not_lt.mpr h), fun _ => ⟨rfl, q, hq, hqpos, habs⟩,
      q, hq, hqpos.le⟩

/-- C7 witness: the third of three clicks, processed 200 ms after construction, stores
899.9999999999999. -/
theorem clickFrequency_after_recordClick_witness :
    (clickAll (new 0) [sampleClick "A" 200, sampleClick "A" 200]).totalClicks + 1 < 2 ^ 53
      ∧ (sampleClick "A" 200).2.currentTime
          - (clickAll (new 0) [sampleClick "A" 200, sampleClick "A" 200]).sessionStart < 2 ^ 53
      ∧ (recordClick (clickAll (new 0) [sampleClick "A" 200, sampleClick "A" 200])
          (sampleClick "A" 200).1 (sampleClick "A" 200).2).1.userBehavior.clickFrequency
        = JsNum.fin (7916483719987199 / 8796093022208) := by
  obtain ⟨-, h, -⟩ := clickFrequency_after_recordClick
    (clickAll (new 0) [sampleClick "A" 200, sampleClick "A" 200])
    (sampleClick "A" 200).1 (sampleClick "A" 200).2 (by decide) (by decide)
  refine ⟨by decide, by decide, ?_⟩
  rw [(h (by decide)).1]
  have ht : (recordClick (clickAll (new 0) [sampleClick "A" 200, sampleClick "A" 200])
      (sampleClick "A" 200).1 (sampleClick "A" 200).2).1.totalClicks = 3 := rfl
  have hs : (recordClick (clickAll (new 0) [sampleClick "A" 200, sampleClick "A" 200])
      (sampleClick "A" 200).1 (sampleClick "A" 200).2).1.sessionStart = 0 := rfl
  have hc : (sampleClick "A" 200).2.currentTime = 200 := rfl
  rw [ht, hs, hc]
  norm_num
  exact JsNum.rate_three_clicks_after_200_ms

theorem JsNum.rate_one_click_after_one_minute :
    JsNum.divide (.fin 1) (JsNum.div 60000 60000) = .fin 1 := by
  have h1 : JsNum.div 60000 60000 = .fin 1 := by
    rw [JsNum.div_exact 60000 60000 0 4503599627370496 (by norm_num) (by norm_num)
      (by norm_num) (by norm_num) (by norm_num) (by norm_num)]
    norm_num
  rw [h1]
  show JsNum.div 1 1 = _
  rw [JsNum.div_exact 1 1 0 4503599627370496 (by norm_num) (by norm_num)
    (by norm_num) (by norm_num) (by norm_num) (by norm_num)]
  norm_num

theorem JsNum.rate_one_click_after_800_s :
    JsNum.divide (.fin 1) (JsNum.div 800000 60000)
      = .fin (5404319552844595 / 72057594037927936) := by
  have h1 : JsNum.div 800000 60000 = .fin (7505999378950827 / 562949953421312) := by
    rw [JsNum.div_pos_eq 800000 60000 3 7505999378950827 (by norm_num) (by norm_num)
      (by norm_num) (by norm_num) (by norm_num) (by norm_num) (by norm_num)]
    norm_num
  rw [h1]
  show JsNum.div 1 _ = _
  rw [JsNum.div_pos_eq 1 _ (-4) 5404319552844595 (by norm_num) (by norm_num) (by norm_num)
    (by norm_num) (by norm_num) (by norm_num) (by norm_num)]
  norm_num

theorem toFixed2_rate_after_800_s :
    toFixed2 (5404319552844595 / 72057594037927936) = "0.07" := by
  rw [toFixed2_of_floor _ 7 (by norm_num) (by rw [Int.floor_eq_iff]; norm_num)]
  decide

/-- C8 (counterexample): one click 60000 ms after construction stores the rate 1; the
snapshot taken at 120000 ms reports `sessionDuration = 120000`, `totalClicks = 1` and
`clicksPerMinute = 1.00`, while the rate of that duration is 0.50. -/
theorem clicksPerMinute_stale_counterexample :
    (getMetrics (clickAll (new 0) [sampleClick "A" 60000]) 120000).summary.sessionDuration
        = 120000
      ∧ (getMetrics (clickAll (new 0) [sampleClick "A" 60000]) 120000).summary.totalClicks = 1
      ∧ (getMetrics (clickAll (new 0) [sampleClick "A" 60000]) 120000).summary.clicksPerMinute
        = "1.00"
      ∧ specClicksPerMinute
          (getMetrics (clickAll (new 0) [sampleClick "A" 60000]) 120000).summary = "0.50"
      ∧ (getMetrics (clickAll (new 0) [sampleClick "A" 60000]) 120000).summary.clicksPerMinute
        ≠ specClicksPerMinute
          (getMetrics (clickAll (new 0) [sampleClick "A" 60000]) 120000).summary := by
  have hf : (clickAll (new 0) [sampleClick "A" 60000]).userBehavior.clickFrequency
      = JsNum.fin 1 := by
    show (recordClick (new 0) (sampleClick "A" 60000).1
      (sampleClick "A" 60000).2).1.userBehavior.clickFrequency = _
    rw [recordClick_clickFrequency, if_neg (by decide)]
    have ht : (new 0).totalClicks = 0 := rfl
    have hs : (new 0).sessionStart = 0 := rfl
    have hc : (sampleClick "A" 60000).2.currentTime = 60000 := rfl
    rw [ht, hs, hc]
    norm_num
    exact JsNum.rate_one_click_after_one_minute
  have h3 : (getMetrics (clickAll (new 0) [sampleClick "A" 60000])
      120000).summary.clicksPerMinute = "1.00" := by
    show (clickAll (new 0) [sampleClick "A" 60000]).userBehavior.clickFrequency.toFixed2 = _
    rw [hf]
    exact toFixed2_one
  have h4 : specClicksPerMinute
      (getMetrics (clickAll (new 0) [sampleClick "A" 60000]) 120000).summary = "0.50" := by
    have hd : (getMetrics (clickAll (new 0) [sampleClick "A" 60000])
        120000).summary.sessionDuration = 120000 := rfl
    have hc : (getMetrics (clickAll (new 0) [sampleClick "A" 60000])
        120000).summary.totalClicks = 1 := rfl
    rw [specClicksPerMinute, hd, hc, if_neg (by decide)]
    rw [← toFixed2_half]
    norm_num
  refine ⟨rfl, rfl, h3, h4, ?_⟩
  rw [h3, h4]
  decide

/-- C8 (amended): the snapshot of `getMetrics` reports `sessionDuration = now - sessionStart`
and, as `clicksPerMinute`, the rate stored by the latest `recordClick` to two decimals,
whatever hover and focus calls followed and whatever the query time: with `d` the elapsed
time read by that click it is `toFixed(2)` of the binary64 value of
`totalClicks / (d / 60000)`, or of 0 when `d <= 0`; without a click since construction or
reset it is `0.00`. -/
theorem getMetrics_reports_rate_of_latest_click (m : Metrics) (event : ClickEvent)
    (clock : ClickClock) (later : List Interaction) (now t0 : Int)
    (hlater : ∀ i ∈ later, i.isPassive = true) :
    (getMetrics (later.foldl interact (recordClick m event clock).1) now).summary.clicksPerMinute
        = JsNum.toFixed2
            (if clock.currentTime - m.sessionStart ≤ 0 then JsNum.fin 0
             else JsNum.divide
                (.fin ((later.foldl interact (recordClick m event clock).1).totalClicks : ℚ))
                (JsNum.div ((clock.currentTime - m.sessionStart : Int) : ℚ) 60000))
      ∧ (getMetrics (later.foldl interact (recordClick m event clock).1) now).summary.sessionDuration
        = now - m.sessionStart
      ∧ (getMetrics (later.foldl interact (new t0)) now).summary.clicksPerMinute = "0.00"
      ∧ (getMetrics (later.foldl interact (reset m t0)) now).summary.clicksPerMinute = "0.00" := by
  obtain ⟨h1, h2, h3⟩ := foldl_interact_passive_frame later (recordClick m event clock).1 hlater
  obtain ⟨n1, -, -⟩ := foldl_interact_passive_frame later (new t0) hlater
  obtain ⟨r1, -, -⟩ := foldl_interact_passive_frame later (reset m t0) hlater
  refine ⟨?_, ?_, ?_, ?_⟩
  · show (later.foldl interact (recordClick m event clock).1).userBehavior.clickFrequency.toFixed2
      = _
    rw [h1, h3, recordClick_clickFrequency, recordClick_totalClicks]
  · show now - (later.foldl interact (recordClick m event clock).1).sessionStart = _
    rw [h2, recordClick_sessionStart]
  · show (later.foldl interact (new t0)).userBehavior.clickFrequency.toFixed2 = _
    rw [n1]
    exact toFixed2_zero
  · show (later.foldl interact (reset m t0)).userBehavior.clickFrequency.toFixed2 = _
    rw [r1]
    exact toFixed2_zero

/-- C8 witness: a click 800 s after construction, then a hover; the snapshot taken
1000 s after construction reports the duration 1000000 and the rate `0.07` of the click,
whose stored binary64 value lies just below 0.075. -/
theorem getMetrics_reports_rate_of_latest_click_witness :
    (∀ i ∈ [Interaction.hover (sampleElement "A") 900000], i.isPassive = true)
      ∧ (getMetrics ([Interaction.hover (sampleElement "A") 900000].foldl interact
            (recordClick (new 0) (sampleClick "A" 800000).1 (sampleClick "A" 800000).2).1)
          1000000).summary.clicksPerMinute = "0.07"
      ∧ (getMetrics ([Interaction.hover (sampleElement "A") 900000].foldl interact
            (recordClick (new 0) (sampleClick "A" 800000).1 (sampleClick "A" 800000).2).1)
          1000000).summary.sessionDuration = 1000000 := by
  have hp : ∀ i ∈ [Interaction.hover (sampleElement "A") 900000], i.isPassive = true := by
    intro i hi
    rw [List.mem_singleton] at hi
    rw [hi]; rfl
  obtain ⟨h1, h2, -, -⟩ := getMetrics_reports_rate_of_latest_click (new 0)
    (sampleClick "A" 800000).1 (sampleClick "A" 800000).2
    [Interaction.hover (sampleElement "A") 900000] 1000000 0 hp
  refine ⟨hp, ?_, ?_⟩
  · rw [h1, if_neg (by decide)]
    have ht : ([Interaction.hover (sampleElement "A") 900000].foldl interact
        (recordClick (new 0) (sampleClick "A" 800000).1 (sampleClick "A" 800000).2).1).totalClicks
        = 1 := by decide
    have hs : (new 0).sessionStart = 0 := rfl
    have hc : (sampleClick "A" 800000).2.currentTime = 800000 := rfl
    rw [ht, hs, hc]
    norm_num
    rw [JsNum.rate_one_click_after_800_s]
    exact toFixed2_rate_after_800_s
  · rw [h2]; rfl

/-- C5 (counterexample): one click on the element with id `constructor` on a fresh
aggregator. The click is recorded (`totalClicks = 1`), but `fieldInteractions` stays empty
and `mostClickedField` stays `null`: the test `!fieldInteractions[id]` finds the inherited
`Object.prototype.constructor`. -/
theorem mostClickedField_null_after_click_counterexample :
    clicksSinceReset [Interaction.click (sampleClick "constructor" 1).1
        (sampleClick "constructor" 1).2] = 1
      ∧ ([Interaction.click (sampleClick "constructor" 1).1
          (sampleClick "constructor" 1).2].foldl interact (new 0)).totalClicks = 1
      ∧ ([Interaction.click (sampleClick "constructor" 1).1
          (sampleClick "constructor" 1).2].foldl interact (new 0)).fieldInteractions = []
      ∧ ([Interaction.click (sampleClick "constructor" 1).1
          (sampleClick "constructor" 1).2].foldl interact
            (new 0)).userBehavior.mostClickedField = none := by
  refine ⟨by decide, by decide, by decide, by decide⟩

/-- C5 (amended): in every state reached from construction by `recordClick`,
`recordHover`, `recordFocus` and `reset` calls in which no click is on an id that names a
member of `Object.prototype`, `mostClickedField` is `null` exactly when no click was
recorded since construction or the latest reset, and otherwise it is the key of a record of
`fieldInteractions` whose `clicks` is at least the `clicks` of every record. -/
theorem mostClickedField_null_iff_no_click_else_maximal (t0 : Int) (ops : List Interaction)
    (hown : ∀ i ∈ ops, i.clicksOwnKey = true) :
    ((ops.foldl interact (new t0)).userBehavior.mostClickedField = none
        ↔ clicksSinceReset ops = 0)
      ∧ ∀ f, (ops.foldl interact (new t0)).userBehavior.mostClickedField = some f →
          ∃ d, (ops.foldl interact (new t0)).fieldInteractions.get f = some d
            ∧ ∀ p ∈ (ops.foldl interact (new t0)).fieldInteractions, p.2.clicks ≤ d.clicks := by
  obtain ⟨hmost, hpos, hnil, hnd⟩ :=
    tableInv_foldl ops (new t0) 0 (tableInv_fresh _ rfl rfl) hown
  constructor
  · show _ ↔ List.foldl countClick 0 ops = 0
    rw [← hnil, hmost]
    constructor
    · intro hnone
      have hzero := mostClicked_none _ hnone
      cases hfi : (ops.foldl interact (new t0)).fieldInteractions with
      | nil => rfl
      | cons p rest =>
        have h1 := hpos p (by rw [hfi]; exact List.mem_cons_self p rest)
        have h0 := hzero p (by rw [hfi]; exact List.mem_cons_self p rest)
        omega
    · intro hfi
      rw [hfi]
      rfl
  · intro f hf
    rw [hmost] at hf
    obtain ⟨pre, d, post, hsplit, hpre, hpost⟩ := mostClicked_some _ f hf
    refine ⟨d, JsObject.get_of_mem _ f d hnd (by rw [hsplit]; simp), ?_⟩
    intro p hp
    rw [hsplit] at hp
    rcases List.mem_append.mp hp with hp | hp
    · exact le_of_lt (hpre p hp)
    · rcases List.mem_cons.mp hp with rfl | hp
      · exact le_refl _
      · exact hpost p hp

/-- C5 witness: a click on A, a hover, a reset and two clicks on B; two clicks are counted
since the reset and `mostClickedField` is B. -/
theorem mostClickedField_null_iff_no_click_else_maximal_witness :
    (∀ i ∈ [Interaction.click (sampleClick "A" 1).1 (sampleClick "A" 1).2,
          Interaction.hover (sampleElement "A") 2, Interaction.reset 3,
          Interaction.click (sampleClick "B" 4).1 (sampleClick "B" 4).2,
          Interaction.click (sampleClick "B" 5).1 (sampleClick "B" 5).2],
        i.clicksOwnKey = true)
      ∧ clicksSinceReset [Interaction.click (sampleClick "A" 1).1 (sampleClick "A" 1).2,
          Interaction.hover (sampleElement "A") 2, Interaction.reset 3,
          Interaction.click (sampleClick "B" 4).1 (sampleClick "B" 4).2,
          Interaction.click (sampleClick "B" 5).1 (sampleClick "B" 5).2] = 2
      ∧ ¬ ([Interaction.click (sampleClick "A" 1).1 (sampleClick "A" 1).2,
          Interaction.hover (sampleElement "A") 2, Interaction.reset 3,
          Interaction.click (sampleClick "B" 4).1 (sampleClick "B" 4).2,
          Interaction.click (sampleClick "B" 5).1 (sampleClick "B" 5).2].foldl interact
            (new 0)).userBehavior.mostClickedField = none
      ∧ ∃ d, ([Interaction.click (sampleClick "A" 1).1 (sampleClick "A" 1).2,
          Interaction.hover (sampleElement "A") 2, Interaction.reset 3,
          Interaction.click (sampleClick "B" 4).1 (sampleClick "B" 4).2,
          Interaction.click (sampleClick "B" 5).1 (sampleClick "B" 5).2].foldl interact
            (new 0)).fieldInteractions.get "B" = some d
        ∧ ∀ p ∈ ([Interaction.click (sampleClick "A" 1).1 (sampleClick "A" 1).2,
          Interaction.hover (sampleElement "A") 2, Interaction.reset 3,
          Interaction.click (sampleClick "B" 4).1 (sampleClick "B" 4).2,
          Interaction.click (sampleClick "B" 5).1 (sampleClick "B" 5).2].foldl interact
            (new 0)).fieldInteractions, p.2.clicks ≤ d.clicks := by
  have h := mostClickedField_null_iff_no_click_else_maximal 0
    [Interaction.click (sampleClick "A" 1).1 (sampleClick "A" 1).2,
      Interaction.hover (sampleElement "A") 2, Interaction.reset 3,
      Interaction.click (sampleClick "B" 4).1 (sampleClick "B" 4).2,
      Interaction.click (sampleClick "B" 5).1 (sampleClick "B" 5).2] (by decide)
  exact ⟨by decide, by decide, fun hn => absurd (h.1.mp hn) (by decide), h.2 "B" (by decide)⟩

/-- C6 (counterexample): after clicks on A, B, B, A both fields have 2 clicks, B had 2
clicks when A still had 1, and `mostClickedField` is A, not B. -/
theorem mostClickedField_tie_counterexample :
    ((clickAll (new 0) [sampleClick "A" 1, sampleClick "B" 2, sampleClick "B" 3]).fieldInteractions.map
        (fun p => (p.1, p.2.clicks)) = [("A", 1), ("B", 2)])
      ∧ ((clickAll (new 0) [sampleClick "A" 1, sampleClick "B" 2, sampleClick "B" 3,
          sampleClick "A" 4]).fieldInteractions.map
        (fun p => (p.1, p.2.clicks)) = [("A", 2), ("B", 2)])
      ∧ (clickAll (new 0) [sampleClick "A" 1, sampleClick "B" 2, sampleClick "B" 3,
          sampleClick "A" 4]).userBehavior.mostClickedField = some "A"
      ∧ (clickAll (new 0) [sampleClick "A" 1, sampleClick "B" 2, sampleClick "B" 3,
          sampleClick "A" 4]).userBehavior.mostClickedField ≠ some "B" := by
  refine ⟨by decide, by decide, by decide, by decide⟩

/-- C6 (amended): after any sequence of `recordClick` calls on a fresh aggregator, a
non-null `mostClickedField` is the first record, in the enumeration order of
`fieldInteractions`, whose `clicks` is maximal: the records before it have fewer clicks and
those after it have at most as many. When no clicked id is an array index or the name of a
member of `Object.prototype`, that order is the order in which the ids were first
clicked. -/
theorem mostClickedField_first_maximal_in_enumeration_order (t0 : Int)
    (calls : List (ClickEvent × ClickClock)) (f : String)
    (hmost : (clickAll (new t0) calls).userBehavior.mostClickedField = some f) :
    (∃ pre d post, (clickAll (new t0) calls).fieldInteractions = pre ++ (f, d) :: post
        ∧ (∀ p ∈ pre, p.2.clicks < d.clicks) ∧ (∀ p ∈ post, p.2.clicks ≤ d.clicks))
      ∧ ((∀ c ∈ calls, arrayIndex? (clickedId c) = none
            ∧ clickedId c ∉ objectPrototypeMembers) →
          (clickAll (new t0) calls).fieldInteractions.map Prod.fst
            = (calls.map clickedId).foldl setAdd []) := by
  constructor
  · rw [clickAll_mostClickedField calls (new t0) rfl] at hmost
    exact mostClicked_some _ f hmost
  · intro hidx
    exact clickAll_keys_of_not_index calls (new t0) hidx rfl

/-- C6 witness: the clicks A, B, B, A, where the first maximal record is A and the
enumeration order A, B is the order of first click. -/
theorem mostClickedField_first_maximal_in_enumeration_order_witness :
    (clickAll (new 0) [sampleClick "A" 1, sampleClick "B" 2, sampleClick "B" 3,
        sampleClick "A" 4]).userBehavior.mostClickedField = some "A"
      ∧ (∃ pre d post, (clickAll (new 0) [sampleClick "A" 1, sampleClick "B" 2,
            sampleClick "B" 3, sampleClick "A" 4]).fieldInteractions = pre ++ ("A", d) :: post
          ∧ (∀ p ∈ pre, p.2.clicks < d.clicks) ∧ (∀ p ∈ post, p.2.clicks ≤ d.clicks))
      ∧ (∀ c ∈ [sampleClick "A" 1, sampleClick "B" 2, sampleClick "B" 3, sampleClick "A" 4],
          arrayIndex? (clickedId c) = none ∧ clickedId c ∉ objectPrototypeMembers)
      ∧ (clickAll (new 0) [sampleClick "A" 1, sampleClick "B" 2, sampleClick "B" 3,
          sampleClick "A" 4]).fieldInteractions.map Prod.fst
        = ([sampleClick "A" 1, sampleClick "B" 2, sampleClick "B" 3,
            sampleClick "A" 4].map clickedId).foldl setAdd [] :=
  ⟨by decide,
   (mostClickedField_first_maximal_in_enumeration_order 0
      [sampleClick "A" 1, sampleClick "B" 2, sampleClick "B" 3, sampleClick "A" 4] "A"
      (by decide)).1,
   by decide,
   (mostClickedField_first_maximal_in_enumeration_order 0
      [sampleClick "A" 1, sampleClick "B" 2, sampleClick "B" 3, sampleClick "A" 4] "A"
      (by decide)).2 (by decide)⟩

/-! ### Reads of the per-field table -/

theorem JsObject.get_cons {α : Type} (rest : JsObject α) (k k1 : String) (v : α) :
    JsObject.get ((k, v) :: rest) k1 = if k1 = k then some v else JsObject.get rest k1 := by
  unfold JsObject.get
  by_cases h : k1 = k
  · subst h
    simp [List.lookup]
  · have hb : (k1 == k) = false := by simpa using h
    simp [List.lookup, hb, h]

theorem JsObject.modify_cons {α : Type} (rest : JsObject α) (k k1 : String) (v : α)
    (f : α → α) :
    JsObject.modify ((k1, v) :: rest) k f
      = (if k1 = k then (k1, f v) else (k1, v)) :: JsObject.modify rest k f := rfl

theorem JsObject.get_modify {α : Type} (o : JsObject α) (k k1 : String) (f : α → α) :
    JsObject.get (JsObject.modify o k f) k1
      = if k1 = k then (JsObject.get o k1).map f else JsObject.get o k1 := by
  induction o with
  | nil => simp [JsObject.get, JsObject.modify]
  | cons p rest ih =>
    obtain ⟨k2, v2⟩ := p
    rw [JsObject.modify_cons]
    by_cases h2 : k2 = k
    · rw [if_pos h2, JsObject.get_cons, JsObject.get_cons, ih]
      by_cases h12 : k1 = k2
      · simp [h12, h2]
      · simp [h12]
    · rw [if_neg h2, JsObject.get_cons, JsObject.get_cons, ih]
      by_cases h12 : k1 = k2
      · have : ¬ k1 = k := fun e => h2 (h12 ▸ e)
        simp [h12, h2]
      · simp [h12]

theorem getFieldInfo_id_ne_empty (element : Element) (now : Int) :
    (getFieldInfo element now).id ≠ "" := by
  have hts : ∀ o s, truthyString o = some s → s ≠ "" := by
    intro o s h
    cases o with
    | none => simp [truthyString] at h
    | some x =>
      simp only [truthyString] at h
      split_ifs at h with hx
      obtain rfl := Option.some.inj h
      exact hx
  show ((truthyString (some element.id) <|> truthyString element.closestId).getD
      ("element-" ++ toString now)) ≠ ""
  cases h1 : truthyString (some element.id) with
  | some s => simpa using hts _ _ h1
  | none =>
    cases h2 : truthyString element.closestId with
    | some s => simpa using hts _ _ h2
    | none =>
      simp only [Option.none_orElse, Option.getD_none, HOrElse.hOrElse, OrElse.orElse,
        Option.orElse]
      intro h
      have hd : "element-".data ++ (toString now).data = [] := by
        rw [← String.data_append, h]
      exact absurd (List.append_eq_nil.mp hd).1 (by decide)

theorem recordClick_clicks (m : Metrics) (event : ClickEvent) (clock : ClickClock) :
    (recordClick m event clock).1.clicks
      = m.clicks ++ [clickDataOf m.sessionStart (event, clock)] := rfl

theorem clickAll_clicks (calls : List (ClickEvent × ClickClock)) (m : Metrics) :
    (clickAll m calls).clicks = m.clicks ++ calls.map (clickDataOf m.sessionStart)
      ∧ (clickAll m calls).sessionStart = m.sessionStart := by
  induction calls generalizing m with
  | nil => simp [clickAll]
  | cons c rest ih =>
    obtain ⟨h1, h2⟩ := ih (recordClick m c.1 c.2).1
    rw [recordClick_clicks, recordClick_sessionStart] at h1
    rw [recordClick_sessionStart] at h2
    refine ⟨?_, h2⟩
    show (clickAll (recordClick m c.1 c.2).1 rest).clicks = _
    rw [h1]
    simp

/-! ### The claims, continued -/

/-- C11: `recordHover` and `recordFocus` for a field id without a record return the state
unchanged; for a field id with a record they add exactly 1 to its `hovers` (resp.
`focuses`), keep its other members, keep the record of every other id and the order of the
keys, and keep every other member of the state. Neither can raise an error. -/
theorem recordHover_recordFocus_frame (m : Metrics) (target : Element) (now : Int) :
    (m.fieldInteractions.get (getFieldInfo target now).id = none →
        recordHover m target now = m ∧ recordFocus m target now = m)
      ∧ (∀ d, m.fieldInteractions.get (getFieldInfo target now).id = some d →
          (recordHover m target now).fieldInteractions.get (getFieldInfo target now).id
              = some { d with hovers := d.hovers + 1 }
            ∧ (recordFocus m target now).fieldInteractions.get (getFieldInfo target now).id
              = some { d with focuses := d.focuses + 1 })
      ∧ (∀ k, k ≠ (getFieldInfo target now).id →
          (recordHover m target now).fieldInteractions.get k = m.fieldInteractions.get k
            ∧ (recordFocus m target now).fieldInteractions.get k = m.fieldInteractions.get k)
      ∧ ((recordHover m target now).fieldInteractions.map Prod.fst
            = m.fieldInteractions.map Prod.fst
          ∧ (recordFocus m target now).fieldInteractions.map Prod.fst
            = m.fieldInteractions.map Prod.fst)
      ∧ (∀ r, r = recordHover m target now ∨ r = recordFocus m target now →
          r.clicks = m.clicks ∧ r.totalClicks = m.totalClicks
            ∧ r.uniqueFields = m.uniqueFields ∧ r.heatmap = m.heatmap
            ∧ r.sessionStart = m.sessionStart ∧ r.userBehavior = m.userBehavior
            ∧ r.occurrences = m.occurrences) := by
  have hid := getFieldInfo_id_ne_empty target now
  refine ⟨?_, ?_, ?_, ?_, ?_⟩
  · intro hnone
    simp [recordHover, recordFocus, hnone]
  · intro d hd
    simp [recordHover, recordFocus, hd, hid, JsObject.get_modify]
  · intro k hk
    unfold recordHover recordFocus
    constructor <;>
    · simp only []
      split_ifs
      · simp [JsObject.get_modify, hk]
      · rfl
  · unfold recordHover recordFocus
    constructor <;>
    · simp only []
      split_ifs
      · simp only [JsObject.modify_keys]
      · rfl
  · rintro r (rfl | rfl)
    · unfold recordHover
      simp only []
      split_ifs <;> exact ⟨rfl, rfl, rfl, rfl, rfl, rfl, rfl⟩
    · unfold recordFocus
      simp only []
      split_ifs <;> exact ⟨rfl, rfl, rfl, rfl, rfl, rfl, rfl⟩

/-- C13: `generateRecommendations` returns the messages whose tests hold, each at most
once and in the order high activity, narrow focus, high click frequency: high activity is
present iff `totalClicks > 10`, narrow focus iff `uniqueFields.size < 3`, high click
frequency iff `clickFrequency > 5`. Eleven clicks over three fields give high activity, ten
do not. -/
theorem generateRecommendations_exact (m : Metrics) :
    ("Usuário muito ativo - considere adicionar atalhos" ∈ generateRecommendations m
        ↔ m.totalClicks > 10)
      ∧ ("Usuário focado em poucos campos - otimizar layout" ∈ generateRecommendations m
        ↔ m.uniqueFields.length < 3)
      ∧ ("Alta frequência de cliques - verificar usabilidade" ∈ generateRecommendations m
        ↔ m.userBehavior.clickFrequency.gt 5 = true)
      ∧ List.Sublist (generateRecommendations m) recommendationMessages
      ∧ (generateRecommendations m).Nodup
      ∧ "Usuário muito ativo - considere adicionar atalhos" ∈ generateRecommendations
          (clickAll (new 0) [sampleClick "A" 1, sampleClick "B" 2, sampleClick "C" 3,
            sampleClick "A" 4, sampleClick "A" 5, sampleClick "A" 6, sampleClick "A" 7,
            sampleClick "A" 8, sampleClick "A" 9, sampleClick "A" 10, sampleClick "A" 11])
      ∧ "Usuário muito ativo - considere adicionar atalhos" ∉ generateRecommendations
          (clickAll (new 0) [sampleClick "A" 1, sampleClick "B" 2, sampleClick "C" 3,
            sampleClick "A" 4, sampleClick "A" 5, sampleClick "A" 6, sampleClick "A" 7,
            sampleClick "A" 8, sampleClick "A" 9, sampleClick "A" 10]) := by
  have key : ∀ s : Metrics,
      ("Usuário muito ativo - considere adicionar atalhos" ∈ generateRecommendations s
        ↔ s.totalClicks > 10) := by
    intro s
    unfold generateRecommendations
    by_cases h1 : s.totalClicks > 10 <;> by_cases h2 : s.uniqueFields.length < 3 <;>
      by_cases h3 : s.userBehavior.clickFrequency.gt 5 = true <;>
      simp only [h1, h2, h3, if_true, if_false, iff_true, iff_false] <;> decide
  refine ⟨key m, ?_, ?_, ?_, ?_, ?_, ?_⟩
  · unfold generateRecommendations
    by_cases h1 : m.totalClicks > 10 <;> by_cases h2 : m.uniqueFields.length < 3 <;>
      by_cases h3 : m.userBehavior.clickFrequency.gt 5 = true <;>
      simp only [h1, h2, h3, if_true, if_false, iff_true, iff_false] <;> decide
  · unfold generateRecommendations
    by_cases h1 : m.totalClicks > 10 <;> by_cases h2 : m.uniqueFields.length < 3 <;>
      by_cases h3 : m.userBehavior.clickFrequency.gt 5 = true <;>
      simp only [h1, h2, h3, if_true, if_false, iff_true, iff_false] <;> decide
  · unfold generateRecommendations recommendationMessages
    by_cases h1 : m.totalClicks > 10 <;> by_cases h2 : m.uniqueFields.length < 3 <;>
      by_cases h3 : m.userBehavior.clickFrequency.gt 5 = true <;>
      simp only [h1, h2, h3, if_true, if_false] <;> decide
  · unfold generateRecommendations
    by_cases h1 : m.totalClicks > 10 <;> by_cases h2 : m.uniqueFields.length < 3 <;>
      by_cases h3 : m.userBehavior.clickFrequency.gt 5 = true <;>
      simp only [h1, h2, h3, if_true, if_false] <;> decide
  · rw [key]
    decide
  · rw [key]
    decide

/-- C14: `getMetrics()` and `exportMetrics()` leave the state as it was; the snapshot that
`exportMetrics()` returns and the one it serialises carry the live `totalClicks`, and a
second export right after the first carries the same `totalClicks`. -/
theorem getMetrics_exportMetrics_are_reads (m : Metrics) (now now1 : Int)
    (iso iso1 : String) :
    step m (Op.getMetrics now) = .ok m
      ∧ (exportMetrics m now iso).1 = m
      ∧ (getMetrics m now).summary.totalClicks = m.totalClicks
      ∧ (exportMetrics m now iso).2.1 = getMetrics m now
      ∧ (exportMetrics m now iso).2.2.payload = getMetrics m now
      ∧ (exportMetrics m now iso).2.2.payload.summary.totalClicks = m.totalClicks
      ∧ (exportMetrics (exportMetrics m now iso).1 now1 iso1).2.2.payload.summary.totalClicks
        = (exportMetrics m now iso).2.2.payload.summary.totalClicks :=
  ⟨rfl, rfl, rfl, rfl, rfl, rfl, rfl⟩

/-- C15: `recentClicks` of a snapshot is the end of the click log, of length
`min n 10` for a log of length `n`, in log order; the log of a fresh aggregator holds the
entries of the `recordClick` calls in call order. -/
theorem recentClicks_last_ten (m : Metrics) (now t0 : Int)
    (calls : List (ClickEvent × ClickClock)) :
    List.IsSuffix (getMetrics m now).recentClicks m.clicks
      ∧ (getMetrics m now).recentClicks.length = min m.clicks.length 10
      ∧ (clickAll (new t0) calls).clicks = calls.map (clickDataOf t0)
      ∧ (getMetrics (clickAll (new t0) calls) now).recentClicks
        = (calls.map (clickDataOf t0)).drop (calls.length - 10) := by
  have hlog : (clickAll (new t0) calls).clicks = calls.map (clickDataOf t0) := by
    rw [(clickAll_clicks calls (new t0)).1]
    rfl
  refine ⟨List.drop_suffix _ _, ?_, hlog, ?_⟩
  · show (m.clicks.drop (m.clicks.length - 10)).length = _
    rw [List.length_drop]
    omega
  · show (clickAll (new t0) calls).clicks.drop ((clickAll (new t0) calls).clicks.length - 10) = _
    rw [hlog, List.length_map]

/-! ### Writes to a dictionary -/

theorem JsObject.get_append_singleton {α : Type} (o : JsObject α) (k k1 : String) (v : α)
    (h : JsObject.get o k = none) :
    JsObject.get (o ++ [(k, v)]) k1 = if k1 = k then some v else JsObject.get o k1 := by
  induction o with
  | nil => rw [List.nil_append, JsObject.get_cons]
  | cons p rest ih =>
    obtain ⟨k2, v2⟩ := p
    rw [JsObject.get_cons] at h
    split_ifs at h with hk
    rw [List.cons_append, JsObject.get_cons, JsObject.get_cons, ih h]
    have hk2 : ¬ k2 = k := fun e => hk e.symm
    by_cases h12 : k1 = k2
    · simp [h12, hk2]
    · simp [h12]

theorem JsObject.get_insertIndex {α : Type} (o : JsObject α) (k k1 : String) (n : Nat) (v : α)
    (h : JsObject.get o k = none) :
    JsObject.get (JsObject.insertIndex o k n v) k1
      = if k1 = k then some v else JsObject.get o k1 := by
  induction o with
  | nil =>
    simp only [JsObject.insertIndex]
    rw [JsObject.get_cons]
  | cons p rest ih =>
    obtain ⟨k2, v2⟩ := p
    rw [JsObject.get_cons] at h
    split_ifs at h with hk
    have hk2 : ¬ k2 = k := fun e => hk e.symm
    cases hidx : arrayIndex? k2 with
    | none =>
      simp only [JsObject.insertIndex, hidx]
      rw [JsObject.get_cons]
    | some i =>
      by_cases hlt : i < n
      · simp only [JsObject.insertIndex, hidx, hlt, if_true]
        rw [JsObject.get_cons, ih h, JsObject.get_cons]
        by_cases h12 : k1 = k2
        · simp [h12, hk2]
        · simp [h12]
      · simp only [JsObject.insertIndex, hidx, hlt, if_false]
        rw [JsObject.get_cons]

theorem JsObject.get_insertNew {α : Type} (o : JsObject α) (k k1 : String) (v : α)
    (h : JsObject.get o k = none) :
    JsObject.get (JsObject.insertNew o k v) k1
      = if k1 = k then some v else JsObject.get o k1 := by
  unfold JsObject.insertNew
  split
  · exact JsObject.get_append_singleton o k k1 v h
  · exact JsObject.get_insertIndex o k k1 _ v h

theorem JsObject.any_key_iff {α : Type} (o : JsObject α) (k : String) :
    o.any (fun p => p.1 == k) = true ↔ JsObject.get o k ≠ none := by
  rw [ne_eq, JsObject.get_eq_none_iff, not_not]
  simp only [List.any_eq_true, beq_iff_eq, List.mem_map]

theorem JsObject.get_set {α : Type} (o : JsObject α) (k k1 : String) (v : α) :
    JsObject.get (JsObject.set o k v) k1 = if k1 = k then some v else JsObject.get o k1 := by
  unfold JsObject.set
  split_ifs with hany hk hk
  · rw [JsObject.get_modify, if_pos hk]
    rw [JsObject.any_key_iff] at hany
    subst hk
    cases hg : JsObject.get o k1 with
    | none => exact absurd hg hany
    | some x => rfl
  · rw [JsObject.get_modify, if_neg hk]
  · have hnone : JsObject.get o k = none := by
      by_contra hne
      exact hany ((JsObject.any_key_iff o k).mpr hne)
    rw [JsObject.get_insertNew o k k1 v hnone, if_pos hk]
  · have hnone : JsObject.get o k = none := by
      by_contra hne
      exact hany ((JsObject.any_key_iff o k).mpr hne)
    rw [JsObject.get_insertNew o k k1 v hnone, if_neg hk]

theorem recordClick_get (m : Metrics) (event : ClickEvent) (clock : ClickClock)
    (k : String) :
    (recordClick m event clock).1.fieldInteractions.get k
      = if k = clickedId (event, clock) then
          (if m.fieldInteractions.get k = none ∧ k ∈ objectPrototypeMembers then none
           else
            some { (m.fieldInteractions.get k).getD (freshFieldStats event clock) with
              clicks := ((m.fieldInteractions.get k).getD (freshFieldStats event clock)).clicks + 1
              lastInteraction := clock.timestamp })
        else m.fieldInteractions.get k := by
  rw [recordClick_fieldInteractions_eq, JsObject.get_modify]
  by_cases hk : k = clickedId (event, clock)
  · rw [if_pos hk, if_pos hk, hk]
    cases hget : m.fieldInteractions.get (clickedId (event, clock)) with
    | some d =>
      rw [if_pos (JsObject.truthyAt_of_get_some _ _ d hget), hget,
        if_neg (fun h => absurd h.1 (by simp))]
      rfl
    | none =>
      by_cases hmem : clickedId (event, clock) ∈ objectPrototypeMembers
      · rw [if_pos (JsObject.truthyAt_of_member _ _ hmem), hget, if_pos ⟨rfl, hmem⟩]
        rfl
      · rw [if_neg (by rw [JsObject.truthyAt_of_neither _ _ hget hmem]
                       exact Bool.false_ne_true),
          JsObject.get_set, if_pos rfl, if_neg (fun h => hmem h.2)]
        rfl
  · rw [if_neg hk, if_neg hk]
    split_ifs
    · rfl
    · rw [JsObject.get_set, if_neg hk]

theorem recordOccurrenceRegistration_counts (m : Metrics) (o : Occurrences) (type : String)
    (registrationTime : Option Int) (now : Int) (hocc : m.occurrences = some o) :
    ∃ r o1, recordOccurrenceRegistration m type registrationTime now = .ok r
      ∧ r.1.occurrences = some o1
      ∧ o1.totalRegistered = o.totalRegistered + 1
      ∧ o1.registrationsThisSession = o.registrationsThisSession + 1
      ∧ o1.patrimonialRegistered
        = o.patrimonialRegistered + (if type = "patrimonial" then 1 else 0)
      ∧ o1.veicularRegistered = o.veicularRegistered + (if type = "veicular" then 1 else 0)
      ∧ r.1.fieldInteractions = m.fieldInteractions
      ∧ r.1.uniqueFields = m.uniqueFields := by
  have hpv : ¬ ("veicular" = "patrimonial") := by decide
  by_cases hp : type = "patrimonial" <;> by_cases hv : type = "veicular" <;>
    cases hlast : o.registrationTimes.getLast? <;>
    simp [recordOccurrenceRegistration, hocc, hp, hv, hlast, updateAverageRegistrationTime,
      hpv] <;>
    split_ifs <;> simp_all

theorem registerAll_counts (calls : List (String × Option Int × Int)) (m : Metrics)
    (o : Occurrences) (hocc : m.occurrences = some o) :
    ∃ m1 o1, registerAll m calls = .ok m1
      ∧ m1.occurrences = some o1
      ∧ o1.totalRegistered = o.totalRegistered + calls.length
      ∧ o1.patrimonialRegistered
        = o.patrimonialRegistered + calls.countP (fun c => c.1 = "patrimonial")
      ∧ o1.veicularRegistered
        = o.veicularRegistered + calls.countP (fun c => c.1 = "veicular") := by
  induction calls generalizing m o with
  | nil => exact ⟨m, o, rfl, hocc, rfl, rfl, rfl⟩
  | cons c rest ih =>
    obtain ⟨r, o1, hr, ho1, ht, -, hp, hv, -, -⟩ :=
      recordOccurrenceRegistration_counts m o c.1 c.2.1 c.2.2 hocc
    obtain ⟨m2, o2, hm2, ho2, ht2, hp2, hv2⟩ := ih r.1 o1 ho1
    refine ⟨m2, o2, ?_, ho2, ?_, ?_, ?_⟩
    · simp only [registerAll, hr]
      exact hm2
    · rw [ht2, ht, List.length_cons]; omega
    · rw [hp2, hp, List.countP_cons]
      by_cases h : c.1 = "patrimonial"
      · simp [h]; omega
      · simp [h]
    · rw [hv2, hv, List.countP_cons]
      by_cases h : c.1 = "veicular"
      · simp [h]; omega
      · simp [h]

theorem countP_two_le_length {α : Type} (l : List α) (p q : α → Bool)
    (h : ∀ x, ¬ (p x = true ∧ q x = true)) : l.countP p + l.countP q ≤ l.length := by
  induction l with
  | nil => simp
  | cons x rest ih =>
    rw [List.countP_cons, List.countP_cons, List.length_cons]
    have := h x
    by_cases hp : p x = true <;> by_cases hq : q x = true <;> simp_all <;> omega

/-- C12 (counterexample): a registration of the category `outro` on a fresh aggregator
raises `totalRegistered` to 1 and leaves both per-category counters at 0, so the
per-category counts sum to 0, not to `totalRegistered`. -/
theorem other_category_not_counted_counterexample :
    (registerAll (new 0) [("outro", none, 1)]).map
        (fun m => m.occurrences.map
          (fun o => (o.totalRegistered, o.patrimonialRegistered, o.veicularRegistered)))
      = .ok (some (1, 0, 0))
    ∧ (registerAll (new 0) [("outro", none, 1)]).map
        (fun m => m.occurrences.map
          (fun o => decide (o.patrimonialRegistered + o.veicularRegistered = o.totalRegistered)))
      = .ok (some false) :=
  ⟨rfl, rfl⟩

/-- C12 (amended): every `recordOccurrenceRegistration(c)` on a state that has the
`occurrences` member raises `totalRegistered` by 1; it raises `patrimonialRegistered` by 1
exactly when `c` is `patrimonial` and `veicularRegistered` by 1 exactly when `c` is
`veicular`, and no other counter exists. After any sequence of registrations on a fresh
aggregator `totalRegistered` is the number of calls, each of the two counters is the number
of calls of its category, and the two counters sum to at most `totalRegistered`. -/
theorem registration_counts_two_fixed_categories (t0 : Int)
    (calls : List (String × Option Int × Int)) :
    ∃ m1 o1, registerAll (new t0) calls = .ok m1
      ∧ m1.occurrences = some o1
      ∧ o1.totalRegistered = calls.length
      ∧ o1.patrimonialRegistered = calls.countP (fun c => c.1 = "patrimonial")
      ∧ o1.veicularRegistered = calls.countP (fun c => c.1 = "veicular")
      ∧ o1.patrimonialRegistered + o1.veicularRegistered ≤ o1.totalRegistered := by
  obtain ⟨m1, o1, h1, h2, h3, h4, h5⟩ := registerAll_counts calls (new t0) _ rfl
  have h3a : o1.totalRegistered = calls.length := by rw [h3]; exact Nat.zero_add _
  have h4a : o1.patrimonialRegistered = calls.countP (fun c => c.1 = "patrimonial") := by
    rw [h4]; exact Nat.zero_add _
  have h5a : o1.veicularRegistered = calls.countP (fun c => c.1 = "veicular") := by
    rw [h5]; exact Nat.zero_add _
  refine ⟨m1, o1, h1, h2, h3a, h4a, h5a, ?_⟩
  rw [h3a, h4a, h5a]
  apply countP_two_le_length
  intro x hx
  simp only [decide_eq_true_eq] at hx
  have : ("patrimonial" : String) = "veicular" := hx.1.symm.trans hx.2
  exact absurd this (by decide)

/-- C16 (counterexample): a click on field `A` carrying the labels `div` / `one` followed
by a click on `A` carrying `span` / `two` leaves the record of `A` with `div` / `one`. -/
theorem field_labels_counterexample :
    (getFieldInfo (labelledClick "A" "SPAN" "two" 2).1.target 2).id = "A"
      ∧ (getFieldInfo (labelledClick "A" "SPAN" "two" 2).1.target 2).type = "span"
      ∧ (getFieldInfo (labelledClick "A" "SPAN" "two" 2).1.target 2).text = "two"
      ∧ ((clickAll (new 0) [labelledClick "A" "DIV" "one" 1,
            labelledClick "A" "SPAN" "two" 2]).fieldInteractions.get "A").map
          (fun d => (d.clicks, d.fieldType, d.fieldText)) = some (2, "div", "one") := by
  refine ⟨by decide, by decide, by decide, by decide⟩

/-- C16 (amended): a `recordClick` for a field id that has a record raises its `clicks` by
1, sets its `lastInteraction` and keeps every other member, `fieldType` and `fieldText`
included; for a field id without a record that names no member of `Object.prototype` it
creates one with `clicks = 1` and the type and text of this click; for a field id without
a record that names such a member (`constructor`, `toString`, ...) it creates none and
leaves the table as it is. The stored labels are those of the click that created the
record. -/
theorem recordClick_keeps_first_labels (m : Metrics) (event : ClickEvent)
    (clock : ClickClock) :
    (∀ d, m.fieldInteractions.get (getFieldInfo event.target clock.fieldInfoTime).id = some d →
        (recordClick m event clock).1.fieldInteractions.get
            (getFieldInfo event.target clock.fieldInfoTime).id
          = some { d with clicks := d.clicks + 1, lastInteraction := clock.timestamp })
      ∧ (m.fieldInteractions.get (getFieldInfo event.target clock.fieldInfoTime).id = none →
        (getFieldInfo event.target clock.fieldInfoTime).id ∉ objectPrototypeMembers →
        (recordClick m event clock).1.fieldInteractions.get
            (getFieldInfo event.target clock.fieldInfoTime).id
          = some
              { clicks := 1
                hovers := 0
                focuses := 0
                firstInteraction := clock.timestamp
                lastInteraction := clock.timestamp
                fieldType := (getFieldInfo event.target clock.fieldInfoTime).type
                fieldText := (getFieldInfo event.target clock.fieldInfoTime).text })
      ∧ (m.fieldInteractions.get (getFieldInfo event.target clock.fieldInfoTime).id = none →
        (getFieldInfo event.target clock.fieldInfoTime).id ∈ objectPrototypeMembers →
        (recordClick m event clock).1.fieldInteractions = m.fieldInteractions) := by
  have hget := recordClick_get m event clock (clickedId (event, clock))
  rw [if_pos rfl] at hget
  refine ⟨?_, ?_, ?_⟩
  · intro d hd
    have hd1 : m.fieldInteractions.get (clickedId (event, clock)) = some d := hd
    rw [hd1, if_neg (fun h => absurd h.1 (by simp))] at hget
    exact hget
  · intro hnone hid
    have hn1 : m.fieldInteractions.get (clickedId (event, clock)) = none := hnone
    rw [hn1, if_neg (fun h => hid h.2)] at hget
    exact hget
  · intro hnone hid
    exact recordClick_fieldInteractions_inherited m event clock hnone hid

/-- C16 witness: the second click on `A` keeps the labels `div` / `one` of the first; the
first click on `A` creates the record with its labels; a click on the id `constructor`
creates no record. -/
theorem recordClick_keeps_first_labels_witness :
    ((recordClick (clickAll (new 0) [labelledClick "A" "DIV" "one" 1])
          (labelledClick "A" "SPAN" "two" 2).1
          (labelledClick "A" "SPAN" "two" 2).2).1.fieldInteractions.get "A").map
        (fun d => (d.clicks, d.lastInteraction, d.fieldType, d.fieldText))
        = some (2, 2, "div", "one")
      ∧ ((recordClick (new 0) (labelledClick "A" "DIV" "one" 1).1
          (labelledClick "A" "DIV" "one" 1).2).1.fieldInteractions.get "A").map
        (fun d => (d.clicks, d.lastInteraction, d.fieldType, d.fieldText))
        = some (1, 1, "div", "one")
      ∧ (recordClick (new 0) (labelledClick "constructor" "DIV" "one" 1).1
          (labelledClick "constructor" "DIV" "one" 1).2).1.fieldInteractions = [] := by
  refine ⟨?_, ?_, ?_⟩
  · have h := (recordClick_keeps_first_labels
      (clickAll (new 0) [labelledClick "A" "DIV" "one" 1])
      (labelledClick "A" "SPAN" "two" 2).1 (labelledClick "A" "SPAN" "two" 2).2).1
      { clicks := 1, hovers := 0, focuses := 0, firstInteraction := 1, lastInteraction := 1,
        fieldType := "div", fieldText := "one" } (by decide)
    have hid : (getFieldInfo (labelledClick "A" "SPAN" "two" 2).1.target
        (labelledClick "A" "SPAN" "two" 2).2.fieldInfoTime).id = "A" := by decide
    rw [hid] at h
    rw [h]
    rfl
  · have h := (recordClick_keeps_first_labels (new 0)
      (labelledClick "A" "DIV" "one" 1).1 (labelledClick "A" "DIV" "one" 1).2).2.1
      (by decide) (by decide)
    have hid : (getFieldInfo (labelledClick "A" "DIV" "one" 1).1.target
        (labelledClick "A" "DIV" "one" 1).2.fieldInfoTime).id = "A" := by decide
    rw [hid] at h
    rw [h]
    decide
  · exact (recordClick_keeps_first_labels (new 0)
      (labelledClick "constructor" "DIV" "one" 1).1
      (labelledClick "constructor" "DIV" "one" 1).2).2.2 (by decide) (by decide)

/-! ### Key sets and counters of the per-field table -/

theorem mem_setAdd (s : List String) (x k : String) : k ∈ setAdd s x ↔ k = x ∨ k ∈ s := by
  unfold setAdd
  split_ifs with hx
  · constructor
    · exact fun h => Or.inr h
    · rintro (rfl | h)
      · exact hx
      · exact h
  · simp only [List.mem_append, List.mem_singleton]
    tauto

theorem JsObject.mem_keys_iff {α : Type} (o : JsObject α) (k : String) :
    k ∈ o.map Prod.fst ↔ JsObject.get o k ≠ none := by
  rw [ne_eq, JsObject.get_eq_none_iff, not_not]

theorem recordClick_keys_mem (m : Metrics) (event : ClickEvent) (clock : ClickClock)
    (hid : clickedId (event, clock) ∉ objectPrototypeMembers) (k : String) :
    k ∈ (recordClick m event clock).1.fieldInteractions.map Prod.fst
      ↔ k = clickedId (event, clock) ∨ k ∈ m.fieldInteractions.map Prod.fst := by
  rw [JsObject.mem_keys_iff, JsObject.mem_keys_iff, recordClick_get]
  by_cases hk : k = clickedId (event, clock)
  · rw [if_pos hk, if_neg (fun h => hid (hk ▸ h.2))]
    simp [hk]
  · rw [if_neg hk]
    simp [hk]

theorem recordClick_keys_subset (m : Metrics) (event : ClickEvent) (clock : ClickClock)
    (k : String) (h : k ∈ (recordClick m event clock).1.fieldInteractions.map Prod.fst) :
    k = clickedId (event, clock) ∨ k ∈ m.fieldInteractions.map Prod.fst := by
  rw [JsObject.mem_keys_iff, recordClick_get] at h
  by_cases hk : k = clickedId (event, clock)
  · exact Or.inl hk
  · rw [if_neg hk] at h
    exact Or.inr ((JsObject.mem_keys_iff _ _).mpr h)

theorem recordClick_keys_nodup (m : Metrics) (event : ClickEvent) (clock : ClickClock)
    (h : (m.fieldInteractions.map Prod.fst).Nodup) :
    ((recordClick m event clock).1.fieldInteractions.map Prod.fst).Nodup := by
  rw [recordClick_fieldInteractions_eq, JsObject.modify_keys]
  split_ifs with ht
  · exact h
  · have hget : m.fieldInteractions.get (clickedId (event, clock)) = none := by
      cases hg : m.fieldInteractions.get (clickedId (event, clock)) with
      | none => rfl
      | some d => exact absurd (JsObject.truthyAt_of_get_some _ _ d hg) ht
    rw [JsObject.set_of_get_none _ _ _ hget,
      ((JsObject.insertNew_perm m.fieldInteractions (clickedId (event, clock))
        (freshFieldStats event clock)).map Prod.fst).nodup_iff, List.map_cons,
      List.nodup_cons]
    exact ⟨(JsObject.get_eq_none_iff _ _).mp hget, h⟩

theorem recordHover_get (m : Metrics) (target : Element) (now : Int) (k : String) :
    (recordHover m target now).fieldInteractions.get k
      = if k = (getFieldInfo target now).id then
          (m.fieldInteractions.get k).map (fun d => { d with hovers := d.hovers + 1 })
        else m.fieldInteractions.get k := by
  unfold recordHover
  simp only []
  by_cases hc : (getFieldInfo target now).id ≠ ""
      ∧ (m.fieldInteractions.get (getFieldInfo target now).id).isSome = true
  · rw [if_pos hc]
    simp only [JsObject.get_modify]
  · rw [if_neg hc]
    have hnone : m.fieldInteractions.get (getFieldInfo target now).id = none := by
      cases hg : m.fieldInteractions.get (getFieldInfo target now).id with
      | none => rfl
      | some d => exact absurd ⟨getFieldInfo_id_ne_empty target now, by simp [hg]⟩ hc
    by_cases hk : k = (getFieldInfo target now).id
    · rw [if_pos hk, hk, hnone]
      rfl
    · rw [if_neg hk]

theorem recordHover_keys (m : Metrics) (target : Element) (now : Int) :
    (recordHover m target now).fieldInteractions.map Prod.fst
        = m.fieldInteractions.map Prod.fst
      ∧ (recordHover m target now).uniqueFields = m.uniqueFields
      ∧ (recordHover m target now).heatmap = m.heatmap
      ∧ (recordHover m target now).clicks = m.clicks := by
  unfold recordHover
  simp only []
  split_ifs
  · exact ⟨by simp only [JsObject.modify_keys], rfl, rfl, rfl⟩
  · exact ⟨rfl, rfl, rfl, rfl⟩

theorem recordFocus_get (m : Metrics) (target : Element) (now : Int) (k : String) :
    (recordFocus m target now).fieldInteractions.get k
      = if k = (getFieldInfo target now).id then
          (m.fieldInteractions.get k).map (fun d => { d with focuses := d.focuses + 1 })
        else m.fieldInteractions.get k := by
  unfold recordFocus
  simp only []
  by_cases hc : (getFieldInfo target now).id ≠ ""
      ∧ (m.fieldInteractions.get (getFieldInfo target now).id).isSome = true
  · rw [if_pos hc]
    simp only [JsObject.get_modify]
  · rw [if_neg hc]
    have hnone : m.fieldInteractions.get (getFieldInfo target now).id = none := by
      cases hg : m.fieldInteractions.get (getFieldInfo target now).id with
      | none => rfl
      | some d => exact absurd ⟨getFieldInfo_id_ne_empty target now, by simp [hg]⟩ hc
    by_cases hk : k = (getFieldInfo target now).id
    · rw [if_pos hk, hk, hnone]
      rfl
    · rw [if_neg hk]

theorem recordFocus_keys (m : Metrics) (target : Element) (now : Int) :
    (recordFocus m target now).fieldInteractions.map Prod.fst
        = m.fieldInteractions.map Prod.fst
      ∧ (recordFocus m target now).uniqueFields = m.uniqueFields
      ∧ (recordFocus m target now).heatmap = m.heatmap
      ∧ (recordFocus m target now).clicks = m.clicks := by
  unfold recordFocus
  simp only []
  split_ifs
  · exact ⟨by simp only [JsObject.modify_keys], rfl, rfl, rfl⟩
  · exact ⟨rfl, rfl, rfl, rfl⟩

theorem interact_keys_uniqueFields (m : Metrics) (i : Interaction)
    (hown : i.clicksOwnKey = true)
    (h : ∀ k, k ∈ m.fieldInteractions.map Prod.fst ↔ k ∈ m.uniqueFields) :
    ∀ k, k ∈ (interact m i).fieldInteractions.map Prod.fst
      ↔ k ∈ (interact m i).uniqueFields := by
  intro k
  cases i with
  | click event clock =>
    show k ∈ (recordClick m event clock).1.fieldInteractions.map Prod.fst
      ↔ k ∈ (recordClick m event clock).1.uniqueFields
    rw [recordClick_keys_mem m event clock (by simpa [Interaction.clicksOwnKey] using hown),
      recordClick_uniqueFields, mem_setAdd, h k]
    rfl
  | reset now => exact Iff.rfl
  | hover target now =>
    show k ∈ (recordHover m target now).fieldInteractions.map Prod.fst
      ↔ k ∈ (recordHover m target now).uniqueFields
    rw [(recordHover_keys m target now).1, (recordHover_keys m target now).2.1]
    exact h k
  | focus target now =>
    show k ∈ (recordFocus m target now).fieldInteractions.map Prod.fst
      ↔ k ∈ (recordFocus m target now).uniqueFields
    rw [(recordFocus_keys m target now).1, (recordFocus_keys m target now).2.1]
    exact h k

theorem foldl_interact_keys_uniqueFields (ops : List Interaction) (m : Metrics)
    (hown : ∀ i ∈ ops, i.clicksOwnKey = true)
    (h : ∀ k, k ∈ m.fieldInteractions.map Prod.fst ↔ k ∈ m.uniqueFields) :
    ∀ k, k ∈ (ops.foldl interact m).fieldInteractions.map Prod.fst
      ↔ k ∈ (ops.foldl interact m).uniqueFields := by
  induction ops generalizing m with
  | nil => exact h
  | cons i rest ih =>
    exact ih (interact m i) (fun j hj => hown j (List.mem_cons_of_mem i hj))
      (interact_keys_uniqueFields m i (hown i (List.mem_cons_self i rest)) h)

/-- Without any condition on the ids: the keys stay pairwise distinct and every key is a
member of `uniqueFields`. -/
theorem foldl_interact_keys_nodup_subset (ops : List Interaction) (m : Metrics)
    (hnd : (m.fieldInteractions.map Prod.fst).Nodup)
    (h : ∀ k, k ∈ m.fieldInteractions.map Prod.fst → k ∈ m.uniqueFields) :
    ((ops.foldl interact m).fieldInteractions.map Prod.fst).Nodup
      ∧ ∀ k, k ∈ (ops.foldl interact m).fieldInteractions.map Prod.fst
          → k ∈ (ops.foldl interact m).uniqueFields := by
  induction ops generalizing m with
  | nil => exact ⟨hnd, h⟩
  | cons i rest ih =>
    rw [List.foldl_cons]
    cases i with
    | click event clock =>
      refine ih (recordClick m event clock).1 (recordClick_keys_nodup m event clock hnd) ?_
      intro k hk
      rw [recordClick_uniqueFields, mem_setAdd]
      exact (recordClick_keys_subset m event clock k hk).imp id (h k)
    | reset now =>
      exact ih (reset m now) List.nodup_nil (fun k hk => absurd hk (List.not_mem_nil k))
    | hover target now =>
      refine ih (recordHover m target now) ?_ ?_
      · rw [(recordHover_keys m target now).1]; exact hnd
      · rw [(recordHover_keys m target now).1, (recordHover_keys m target now).2.1]; exact h
    | focus target now =>
      refine ih (recordFocus m target now) ?_ ?_
      · rw [(recordFocus_keys m target now).1]; exact hnd
      · rw [(recordFocus_keys m target now).1, (recordFocus_keys m target now).2.1]; exact h

theorem step_counters_monotone (m m1 : Metrics) (op : Op) (hop : op.isReset = false)
    (hstep : step m op = .ok m1) (k : String) (d : FieldStats)
    (hd : m.fieldInteractions.get k = some d) :
    ∃ d1, m1.fieldInteractions.get k = some d1
      ∧ d.clicks ≤ d1.clicks ∧ d.hovers ≤ d1.hovers ∧ d.focuses ≤ d1.focuses
      ∧ d1.firstInteraction = d.firstInteraction := by
  cases op with
  | reset now => simp [Op.isReset] at hop
  | getMetrics now =>
    obtain rfl : m = m1 := Except.ok.inj hstep
    exact ⟨d, hd, le_refl _, le_refl _, le_refl _, rfl⟩
  | getOccurrenceStats now =>
    simp only [step] at hstep
    cases hs : getOccurrenceStats m now with
    | error e => rw [hs] at hstep; simp [Except.map] at hstep
    | ok st =>
      rw [hs] at hstep
      obtain rfl : m = m1 := Except.ok.inj hstep
      exact ⟨d, hd, le_refl _, le_refl _, le_refl _, rfl⟩
  | recordOccurrenceRegistration type registrationTime now =>
    simp only [step] at hstep
    cases hocc : m.occurrences with
    | none =>
      simp [recordOccurrenceRegistration, hocc, Except.map] at hstep
    | some o =>
      obtain ⟨r, o1, hr, -, -, -, -, -, hfi, -⟩ :=
        recordOccurrenceRegistration_counts m o type registrationTime now hocc
      rw [hr] at hstep
      obtain rfl : r.1 = m1 := Except.ok.inj hstep
      rw [hfi]
      exact ⟨d, hd, le_refl _, le_refl _, le_refl _, rfl⟩
  | recordClick event clock =>
    obtain rfl : (recordClick m event clock).1 = m1 := Except.ok.inj hstep
    rw [recordClick_get]
    by_cases hk : k = clickedId (event, clock)
    · rw [if_pos hk, if_neg (fun h => absurd (hd.symm.trans h.1) (by simp)), hd]
      exact ⟨_, rfl, Nat.le_succ _, le_refl _, le_refl _, rfl⟩
    · rw [if_neg hk]
      exact ⟨d, hd, le_refl _, le_refl _, le_refl _, rfl⟩
  | recordHover target now =>
    obtain rfl : recordHover m target now = m1 := Except.ok.inj hstep
    rw [recordHover_get]
    split_ifs with hk
    · rw [hd]
      exact ⟨_, rfl, le_refl _, Nat.le_succ _, le_refl _, rfl⟩
    · exact ⟨d, hd, le_refl _, le_refl _, le_refl _, rfl⟩
  | recordFocus target now =>
    obtain rfl : recordFocus m target now = m1 := Except.ok.inj hstep
    rw [recordFocus_get]
    split_ifs with hk
    · rw [hd]
      exact ⟨_, rfl, le_refl _, le_refl _, Nat.le_succ _, rfl⟩
    · exact ⟨d, hd, le_refl _, le_refl _, le_refl _, rfl⟩

theorem foldl_interact_first_le_last (ops : List Interaction) (m : Metrics)
    (hm : ∀ k d, m.fieldInteractions.get k = some d →
      d.firstInteraction ≤ d.lastInteraction ∧ ∀ t ∈ clickStamps ops, d.lastInteraction ≤ t)
    (hclock : (clickStamps ops).Pairwise (fun a b => a ≤ b)) :
    ∀ k d, (ops.foldl interact m).fieldInteractions.get k = some d →
      d.firstInteraction ≤ d.lastInteraction := by
  induction ops generalizing m with
  | nil => exact fun k d h => (hm k d h).1
  | cons i rest ih =>
    rw [List.foldl_cons]
    cases i with
    | reset now =>
      apply ih (reset m now) _ hclock
      intro k d h
      exact absurd h (by simp [reset, JsObject.get])
    | hover target now =>
      apply ih (recordHover m target now) _ hclock
      intro k d h
      rw [recordHover_get] at h
      split_ifs at h with hk
      · cases hg : m.fieldInteractions.get k with
        | none => rw [hg] at h; simp at h
        | some d0 =>
          rw [hg] at h
          obtain rfl := Option.some.inj h
          exact hm k d0 hg
      · exact hm k d h
    | focus target now =>
      apply ih (recordFocus m target now) _ hclock
      intro k d h
      rw [recordFocus_get] at h
      split_ifs at h with hk
      · cases hg : m.fieldInteractions.get k with
        | none => rw [hg] at h; simp at h
        | some d0 =>
          rw [hg] at h
          obtain rfl := Option.some.inj h
          exact hm k d0 hg
      · exact hm k d h
    | click event clock =>
      have hpw : (clock.timestamp :: clickStamps rest).Pairwise (fun a b => a ≤ b) := hclock
      rw [List.pairwise_cons] at hpw
      apply ih (recordClick m event clock).1 _ hpw.2
      intro k d h
      rw [recordClick_get] at h
      split_ifs at h with hk hinh
      · obtain rfl := Option.some.inj h
        refine ⟨?_, fun t ht => hpw.1 t ht⟩
        cases hg : m.fieldInteractions.get k with
        | none => exact le_refl _
        | some d0 =>
          have h0 := hm k d0 hg
          exact le_trans h0.1 (h0.2 clock.timestamp (List.mem_cons_self _ _))
      · have h0 := hm k d h
        exact ⟨h0.1, fun t ht => h0.2 t (List.mem_cons_of_mem _ ht)⟩

/-- C17 (counterexample): one click on the element with id `toString` on a fresh
aggregator adds the id to `uniqueFields` and creates no record: `uniqueFields` has one
member and `fieldInteractions` has no key. -/
theorem fieldInteractions_keys_counterexample :
    ([Interaction.click (sampleClick "toString" 1).1 (sampleClick "toString" 1).2].foldl
        interact (new 0)).uniqueFields = ["toString"]
      ∧ ([Interaction.click (sampleClick "toString" 1).1 (sampleClick "toString" 1).2].foldl
          interact (new 0)).fieldInteractions.map Prod.fst = []
      ∧ ¬ (∀ k, k ∈ ([Interaction.click (sampleClick "toString" 1).1
              (sampleClick "toString" 1).2].foldl interact
                (new 0)).fieldInteractions.map Prod.fst
            ↔ k ∈ ([Interaction.click (sampleClick "toString" 1).1
              (sampleClick "toString" 1).2].foldl interact (new 0)).uniqueFields) := by
  have h1 : ([Interaction.click (sampleClick "toString" 1).1
      (sampleClick "toString" 1).2].foldl interact (new 0)).uniqueFields = ["toString"] := by
    decide
  have h2 : ([Interaction.click (sampleClick "toString" 1).1
      (sampleClick "toString" 1).2].foldl interact (new 0)).fieldInteractions.map Prod.fst
      = [] := by decide
  refine ⟨h1, h2, ?_⟩
  intro h
  have := (h "toString").mpr (by rw [h1]; exact List.mem_singleton_self _)
  rw [h2] at this
  exact absurd this (List.not_mem_nil _)

/-- C17 (amended): in every state reached from construction by `recordClick`,
`recordHover`, `recordFocus` and `reset` calls the keys of `fieldInteractions` are pairwise
distinct and are members of `uniqueFields`; when no click is on an id that names a member
of `Object.prototype`, they are exactly the members of `uniqueFields`. A call of any method
but `reset` that returns keeps every record, with `clicks`, `hovers` and `focuses` not
below their previous values and `firstInteraction` unchanged. When the `timestamp` readings
of the clicks do not decrease, every record has `firstInteraction <= lastInteraction`. -/
theorem fieldInteractions_records_invariant (t0 : Int) (ops : List Interaction) :
    ((ops.foldl interact (new t0)).fieldInteractions.map Prod.fst).Nodup
      ∧ (∀ k, k ∈ (ops.foldl interact (new t0)).fieldInteractions.map Prod.fst
          → k ∈ (ops.foldl interact (new t0)).uniqueFields)
      ∧ ((∀ i ∈ ops, i.clicksOwnKey = true) →
          ∀ k, k ∈ (ops.foldl interact (new t0)).fieldInteractions.map Prod.fst
            ↔ k ∈ (ops.foldl interact (new t0)).uniqueFields)
      ∧ (∀ (m m1 : Metrics) (op : Op), op.isReset = false → step m op = .ok m1 →
          ∀ k d, m.fieldInteractions.get k = some d →
            ∃ d1, m1.fieldInteractions.get k = some d1
              ∧ d.clicks ≤ d1.clicks ∧ d.hovers ≤ d1.hovers ∧ d.focuses ≤ d1.focuses
              ∧ d1.firstInteraction = d.firstInteraction)
      ∧ ((clickStamps ops).Pairwise (fun a b => a ≤ b) →
          ∀ k d, (ops.foldl interact (new t0)).fieldInteractions.get k = some d →
            d.firstInteraction ≤ d.lastInteraction) := by
  obtain ⟨hnd, hsub⟩ := foldl_interact_keys_nodup_subset ops (new t0) List.nodup_nil
    (fun k hk => absurd hk (List.not_mem_nil k))
  refine ⟨hnd, hsub,
    fun hown => foldl_interact_keys_uniqueFields ops (new t0) hown (fun k => Iff.rfl),
    fun m m1 op hop hstep k d hd => step_counters_monotone m m1 op hop hstep k d hd, ?_⟩
  intro hclock
  apply foldl_interact_first_le_last ops (new t0) _ hclock
  intro k d h
  exact absurd h (by simp [new, JsObject.get])

/-- C17 witness: clicks on A and B with a hover and a focus between them, at increasing
times; the keys of `fieldInteractions` are the members A, B of `uniqueFields`. -/
theorem fieldInteractions_records_invariant_witness :
    (∀ i ∈ [Interaction.click (sampleClick "A" 1).1 (sampleClick "A" 1).2,
          Interaction.hover (sampleElement "A") 2,
          Interaction.click (sampleClick "B" 3).1 (sampleClick "B" 3).2,
          Interaction.focus (sampleElement "B") 4], i.clicksOwnKey = true)
      ∧ (clickStamps [Interaction.click (sampleClick "A" 1).1 (sampleClick "A" 1).2,
          Interaction.hover (sampleElement "A") 2,
          Interaction.click (sampleClick "B" 3).1 (sampleClick "B" 3).2,
          Interaction.focus (sampleElement "B") 4]).Pairwise (fun a b => a ≤ b)
      ∧ ([Interaction.click (sampleClick "A" 1).1 (sampleClick "A" 1).2,
          Interaction.hover (sampleElement "A") 2,
          Interaction.click (sampleClick "B" 3).1 (sampleClick "B" 3).2,
          Interaction.focus (sampleElement "B") 4].foldl interact (new 0)).uniqueFields
        = ["A", "B"]
      ∧ (∀ k, k ∈ ([Interaction.click (sampleClick "A" 1).1 (sampleClick "A" 1).2,
          Interaction.hover (sampleElement "A") 2,
          Interaction.click (sampleClick "B" 3).1 (sampleClick "B" 3).2,
          Interaction.focus (sampleElement "B") 4].foldl interact
            (new 0)).fieldInteractions.map Prod.fst
          ↔ k ∈ ([Interaction.click (sampleClick "A" 1).1 (sampleClick "A" 1).2,
          Interaction.hover (sampleElement "A") 2,
          Interaction.click (sampleClick "B" 3).1 (sampleClick "B" 3).2,
          Interaction.focus (sampleElement "B") 4].foldl interact (new 0)).uniqueFields)
      ∧ ∀ k d, ([Interaction.click (sampleClick "A" 1).1 (sampleClick "A" 1).2,
          Interaction.hover (sampleElement "A") 2,
          Interaction.click (sampleClick "B" 3).1 (sampleClick "B" 3).2,
          Interaction.focus (sampleElement "B") 4].foldl interact
            (new 0)).fieldInteractions.get k = some d →
          d.firstInteraction ≤ d.lastInteraction := by
  have h := fieldInteractions_records_invariant 0
    [Interaction.click (sampleClick "A" 1).1 (sampleClick "A" 1).2,
      Interaction.hover (sampleElement "A") 2,
      Interaction.click (sampleClick "B" 3).1 (sampleClick "B" 3).2,
      Interaction.focus (sampleElement "B") 4]
  exact ⟨by decide, by decide, by decide, h.2.2.1 (by decide), h.2.2.2.2 (by decide)⟩

/-! ### Decimal numerals and heat map keys -/

theorem digitChar_spec (k : Nat) (hk : k < 10) :
    (Nat.digitChar k).isDigit = true ∧ (Nat.digitChar k).toNat - 48 = k := by
  interval_cases k <;> exact ⟨by decide, by decide⟩

theorem digitsValue_append_singleton (l : List Char) (c : Char) :
    digitsValue (l ++ [c]) = digitsValue l * 10 + (c.toNat - 48) := by
  unfold digitsValue
  rw [List.foldl_append]
  rfl

theorem toDigitsCore_spec (fuel n : Nat) (ds : List Char) (h : n < fuel) :
    ∃ l, Nat.toDigitsCore 10 fuel n ds = l ++ ds ∧ l ≠ []
      ∧ (∀ c ∈ l, c.isDigit = true) ∧ digitsValue l = n := by
  induction fuel generalizing n ds with
  | zero => exact absurd h (Nat.not_lt_zero n)
  | succ fuel ih =>
    have hmod : n % 10 < 10 := Nat.mod_lt n (by decide)
    obtain ⟨hdig, hval⟩ := digitChar_spec (n % 10) hmod
    by_cases hq : n / 10 = 0
    · refine ⟨[Nat.digitChar (n % 10)], ?_, by simp, ?_, ?_⟩
      · simp [Nat.toDigitsCore, hq]
      · intro c hc
        rw [List.mem_singleton] at hc
        rw [hc]
        exact hdig
      · have : digitsValue [Nat.digitChar (n % 10)] = (Nat.digitChar (n % 10)).toNat - 48 := by
          simp [digitsValue]
        rw [this, hval]
        omega
    · have hlt : n / 10 < fuel := by omega
      obtain ⟨l, hl, -, hall, hv⟩ := ih (n / 10) (Nat.digitChar (n % 10) :: ds) hlt
      refine ⟨l ++ [Nat.digitChar (n % 10)], ?_, by simp, ?_, ?_⟩
      · simp only [Nat.toDigitsCore, hq, if_false]
        rw [hl]
        simp
      · intro c hc
        rcases List.mem_append.mp hc with hc | hc
        · exact hall c hc
        · rw [List.mem_singleton] at hc
          rw [hc]
          exact hdig
      · rw [digitsValue_append_singleton, hv, hval]
        omega

theorem natToString_spec (n : Nat) :
    (toString n).data ≠ [] ∧ (∀ c ∈ (toString n).data, c.isDigit = true)
      ∧ digitsValue (toString n).data = n := by
  obtain ⟨l, hl, hne, hall, hv⟩ := toDigitsCore_spec (n + 1) n [] (Nat.lt_succ_self n)
  have hdata : (toString n).data = l := by
    show (Nat.toDigitsCore 10 (n + 1) n []).asString.data = l
    rw [hl, List.append_nil]
    rfl
  rw [hdata]
  exact ⟨hne, hall, hv⟩

theorem natToString_injective (a b : Nat) (h : (toString a).data = (toString b).data) :
    a = b := by
  rw [← (natToString_spec a).2.2, ← (natToString_spec b).2.2, h]

theorem intToString_ofNat (n : Nat) : (toString (Int.ofNat n)).data = (toString n).data := rfl

theorem intToString_negSucc (n : Nat) :
    (toString (Int.negSucc n)).data = '-' :: (toString (n + 1)).data := rfl

theorem digits_sep_cancel (l1 l2 r1 r2 : List Char)
    (h1 : ∀ c ∈ l1, c.isDigit = true) (h2 : ∀ c ∈ l2, c.isDigit = true)
    (h : l1 ++ '-' :: r1 = l2 ++ '-' :: r2) : l1 = l2 ∧ r1 = r2 := by
  have hsep : ¬ ('-' : Char).isDigit = true := by decide
  induction l1 generalizing l2 with
  | nil =>
    cases l2 with
    | nil => exact ⟨rfl, (List.cons.inj h).2⟩
    | cons c rest =>
      have hc : '-' = c := (List.cons.inj h).1
      exact absurd (hc ▸ h2 c (List.mem_cons_self c rest)) hsep
  | cons c rest ih =>
    cases l2 with
    | nil =>
      have hc : c = '-' := (List.cons.inj h).1
      exact absurd (hc ▸ h1 c (List.mem_cons_self c rest)) hsep
    | cons c2 rest2 =>
      obtain ⟨hc, hrest⟩ := List.cons.inj h
      obtain ⟨hl, hr⟩ := ih rest2 (fun x hx => h1 x (List.mem_cons_of_mem c hx))
        (fun x hx => h2 x (List.mem_cons_of_mem c2 hx)) hrest
      exact ⟨by rw [hc, hl], hr⟩

theorem intToString_prefix_injective (i1 i2 : Int) (r1 r2 : List Char)
    (h : (toString i1).data ++ '-' :: r1 = (toString i2).data ++ '-' :: r2) :
    i1 = i2 ∧ r1 = r2 := by
  have hsep : ¬ ('-' : Char).isDigit = true := by decide
  have hhead : ∀ (n : Nat) (rest tail : List Char),
      (toString n).data ++ tail = '-' :: rest → False := by
    intro n rest tail hn
    obtain ⟨hne, hall, -⟩ := natToString_spec n
    cases hd : (toString n).data with
    | nil => exact hne hd
    | cons c cs =>
      rw [hd] at hn hall
      have hc : c = '-' := (List.cons.inj hn).1
      exact hsep (hc ▸ hall c (List.mem_cons_self c cs))
  cases i1 with
  | ofNat a =>
    cases i2 with
    | ofNat b =>
      rw [intToString_ofNat, intToString_ofNat] at h
      obtain ⟨hl, hr⟩ := digits_sep_cancel _ _ _ _ (natToString_spec a).2.1
        (natToString_spec b).2.1 h
      exact ⟨by rw [natToString_injective a b hl], hr⟩
    | negSucc b =>
      rw [intToString_ofNat, intToString_negSucc, List.cons_append] at h
      exact absurd h (fun e => hhead a _ _ e)
  | negSucc a =>
    cases i2 with
    | ofNat b =>
      rw [intToString_ofNat, intToString_negSucc, List.cons_append] at h
      exact absurd h.symm (fun e => hhead b _ _ e)
    | negSucc b =>
      rw [intToString_negSucc, intToString_negSucc, List.cons_append, List.cons_append] at h
      obtain ⟨hl, hr⟩ := digits_sep_cancel _ _ _ _ (natToString_spec (a + 1)).2.1
        (natToString_spec (b + 1)).2.1 (List.cons.inj h).2
      have hab : a + 1 = b + 1 := natToString_injective _ _ hl
      exact ⟨by rw [Nat.succ.inj hab], hr⟩

theorem cellKey_data (cell : Int × Int) :
    (cellKey cell).data = (toString cell.1).data ++ '-' :: (toString cell.2).data := by
  unfold cellKey
  rw [String.data_append, String.data_append]
  simp

theorem cellKey_injective (c1 c2 : Int × Int) (h : cellKey c1 = cellKey c2) : c1 = c2 := by
  have hd : (cellKey c1).data = (cellKey c2).data := by rw [h]
  rw [cellKey_data, cellKey_data] at hd
  obtain ⟨h1, hr⟩ := intToString_prefix_injective _ _ _ _ hd
  have hr2 : (toString c1.2).data ++ '-' :: [] = (toString c2.2).data ++ '-' :: [] := by
    rw [hr]
  obtain ⟨h2, -⟩ := intToString_prefix_injective _ _ _ _ hr2
  exact Prod.ext h1 h2

theorem heatmapKey_eq_cellKey (x y : Int) : heatmapKey x y = cellKey (cellOf x y) := rfl

theorem recordClick_heatmap (m : Metrics) (event : ClickEvent) (clock : ClickClock) :
    (recordClick m event clock).1.heatmap
      = JsObject.set m.heatmap (heatmapKey event.clientX event.clientY)
          ((m.heatmap.get (heatmapKey event.clientX event.clientY)).getD 0 + 1) := rfl

theorem recordClick_bucketCount (m : Metrics) (event : ClickEvent) (clock : ClickClock)
    (key : String) :
    bucketCount (recordClick m event clock).1.heatmap key
      = bucketCount m.heatmap key
        + (if key = heatmapKey event.clientX event.clientY then 1 else 0) := by
  unfold bucketCount
  rw [recordClick_heatmap, JsObject.get_set]
  split_ifs with hk
  · rw [hk]
    rfl
  · rfl

theorem interact_heatmap_counts (m : Metrics) (i : Interaction)
    (h : ∀ key, bucketCount m.heatmap key
      = m.clicks.countP (fun d => heatmapKey d.coordinates.1 d.coordinates.2 = key)) :
    ∀ key, bucketCount (interact m i).heatmap key
      = (interact m i).clicks.countP
          (fun d => heatmapKey d.coordinates.1 d.coordinates.2 = key) := by
  intro key
  cases i with
  | reset now => rfl
  | hover target now =>
    show bucketCount (recordHover m target now).heatmap key
      = (recordHover m target now).clicks.countP _
    rw [(recordHover_keys m target now).2.2.1, (recordHover_keys m target now).2.2.2]
    exact h key
  | focus target now =>
    show bucketCount (recordFocus m target now).heatmap key
      = (recordFocus m target now).clicks.countP _
    rw [(recordFocus_keys m target now).2.2.1, (recordFocus_keys m target now).2.2.2]
    exact h key
  | click event clock =>
    show bucketCount (recordClick m event clock).1.heatmap key
      = (recordClick m event clock).1.clicks.countP _
    rw [recordClick_bucketCount, recordClick_clicks, List.countP_append, h key]
    congr 1
    by_cases hk : key = heatmapKey event.clientX event.clientY
    · rw [if_pos hk, hk]
      simp [clickDataOf, List.countP_cons]
    · rw [if_neg hk]
      have hk1 : ¬ heatmapKey event.clientX event.clientY = key := fun e => hk e.symm
      simp [clickDataOf, List.countP_cons, hk1]

theorem foldl_interact_heatmap_counts (ops : List Interaction) (m : Metrics)
    (h : ∀ key, bucketCount m.heatmap key
      = m.clicks.countP (fun d => heatmapKey d.coordinates.1 d.coordinates.2 = key)) :
    ∀ key, bucketCount (ops.foldl interact m).heatmap key
      = (ops.foldl interact m).clicks.countP
          (fun d => heatmapKey d.coordinates.1 d.coordinates.2 = key) := by
  induction ops generalizing m with
  | nil => exact h
  | cons i rest ih => exact ih (interact m i) (interact_heatmap_counts m i h)

/-- C18: the heat map key of a click is the key of its cell, distinct cells have distinct
keys (negative cell numbers included), a `recordClick` raises the count of the key of its
cell by exactly 1 and leaves every other count as it was, and in every state reached from
construction the count stored under the key of cell `(i, j)` is the number of clicks in the
log whose position lies in that cell. -/
theorem heatmap_counts_clicks_per_cell (t0 : Int) (ops : List Interaction) (i j : Int) :
    (∀ c1 c2 : Int × Int, cellKey c1 = cellKey c2 → c1 = c2)
      ∧ (∀ x y : Int, heatmapKey x y = cellKey (Int.fdiv x 50, Int.fdiv y 50))
      ∧ (∀ (m : Metrics) (event : ClickEvent) (clock : ClickClock) (key : String),
          bucketCount (recordClick m event clock).1.heatmap key
            = bucketCount m.heatmap key
              + (if key = heatmapKey event.clientX event.clientY then 1 else 0))
      ∧ bucketCount (ops.foldl interact (new t0)).heatmap (cellKey (i, j))
        = (ops.foldl interact (new t0)).clicks.countP
            (fun d => Int.fdiv d.coordinates.1 50 = i ∧ Int.fdiv d.coordinates.2 50 = j) := by
  refine ⟨cellKey_injective, fun x y => rfl, recordClick_bucketCount, ?_⟩
  rw [foldl_interact_heatmap_counts ops (new t0) (fun key => rfl) (cellKey (i, j))]
  apply List.countP_congr
  intro d _
  simp only [decide_eq_true_eq]
  constructor
  · intro hkey
    have := cellKey_injective (cellOf d.coordinates.1 d.coordinates.2) (i, j) hkey
    exact ⟨congrArg Prod.fst this, congrArg Prod.snd this⟩
  · rintro ⟨h1, h2⟩
    show cellKey (cellOf _ _) = cellKey (i, j)
    unfold cellOf
    rw [h1, h2]

end DashboardMetrics

/-! ## Theorems about the event emitter -/

namespace EventEmitter

/-! ### The map of listener arrays -/

theorem mapGet_mapSet (events : Events) (k k1 : String) (v : List ListenerData) :
    mapGet (mapSet events k v) k1 = if k1 = k then some v else mapGet events k1 := by
  unfold mapSet
  split_ifs with hany hk hk
  · have h := DashboardMetrics.JsObject.get_modify events k k1 (fun _ => v)
    rw [if_pos hk] at h
    have hsome : DashboardMetrics.JsObject.get events k1 ≠ none := by
      rw [hk]
      exact (DashboardMetrics.JsObject.any_key_iff events k).mp hany
    cases hg : DashboardMetrics.JsObject.get events k1 with
    | none => exact absurd hg hsome
    | some x =>
      rw [hg] at h
      exact h
  · have h := DashboardMetrics.JsObject.get_modify events k k1 (fun _ => v)
    rw [if_neg hk] at h
    exact h
  · have hnone : DashboardMetrics.JsObject.get events k = none := by
      by_contra hne
      exact hany ((DashboardMetrics.JsObject.any_key_iff events k).mpr hne)
    have h := DashboardMetrics.JsObject.get_append_singleton events k k1 v hnone
    rw [if_pos hk] at h
    exact h
  · have hnone : DashboardMetrics.JsObject.get events k = none := by
      by_contra hne
      exact hany ((DashboardMetrics.JsObject.any_key_iff events k).mpr hne)
    have h := DashboardMetrics.JsObject.get_append_singleton events k k1 v hnone
    rw [if_neg hk] at h
    exact h

theorem mapGet_mapDelete (events : Events) (k k1 : String) :
    mapGet (mapDelete events k) k1 = if k1 = k then none else mapGet events k1 := by
  induction events with
  | nil =>
    simp [mapGet, mapDelete]
  | cons p rest ih =>
    obtain ⟨k2, v2⟩ := p
    unfold mapGet mapDelete at ih ⊢
    by_cases h2 : k2 = k
    · have hb : (k2 != k) = false := by simp [h2]
      rw [List.filter_cons_of_neg (by simp [hb]), ih]
      by_cases hk : k1 = k
      · simp [hk]
      · have : (k1 == k2) = false := by rw [h2]; simpa using hk
        simp [hk, List.lookup, this]
    · have hb : (k2 != k) = true := by simp [h2]
      rw [List.filter_cons_of_pos (by simp [hb])]
      by_cases h12 : k1 = k2
      · have hk : ¬ k1 = k := fun e => h2 (h12 ▸ e)
        simp [List.lookup, h12, h2]
      · have hb2 : (k1 == k2) = false := by simpa using h12
        simp only [List.lookup, hb2]
        exact ih

theorem listenersOf_addListener (em em1 : Emitter) (event event1 : String) (f : Nat)
    (options : Options) (freshId : String)
    (h : addListener em event (.func f) options freshId = .ok em1) :
    listenersOf em1 event1
      = if event1 = event then
          sortByPriority (listenersOf em event ++ [listenerDataOf f options freshId])
        else listenersOf em event1 := by
  simp only [addListener] at h
  have hem := (Except.ok.inj h).symm
  subst hem
  cases hg : mapGet em.events event with
  | none =>
    by_cases hk : event1 = event
    · simp [listenersOf, hg, mapGet_mapSet, hk]
    · simp [listenersOf, hg, mapGet_mapSet, hk]
  | some ls =>
    by_cases hk : event1 = event
    · simp [listenersOf, hg, mapGet_mapSet, hk]
    · simp [listenersOf, hg, mapGet_mapSet, hk]

theorem spliceFirst_cases (p : ListenerData → Bool) (listeners : List ListenerData) :
    spliceFirst p listeners = listeners
      ∨ ∃ index, spliceFirst p listeners = listeners.eraseIdx index := by
  unfold spliceFirst
  split
  · exact Or.inr ⟨_, rfl⟩
  · exact Or.inl rfl

theorem listenersOf_off (em : Emitter) (event event1 : String) (listener : Arg) :
    (event1 ≠ event → listenersOf (off em event listener) event1 = listenersOf em event1)
      ∧ (listenersOf (off em event listener) event = listenersOf em event
        ∨ ∃ index, listenersOf (off em event listener) event
            = (listenersOf em event).eraseIdx index) := by
  unfold off listenersOf
  cases hg : mapGet em.events event with
  | none =>
    exact ⟨fun _ => rfl, Or.inl (by simp [hg])⟩
  | some ls =>
    simp only []
    have hrem : ∀ remaining : List ListenerData,
        (event1 ≠ event →
          (mapGet (if remaining.length = 0 then
              ({ em with events := mapDelete em.events event } : Emitter)
            else { em with events := mapSet em.events event remaining }).events event1).getD []
            = (mapGet em.events event1).getD [])
        ∧ (mapGet (if remaining.length = 0 then
              ({ em with events := mapDelete em.events event } : Emitter)
            else { em with events := mapSet em.events event remaining }).events event).getD []
            = remaining := by
      intro remaining
      split_ifs with hlen
      · constructor
        · intro hne
          simp only [mapGet_mapDelete, if_neg hne]
        · simp only [mapGet_mapDelete, if_true, Option.getD_none]
          exact (List.length_eq_zero.mp hlen).symm
      · constructor
        · intro hne
          simp only [mapGet_mapSet, if_neg hne]
        · simp only [mapGet_mapSet, if_true, Option.getD_some]
    refine ⟨(hrem _).1, ?_⟩
    rw [(hrem _).2]
    simp only [Option.getD_some]
    cases listener with
    | str s => exact spliceFirst_cases _ ls
    | func f => exact spliceFirst_cases _ ls
    | other => exact Or.inl rfl

/-! ### Sorting after a push -/

theorem orderedInsert_head (a : ListenerData) (l : List ListenerData)
    (h : ∀ b ∈ l, byPriority a b) : List.orderedInsert byPriority a l = a :: l := by
  cases l with
  | nil => rfl
  | cons b rest => exact List.orderedInsert_of_le _ rest (h b (List.mem_cons_self b rest))

theorem sortByPriority_snoc (l : List ListenerData) (d : ListenerData)
    (hs : l.Pairwise byPriority) :
    sortByPriority (l ++ [d])
      = l.takeWhile (fun a => decide (d.priority ≤ a.priority))
        ++ d :: l.dropWhile (fun a => decide (d.priority ≤ a.priority)) := by
  induction l with
  | nil => rfl
  | cons a rest ih =>
    rw [List.pairwise_cons] at hs
    have hstep : sortByPriority (a :: rest ++ [d])
        = List.orderedInsert byPriority a (sortByPriority (rest ++ [d])) := rfl
    rw [hstep, ih hs.2]
    by_cases hp : d.priority ≤ a.priority
    · have htw : (a :: rest).takeWhile (fun a => decide (d.priority ≤ a.priority))
          = a :: rest.takeWhile (fun a => decide (d.priority ≤ a.priority)) := by
        simp [List.takeWhile_cons, hp]
      have hdw : (a :: rest).dropWhile (fun a => decide (d.priority ≤ a.priority))
          = rest.dropWhile (fun a => decide (d.priority ≤ a.priority)) := by
        simp [List.dropWhile_cons, hp]
      rw [htw, hdw, List.cons_append]
      apply orderedInsert_head
      intro b hb
      rcases List.mem_append.mp hb with hb | hb
      · exact hs.1 b ((List.takeWhile_sublist _).subset hb)
      · rcases List.mem_cons.mp hb with rfl | hb
        · exact hp
        · exact hs.1 b ((List.dropWhile_sublist _).subset hb)
    · have htw : (a :: rest).takeWhile (fun a => decide (d.priority ≤ a.priority)) = [] := by
        simp [List.takeWhile_cons, hp]
      have hdw : (a :: rest).dropWhile (fun a => decide (d.priority ≤ a.priority))
          = a :: rest := by
        simp [List.dropWhile_cons, hp]
      have hrest : ∀ b ∈ rest, ¬ d.priority ≤ b.priority := by
        intro b hb hle
        exact hp (le_trans hle (hs.1 b hb))
      have htw2 : rest.takeWhile (fun a => decide (d.priority ≤ a.priority)) = [] := by
        cases rest with
        | nil => rfl
        | cons b rest2 =>
          simp [List.takeWhile_cons, hrest b (List.mem_cons_self b rest2)]
      have hdw2 : rest.dropWhile (fun a => decide (d.priority ≤ a.priority)) = rest := by
        cases rest with
        | nil => rfl
        | cons b rest2 =>
          simp [List.dropWhile_cons, hrest b (List.mem_cons_self b rest2)]
      rw [htw, hdw, htw2, hdw2, List.nil_append, List.nil_append]
      have hnot : ¬ byPriority a d := hp
      rw [List.orderedInsert, if_neg hnot, orderedInsert_head a rest hs.1]

theorem eraseIdx_map_fst (t : List (ListenerData × Nat)) (index : Nat) :
    (t.eraseIdx index).map Prod.fst = (t.map Prod.fst).eraseIdx index := by
  induction t generalizing index with
  | nil => rfl
  | cons x rest ih =>
    cases index with
    | zero => rfl
    | succ n =>
      simp only [List.eraseIdx_cons_succ, List.map_cons]
      rw [ih]

theorem tagOrder_byPriority (t : List (ListenerData × Nat)) (h : t.Pairwise TagOrder) :
    (t.map Prod.fst).Pairwise byPriority := by
  rw [List.pairwise_map]
  apply h.imp
  intro a b hab
  rcases hab with hlt | ⟨heq, -⟩
  · exact le_of_lt hlt
  · exact le_of_eq heq

theorem tagOrder_dropWhile (t : List (ListenerData × Nat)) (d : ListenerData)
    (h : t.Pairwise TagOrder) :
    ∀ b ∈ t.dropWhile (fun x => decide (d.priority ≤ x.1.priority)),
      b.1.priority < d.priority := by
  induction t with
  | nil => intro b hb; exact absurd hb (List.not_mem_nil b)
  | cons a rest ih =>
    rw [List.pairwise_cons] at h
    by_cases hp : d.priority ≤ a.1.priority
    · have : (a :: rest).dropWhile (fun x => decide (d.priority ≤ x.1.priority))
          = rest.dropWhile (fun x => decide (d.priority ≤ x.1.priority)) := by
        simp [List.dropWhile_cons, hp]
      rw [this]
      exact ih h.2
    · have : (a :: rest).dropWhile (fun x => decide (d.priority ≤ x.1.priority))
          = a :: rest := by
        simp [List.dropWhile_cons, hp]
      rw [this]
      intro b hb
      rcases List.mem_cons.mp hb with rfl | hb
      · exact not_le.mp hp
      · have hab : b.1.priority ≤ a.1.priority := by
          rcases h.1 b hb with hlt | ⟨heq, -⟩
          · exact le_of_lt hlt
          · exact le_of_eq heq
        exact lt_of_le_of_lt hab (not_le.mp hp)

theorem tagOrder_insert (t : List (ListenerData × Nat)) (d : ListenerData) (n : Nat)
    (h : t.Pairwise TagOrder) (hn : ∀ x ∈ t, x.2 < n) :
    (t.takeWhile (fun x => decide (d.priority ≤ x.1.priority))
      ++ (d, n) :: t.dropWhile (fun x => decide (d.priority ≤ x.1.priority))).Pairwise
        TagOrder := by
  rw [List.pairwise_append]
  refine ⟨h.sublist (List.takeWhile_sublist _), ?_, ?_⟩
  · rw [List.pairwise_cons]
    refine ⟨?_, h.sublist (List.dropWhile_sublist _)⟩
    intro b hb
    exact Or.inl (tagOrder_dropWhile t d h b hb)
  · intro a ha b hb
    rcases List.mem_cons.mp hb with rfl | hb
    · have hpa : d.priority ≤ a.1.priority := by
        simpa using List.mem_takeWhile_imp ha
      have hlt := hn a ((List.takeWhile_sublist _).subset ha)
      rcases lt_or_eq_of_le hpa with hl | he
      · exact Or.inl hl
      · exact Or.inr ⟨he, hlt⟩
    · have hsplit : t = t.takeWhile (fun x => decide (d.priority ≤ x.1.priority))
          ++ t.dropWhile (fun x => decide (d.priority ≤ x.1.priority)) :=
        (List.takeWhile_append_dropWhile _ t).symm
      rw [hsplit, List.pairwise_append] at h
      exact h.2.2 a ha b hb

theorem applyCall_listeners (em : Emitter) (c : Call) (event : String) :
    listenersOf (applyCall em c) event = listenersOf em event
      ∨ (∃ index, listenersOf (applyCall em c) event = (listenersOf em event).eraseIdx index)
      ∨ (∃ d, c.registers event = some d
          ∧ listenersOf (applyCall em c) event = sortByPriority (listenersOf em event ++ [d])) := by
  have hadd : ∀ (e : String) (listener : Arg) (options : Options) (freshId : String),
      listenersOf (match addListener em e listener options freshId with
          | .ok em1 => em1
          | .error _ => em) event = listenersOf em event
        ∨ (∃ f, listener = .func f ∧ e = event
            ∧ listenersOf (match addListener em e listener options freshId with
                | .ok em1 => em1
                | .error _ => em) event
              = sortByPriority (listenersOf em event ++ [listenerDataOf f options freshId])) := by
    intro e listener options freshId
    cases listener with
    | str s => exact Or.inl rfl
    | other => exact Or.inl rfl
    | func f =>
      cases hres : addListener em e (.func f) options freshId with
      | error err => exact Or.inl rfl
      | ok em1 =>
        have hl := listenersOf_addListener em em1 e event f options freshId hres
        by_cases he : event = e
        · rw [if_pos he] at hl
          exact Or.inr ⟨f, rfl, he.symm, by rw [he]; rw [he] at hl; exact hl⟩
        · rw [if_neg he] at hl
          exact Or.inl hl
  cases c with
  | add e listener options freshId =>
    rcases hadd e listener options freshId with h | ⟨f, rfl, rfl, h⟩
    · exact Or.inl h
    · exact Or.inr (Or.inr ⟨_, by simp [Call.registers], h⟩)
  | once e listener options freshId =>
    rcases hadd e listener { options with once := true } freshId with h | ⟨f, rfl, rfl, h⟩
    · exact Or.inl h
    · exact Or.inr (Or.inr ⟨_, by simp [Call.registers], h⟩)
  | off e listener =>
    by_cases he : event = e
    · rcases (listenersOf_off em e event listener).2 with h | ⟨index, h⟩
      · exact Or.inl (by rw [he]; exact h)
      · exact Or.inr (Or.inl ⟨index, by rw [he]; exact h⟩)
    · exact Or.inl ((listenersOf_off em e event listener).1 he)

theorem tagged_listeners (calls : List Call) (event : String) :
    ∃ t : List (ListenerData × Nat),
      t.map Prod.fst = listenersOf (calls.foldl applyCall create) event
        ∧ t.Pairwise TagOrder
        ∧ ∀ x ∈ t, ∃ c, calls[x.2]? = some c ∧ c.registers event = some x.1 := by
  induction calls using List.reverseRecOn with
  | nil => exact ⟨[], rfl, List.Pairwise.nil, fun x hx => absurd hx (List.not_mem_nil x)⟩
  | append_singleton init c ih =>
    obtain ⟨t, hmap, hpw, htag⟩ := ih
    have hrun : (init ++ [c]).foldl applyCall create
        = applyCall (init.foldl applyCall create) c := by
      rw [List.foldl_append]
      rfl
    have hbound : ∀ x ∈ t, x.2 < init.length := by
      intro x hx
      obtain ⟨c1, hc1, -⟩ := htag x hx
      obtain ⟨hlt, -⟩ := List.getElem?_eq_some.mp hc1
      exact hlt
    have hold : ∀ x ∈ t, ∃ c1, (init ++ [c])[x.2]? = some c1
        ∧ c1.registers event = some x.1 := by
      intro x hx
      obtain ⟨c1, hc1, hreg⟩ := htag x hx
      exact ⟨c1, by rw [List.getElem?_append_left (hbound x hx)]; exact hc1, hreg⟩
    rw [hrun]
    rcases applyCall_listeners (init.foldl applyCall create) c event with
      h | ⟨index, h⟩ | ⟨d, hreg, h⟩
    · exact ⟨t, by rw [h]; exact hmap, hpw, hold⟩
    · refine ⟨t.eraseIdx index, ?_, hpw.sublist (List.eraseIdx_sublist t index), ?_⟩
      · rw [h, eraseIdx_map_fst, hmap]
      · intro x hx
        exact hold x ((List.eraseIdx_sublist t index).subset hx)
    · refine ⟨t.takeWhile (fun x => decide (d.priority ≤ x.1.priority))
          ++ (d, init.length) :: t.dropWhile (fun x => decide (d.priority ≤ x.1.priority)),
        ?_, tagOrder_insert t d init.length hpw hbound, ?_⟩
      · rw [h, sortByPriority_snoc _ d (by rw [← hmap]; exact tagOrder_byPriority t hpw),
          ← hmap, List.map_append, List.map_cons]
        rw [List.takeWhile_map, List.dropWhile_map]
        rfl
      · intro x hx
        rcases List.mem_append.mp hx with hx | hx
        · exact hold x ((List.takeWhile_sublist _).subset hx)
        · rcases List.mem_cons.mp hx with rfl | hx
          · refine ⟨c, ?_, hreg⟩
            rw [List.getElem?_append_right (le_refl _)]
            simp
          · exact hold x ((List.dropWhile_sublist _).subset hx)

/-! ### The order of the calls made by `emit` -/

theorem runListeners_log_events (throws : Nat → Bool) (event errorEvent : String)
    (onCatch : Emitter → Emitter × Log)
    (hc : ∀ e x, x ∈ (onCatch e).2 → x.1 = errorEvent) (listeners : List ListenerData)
    (em : Emitter) :
    ∀ x ∈ (runListeners throws event onCatch listeners em).2,
      x.1 = event ∨ x.1 = errorEvent := by
  induction listeners generalizing em with
  | nil => intro x hx; exact absurd hx (List.not_mem_nil x)
  | cons l rest ih =>
    intro x hx
    simp only [runListeners] at hx
    rcases List.mem_cons.mp hx with rfl | hx
    · exact Or.inl rfl
    · rcases List.mem_append.mp hx with hx | hx
      · split_ifs at hx with h1 h2
        · exact Or.inr (hc em x hx)
        · exact absurd hx (List.not_mem_nil x)
        · exact absurd hx (List.not_mem_nil x)
      · exact ih _ x hx

theorem runListeners_log_filter (throws : Nat → Bool) (event : String)
    (onCatch : Emitter → Emitter × Log)
    (hc : ∀ e x, x ∈ (onCatch e).2 → x.1 ≠ event) (listeners : List ListenerData)
    (em : Emitter) :
    (runListeners throws event onCatch listeners em).2.filter (fun x => decide (x.1 = event))
      = listeners.map (fun l => (event, l)) := by
  induction listeners generalizing em with
  | nil => rfl
  | cons l rest ih =>
    simp only [runListeners, List.map_cons]
    rw [List.cons_append, List.filter_cons_of_pos (by simp), List.filter_append, ih]
    congr 1
    have hnil : ∀ body : Emitter × Log, (∀ x ∈ body.2, x.1 ≠ event) →
        body.2.filter (fun x => decide (x.1 = event)) = [] := by
      intro body hb
      rw [List.filter_eq_nil_iff]
      intro x hx
      simpa using hb x hx
    rw [hnil, List.nil_append]
    intro x hx
    split_ifs at hx with h1 h2
    · exact hc em x hx
    · exact absurd hx (List.not_mem_nil x)
    · exact absurd hx (List.not_mem_nil x)

theorem emitError_log_events (throws : Nat → Bool) (em : Emitter) :
    ∀ x ∈ (emitError throws em).2.1, x.1 = "error" := by
  intro x hx
  unfold emitError at hx
  cases hg : mapGet em.events "error" with
  | none =>
    rw [hg] at hx
    exact absurd hx (List.not_mem_nil x)
  | some ls =>
    rw [hg] at hx
    rcases runListeners_log_events throws "error" "error" (fun e => (e, []))
      (fun e y hy => absurd hy (List.not_mem_nil y)) ls em x hx with h | h
    · exact h
    · exact h

theorem emit_log_filter (throws : Nat → Bool) (em : Emitter) (event : String) :
    (emit throws em event).2.1.filter (fun x => decide (x.1 = event))
      = (listenersOf em event).map (fun l => (event, l)) := by
  unfold emit listenersOf
  cases hg : mapGet em.events event with
  | none => rfl
  | some ls =>
    simp only [Option.getD_some]
    apply runListeners_log_filter
    intro e x hx
    split_ifs at hx with he
    · rw [emitError_log_events throws e x hx]
      exact fun h => he h.symm
    · exact absurd hx (List.not_mem_nil x)

/-! ### The claims -/

/-- C19 (evaluation at the failing inputs): with `f` registered by `on` and then by `once`
for the event `e`, the first `emit` calls both registrations and removes the persistent
one, so the once-registration is still listed and the second `emit` calls it again; and a
once-listener that throws is not removed, so the next `emit` calls it again. -/
theorem once_registration_survives_emit :
    (listenersOf persistentThenOnce "e").map (fun l => (l.id, l.once))
        = [("p", false), ("o", true)]
      ∧ (emit (fun _ => false) persistentThenOnce "e").2.1.map (fun x => x.2.id) = ["p", "o"]
      ∧ (listenersOf (emit (fun _ => false) persistentThenOnce "e").1 "e").map
          (fun l => (l.id, l.once)) = [("o", true)]
      ∧ (emit (fun _ => false) (emit (fun _ => false) persistentThenOnce "e").1 "e").2.1.map
          (fun x => x.2.id) = ["o"]
      ∧ (emit (fun f => f = 2) onceOnly "e").2.1.map (fun x => x.2.id) = ["o"]
      ∧ (listenersOf (emit (fun f => f = 2) onceOnly "e").1 "e").map
          (fun l => (l.id, l.once)) = [("o", true)]
      ∧ (emit (fun f => f = 2) (emit (fun f => f = 2) onceOnly "e").1 "e").2.1.map
          (fun x => x.2.id) = ["o"] := by
  refine ⟨by decide, by decide, by decide, by decide, by decide, by decide, by decide⟩

/-- C20: after any sequence of `on`, `once` and `off` calls on a new emitter, the listener
list of every event is ordered by non-increasing priority, and its entries can be tagged
with the index of the call that registered each of them so that entries of equal priority
stand in the order of those indices, i.e. in registration order; and `emit` calls the
listeners of its event in exactly the order of the list (calls of listeners of the `error`
event, made after a listener threw, are the only other calls). -/
theorem listeners_ordered_by_priority_then_registration (calls : List Call) (event : String)
    (throws : Nat → Bool) (em : Emitter) :
    (listenersOf (calls.foldl applyCall create) event).Pairwise
        (fun a b => b.priority ≤ a.priority)
      ∧ (∃ t : List (ListenerData × Nat),
          t.map Prod.fst = listenersOf (calls.foldl applyCall create) event
            ∧ t.Pairwise TagOrder
            ∧ ∀ x ∈ t, ∃ c, calls[x.2]? = some c ∧ c.registers event = some x.1)
      ∧ (emit throws em event).2.1.filter (fun x => decide (x.1 = event))
        = (listenersOf em event).map (fun l => (event, l)) := by
  obtain ⟨t, hmap, hpw, htag⟩ := tagged_listeners calls event
  refine ⟨?_, ⟨t, hmap, hpw, htag⟩, emit_log_filter throws em event⟩
  rw [← hmap]
  exact tagOrder_byPriority t hpw


end EventEmitter

/-! ## Theorems about the cache manager -/

namespace JsMap

theorem map_get_set {α : Type} (m : List (String × α)) (k k1 : String) (v : α) :
    get (set m k v) k1 = if k1 = k then some v else get m k1 := by
  unfold set
  split_ifs with hany hk hk
  · have h := DashboardMetrics.JsObject.get_modify m k k1 (fun _ => v)
    rw [if_pos hk] at h
    have hsome : DashboardMetrics.JsObject.get m k1 ≠ none := by
      rw [hk]
      exact (DashboardMetrics.JsObject.any_key_iff m k).mp hany
    cases hg : DashboardMetrics.JsObject.get m k1 with
    | none => exact absurd hg hsome
    | some x =>
      rw [hg] at h
      exact h
  · have h := DashboardMetrics.JsObject.get_modify m k k1 (fun _ => v)
    rw [if_neg hk] at h
    exact h
  · have hnone : DashboardMetrics.JsObject.get m k = none := by
      by_contra hne
      exact hany ((DashboardMetrics.JsObject.any_key_iff m k).mpr hne)
    have h := DashboardMetrics.JsObject.get_append_singleton m k k1 v hnone
    rw [if_pos hk] at h
    exact h
  · have hnone : DashboardMetrics.JsObject.get m k = none := by
      by_contra hne
      exact hany ((DashboardMetrics.JsObject.any_key_iff m k).mpr hne)
    have h := DashboardMetrics.JsObject.get_append_singleton m k k1 v hnone
    rw [if_neg hk] at h
    exact h

theorem map_get_delete {α : Type} (m : List (String × α)) (k k1 : String) :
    get (delete m k) k1 = if k1 = k then none else get m k1 := by
  induction m with
  | nil => simp [get, delete]
  | cons p rest ih =>
    obtain ⟨k2, v2⟩ := p
    unfold get delete at ih ⊢
    by_cases h2 : k2 = k
    · have hb : (k2 != k) = false := by simp [h2]
      rw [List.filter_cons_of_neg (by simp [hb]), ih]
      by_cases hk : k1 = k
      · simp [hk]
      · have : (k1 == k2) = false := by rw [h2]; simpa using hk
        simp [hk, List.lookup, this]
    · have hb : (k2 != k) = true := by simp [h2]
      rw [List.filter_cons_of_pos (by simp [hb])]
      by_cases h12 : k1 = k2
      · have hk : ¬ k1 = k := fun e => h2 (h12 ▸ e)
        simp [List.lookup, h12, h2]
      · have hb2 : (k1 == k2) = false := by simpa using h12
        simp only [List.lookup, hb2]
        exact ih

end JsMap

namespace CacheManager

/-- C21 (evaluation at the failing input): on a cache with `maxSize = 1`, `set(a)` and
`set(b)` in the same millisecond leave two stored entries: the scan of
`evictLeastRecentlyUsed` starts from `Date.now()` and finds no access time strictly
before it, so nothing is evicted. -/
theorem set_exceeds_maxSize_same_millisecond :
    twoSetsSameMillisecond.maxSize = 1
      ∧ twoSetsSameMillisecond.cache.map Prod.fst = ["a", "b"]
      ∧ twoSetsSameMillisecond.cache.length = 2
      ∧ (oldest [("a", 0)] 0).1 = none := by
  refine ⟨by decide, by decide, by decide, by decide⟩

theorem set_entry (c : Cache) (key value : String) (ttl : Int) (clock : SetClock)
    (httl : ttl ≠ 0) :
    JsMap.get (set c key value (some ttl) clock).cache key
      = some { value := value, expiresAt := clock.expires + ttl, createdAt := clock.created,
               accessCount := 0 } := by
  unfold set
  simp only [httl, if_false]
  rw [JsMap.map_get_set, if_pos rfl]

/-- C22: `set(k, v, ttl)` with `ttl > 0` at time `t0` stores `v` under `k` with
`expiresAt = t0 + ttl`. While the entry of `k` holds `v` and that expiry, `get(k)` at
`t <= t0 + ttl` returns `v` and `has(k)` returns true, both keeping the value and expiry
of the entry; at `t > t0 + ttl`, `get(k)` returns `null`, `has(k)` returns false, and
afterwards `k` is in neither the cache nor the access-time map. -/
theorem get_has_respect_ttl (c0 c : Cache) (k v : String) (ttl t0 t tAccess : Int)
    (clock : SetClock) (item : Item) (httl : 0 < ttl) (hclock : clock.expires = t0)
    (hitem : JsMap.get c.cache k = some item) (hvalue : item.value = v)
    (hexp : item.expiresAt = t0 + ttl) :
    (∃ stored, JsMap.get (set c0 k v (some ttl) clock).cache k = some stored
        ∧ stored.value = v ∧ stored.expiresAt = t0 + ttl)
      ∧ (t ≤ t0 + ttl →
          (get c k t tAccess).2 = some v ∧ (has c k t).2 = true
            ∧ (∃ kept, JsMap.get (get c k t tAccess).1.cache k = some kept
                ∧ kept.value = v ∧ kept.expiresAt = t0 + ttl)
            ∧ (has c k t).1 = c)
      ∧ (t > t0 + ttl →
          (get c k t tAccess).2 = none ∧ (has c k t).2 = false
            ∧ JsMap.get (get c k t tAccess).1.cache k = none
            ∧ JsMap.get (get c k t tAccess).1.accessTimes k = none
            ∧ JsMap.get (has c k t).1.cache k = none
            ∧ JsMap.get (has c k t).1.accessTimes k = none) := by
  refine ⟨?_, ?_, ?_⟩
  · refine ⟨_, set_entry c0 k v ttl clock (ne_of_gt httl), rfl, ?_⟩
    rw [hclock]
  · intro hle
    have hnot : ¬ t > item.expiresAt := by rw [hexp]; exact not_lt.mpr hle
    refine ⟨?_, ?_, ?_, ?_⟩
    · simp only [get, hitem, if_neg hnot, hvalue]
    · simp only [has, hitem, if_neg hnot]
    · refine ⟨{ item with accessCount := item.accessCount + 1 }, ?_, hvalue, hexp⟩
      simp only [get, hitem, if_neg hnot]
      rw [JsMap.map_get_set, if_pos rfl]
    · simp only [has, hitem, if_neg hnot]
  · intro hgt
    have hpos : t > item.expiresAt := by rw [hexp]; exact hgt
    refine ⟨?_, ?_, ?_, ?_, ?_, ?_⟩
    · simp only [get, hitem, if_pos hpos]
    · simp only [has, hitem, if_pos hpos]
    · simp only [get, hitem, if_pos hpos, delete]
      rw [JsMap.map_get_delete, if_pos rfl]
    · simp only [get, hitem, if_pos hpos, delete]
      rw [JsMap.map_get_delete, if_pos rfl]
    · simp only [has, hitem, if_pos hpos, delete]
      rw [JsMap.map_get_delete, if_pos rfl]
    · simp only [has, hitem, if_pos hpos, delete]
      rw [JsMap.map_get_delete, if_pos rfl]

/-- C22 witness: `set(k, v, 1000)` at time 5 on a new cache; `get` and `has` at time
1005 still answer with the entry. -/
theorem get_has_respect_ttl_witness :
    (∃ stored, JsMap.get (set (create none none) "k" "v" (some 1000) ⟨5, 5, 5, 5⟩).cache "k"
          = some stored ∧ stored.value = "v" ∧ stored.expiresAt = 5 + 1000)
      ∧ (get oneEntry "k" 1005 1005).2 = some "v"
      ∧ (has oneEntry "k" 1005).2 = true
      ∧ (get oneEntry "k" 1006 1006).2 = none
      ∧ JsMap.get (get oneEntry "k" 1006 1006).1.cache "k" = none := by
  have h := get_has_respect_ttl (create none none) oneEntry "k" "v" 1000 5 1005 1005
    ⟨5, 5, 5, 5⟩ { value := "v", expiresAt := 1005, createdAt := 5, accessCount := 0 }
    (by decide) rfl (by decide) rfl (by decide)
  have h2 := get_has_respect_ttl (create none none) oneEntry "k" "v" 1000 5 1006 1006
    ⟨5, 5, 5, 5⟩ { value := "v", expiresAt := 1005, createdAt := 5, accessCount := 0 }
    (by decide) rfl (by decide) rfl (by decide)
  obtain ⟨h1, hle, -⟩ := h
  obtain ⟨-, -, hgt⟩ := h2
  obtain ⟨ha, hb, -, -⟩ := hle (by decide)
  obtain ⟨hc, -, hd, -, -, -⟩ := hgt (by decide)
  exact ⟨h1, ha, hb, hc, hd⟩

end CacheManager

/-! ## Theorems about the error handler -/

namespace ErrorHandler

/-- C23 (evaluation at the failing input): under the default configuration (level
`info`) a `debug` message is not suppressed: `LOG_LEVELS.DEBUG` is 0, which `||` replaces
by the rank 1 of `INFO`, so the test `logLevel < configLevel` is `1 < 1` and the entry is
written to the console and emitted. -/
theorem debug_logged_at_info_level (message data isoNow : String) :
    levelOrInfo "debug" = 1
      ∧ levelOrInfo "info" = 1
      ∧ List.lookup "DEBUG" LOG_LEVELS = some 0
      ∧ (log defaultLogging "debug" message data isoNow).emitted
        = some { timestamp := isoNow, level := "DEBUG", message := message, data := data }
      ∧ (log defaultLogging "debug" message data isoNow).consoleLine
        = some ("[" ++ isoNow ++ "] " ++ "DEBUG" ++ ": " ++ message) := by
  have h1 : levelOrInfo "debug" = 1 := by decide
  have h2 : levelOrInfo defaultLogging.level = 1 := by decide
  have hup : jsToUpperCase "debug" = "DEBUG" := by decide
  refine ⟨h1, h2, by decide, ?_, ?_⟩
  · simp only [log, h1, h2, lt_irrefl, if_false, hup]
  · simp only [log, h1, h2, lt_irrefl, if_false, hup]
    rfl

theorem addError_errors (h : Handler) (errorInfo : ErrorInfo) :
    (addError h errorInfo).errors = (errorInfo :: h.errors).take h.maxErrors
      ∧ (addError h errorInfo).maxErrors = h.maxErrors := by
  unfold addError
  simp only []
  split_ifs with hlen
  · exact ⟨rfl, rfl⟩
  · refine ⟨?_, rfl⟩
    show errorInfo :: h.errors = _
    rw [List.take_of_length_le (not_lt.mp hlen)]

theorem foldl_addError (added : List ErrorInfo) (h : Handler)
    (hinv : h.errors.length ≤ h.maxErrors) :
    (added.foldl addError h).errors = (added.reverse ++ h.errors).take h.maxErrors
      ∧ (added.foldl addError h).maxErrors = h.maxErrors := by
  induction added generalizing h with
  | nil =>
    refine ⟨?_, rfl⟩
    show h.errors = _
    rw [List.reverse_nil, List.nil_append, List.take_of_length_le hinv]
  | cons e rest ih =>
    obtain ⟨h1, h2⟩ := addError_errors h e
    have hlen : (addError h e).errors.length ≤ (addError h e).maxErrors := by
      rw [h1, h2, List.length_take]
      exact min_le_left _ _
    obtain ⟨k1, k2⟩ := ih (addError h e) hlen
    rw [List.foldl_cons]
    refine ⟨?_, k2.trans h2⟩
    rw [k1, h1, h2, List.reverse_cons, List.append_assoc, List.singleton_append]
    rw [List.take_append_eq_append_take, List.take_append_eq_append_take, List.take_take]
    congr 1
    rw [List.length_reverse]
    congr 1
    omega

/-- C24: after the `addError` calls for `added` (in call order) on a new handler,
`errors` is the newest-first list of the calls cut to `maxErrors`: it has
`min n maxErrors` entries, at most `maxErrors`, and when a call was made its first entry
is the error of the last call. -/
theorem addError_keeps_most_recent (config : Logging) (added : List ErrorInfo) :
    (added.foldl addError (create config)).errors
        = added.reverse.take (create config).maxErrors
      ∧ (added.foldl addError (create config)).errors.length
        = min added.length (create config).maxErrors
      ∧ (added.foldl addError (create config)).errors.length ≤ (create config).maxErrors
      ∧ (added.foldl addError (create config)).maxErrors = (create config).maxErrors
      ∧ 1 ≤ (create config).maxErrors
      ∧ (added.foldl addError (create config)).errors.head? = added.getLast? := by
  obtain ⟨h1, h2⟩ := foldl_addError added (create config) (Nat.zero_le _)
  have hpos : 1 ≤ (create config).maxErrors := by
    unfold create
    simp only []
    split_ifs with h0
    · decide
    · omega
  have herr : (added.foldl addError (create config)).errors
      = added.reverse.take (create config).maxErrors := by
    rw [h1]
    show (added.reverse ++ []).take _ = _
    rw [List.append_nil]
  refine ⟨herr, ?_, ?_, h2, hpos, ?_⟩
  · rw [herr, List.length_take, List.length_reverse]
    exact min_comm _ _
  · rw [herr, List.length_take]
    exact min_le_left _ _
  · rw [herr]
    cases hrev : added.reverse with
    | nil =>
      have : added = [] := List.reverse_eq_nil_iff.mp hrev
      rw [this]
      simp
    | cons e rest =>
      have hadded : added = rest.reverse ++ [e] := by
        rw [← List.reverse_reverse added, hrev, List.reverse_cons]
      obtain ⟨n, hn⟩ : ∃ n, (create config).maxErrors = n + 1 :=
        ⟨(create config).maxErrors - 1, by omega⟩
      rw [hn, List.take_succ_cons, List.head?_cons, hadded, List.getLast?_append]
      rfl

end ErrorHandler

/-! ## Theorems about the validator -/

namespace Validator

theorem range_nine : List.range 9 = [0, 1, 2, 3, 4, 5, 6, 7, 8] := by decide

theorem range_ten : List.range 10 = [0, 1, 2, 3, 4, 5, 6, 7, 8, 9] := by decide

theorem eleven_elements {α : Type} (l : List α) (h : l.length = 11) :
    ∃ a0 a1 a2 a3 a4 a5 a6 a7 a8 a9 a10, l = [a0, a1, a2, a3, a4, a5, a6, a7, a8, a9, a10] := by
  match l, h with
  | [a0, a1, a2, a3, a4, a5, a6, a7, a8, a9, a10], _ =>
    exact ⟨a0, a1, a2, a3, a4, a5, a6, a7, a8, a9, a10, rfl⟩

theorem checkDigit_form (n : Nat) :
    (if 9 < 11 - n % 11 then 0 else 11 - n % 11) = (if n % 11 < 2 then 0 else 11 - n % 11) := by
  split_ifs <;> omega

theorem cpfRule_iff (value : String) (hne : value ≠ "") :
    (cpfRule value).valid = true ↔ CpfAccepted value := by
  unfold CpfAccepted cpfDigits
  by_cases hlen : (cpfDigitChars value).length = 11
  · obtain ⟨c0, c1, c2, c3, c4, c5, c6, c7, c8, c9, c10, hcs⟩ := eleven_elements _ hlen
    have hdig0 : c0.isDigit = true := by
      have : c0 ∈ cpfDigitChars value := by rw [hcs]; simp
      exact (List.mem_filter.mp this).2
    have hcpf : removeNonDigits value
        = String.mk [c0, c1, c2, c3, c4, c5, c6, c7, c8, c9, c10] := by
      unfold removeNonDigits
      rw [← hcs]
      rfl
    unfold cpfRule
    rw [if_neg hne]
    simp [hcpf, hcs, range_nine, range_ten, digitAt, elevenEqualDigits, String.length, hdig0,
      checkDigit]
    generalize c0.toNat - 48 = d0
    generalize c1.toNat - 48 = d1
    generalize c2.toNat - 48 = d2
    generalize c3.toNat - 48 = d3
    generalize c4.toNat - 48 = d4
    generalize c5.toNat - 48 = d5
    generalize c6.toNat - 48 = d6
    generalize c7.toNat - 48 = d7
    generalize c8.toNat - 48 = d8
    generalize c9.toNat - 48 = d9
    generalize c10.toNat - 48 = d10
    by_cases hA : c1 = c0 ∧ c2 = c0 ∧ c3 = c0 ∧ c4 = c0 ∧ c5 = c0 ∧ c6 = c0 ∧ c7 = c0 ∧ c8 = c0
        ∧ c9 = c0 ∧ c10 = c0
    · rw [if_pos hA]
      obtain ⟨h1, h2, h3, h4, h5, h6, h7, h8, h9, h10⟩ := hA
      constructor
      · intro h
        exact absurd h (by simp)
      · intro h
        exact absurd h10 (h.1 h1 h2 h3 h4 h5 h6 h7 h8 h9)
    · rw [if_neg hA]
      have hfirst : c1 = c0 → c2 = c0 → c3 = c0 → c4 = c0 → c5 = c0 → c6 = c0 → c7 = c0 →
          c8 = c0 → c9 = c0 → ¬ c10 = c0 :=
        fun h1 h2 h3 h4 h5 h6 h7 h8 h9 h10 => hA ⟨h1, h2, h3, h4, h5, h6, h7, h8, h9, h10⟩
      simp only [checkDigit_form, ← Nat.add_assoc]
      generalize (if (d0 * 10 + d1 * 9 + d2 * 8 + d3 * 7 + d4 * 6 + d5 * 5 + d6 * 4 + d7 * 3
        + d8 * 2) % 11 < 2 then 0
        else 11 - (d0 * 10 + d1 * 9 + d2 * 8 + d3 * 7 + d4 * 6 + d5 * 5 + d6 * 4 + d7 * 3
          + d8 * 2) % 11) = x
      generalize (if (d0 * 11 + d1 * 10 + d2 * 9 + d3 * 8 + d4 * 7 + d5 * 6 + d6 * 5 + d7 * 4
        + d8 * 3 + d9 * 2) % 11 < 2 then 0
        else 11 - (d0 * 11 + d1 * 10 + d2 * 9 + d3 * 8 + d4 * 7 + d5 * 6 + d6 * 5 + d7 * 4
          + d8 * 3 + d9 * 2) % 11) = y
      by_cases h9 : d9 = x
      · by_cases h10 : d10 = y
        · simp only [h9, h10, not_true_eq_false, or_self, if_false, true_and, and_true, true_iff]
          exact hfirst
        · simp [h9, h10]
      · simp [h9]
  · have hlen2 : (removeNonDigits value).length ≠ 11 := hlen
    unfold cpfRule
    rw [if_neg hne]
    simp only [hlen2, ne_eq, not_false_eq_true, if_true]
    constructor
    · intro h
      exact absurd h (by simp)
    · intro h
      exact absurd h.1 hlen

theorem cpfAccepted_congr (value other : String)
    (h : cpfDigitChars other = cpfDigitChars value) :
    CpfAccepted other ↔ CpfAccepted value := by
  unfold CpfAccepted cpfDigits
  rw [h]

/-- C25: for a non-empty value the rule `cpf` answers valid exactly when the value, with
its non-digit characters removed, has eleven digits, not all identical, whose tenth digit
is the mod-11 check digit of the first nine (weights 10 to 2) and whose eleventh digit is
the check digit of the first ten (weights 11 to 2); two non-empty values with the same
digits get the same verdict; `529.982.247-25` and `52998224725` are accepted and
`111.111.111-11` is rejected. -/
theorem cpfRule_valid_iff_check_digits (value : String) (hne : value ≠ "") :
    ((cpfRule value).valid = true ↔ CpfAccepted value)
      ∧ (∀ other : String, other ≠ "" → cpfDigitChars other = cpfDigitChars value →
          (cpfRule other).valid = (cpfRule value).valid)
      ∧ (cpfRule "529.982.247-25").valid = true
      ∧ (cpfRule "52998224725").valid = true
      ∧ (cpfRule "111.111.111-11").valid = false := by
  refine ⟨cpfRule_iff value hne, ?_, by decide, by decide, by decide⟩
  intro other hother hsame
  rw [Bool.eq_iff_iff, cpfRule_iff value hne, cpfRule_iff other hother]
  exact cpfAccepted_congr value other hsame

/-- Witness for C25 : the value `529.982.247-25` is not empty and is accepted. -/
theorem cpfRule_valid_iff_check_digits_witness :
    "529.982.247-25" ≠ "" ∧ CpfAccepted "529.982.247-25"
      ∧ (cpfRule "529.982.247-25").valid = (cpfRule "52998224725").valid :=
  ⟨by decide,
    (cpfRule_valid_iff_check_digits "529.982.247-25" (by decide)).1.mp (by decide),
    ((cpfRule_valid_iff_check_digits "529.982.247-25" (by decide)).2.1
      "52998224725" (by decide) (by decide)).symm⟩

end Validator

namespace Validator

theorem validateLoop_spec {V A : Type} (rules : List (String × RuleFn V A)) (value : V)
    (allValues : A) (l : List RuleSpec) (hnull : RuleSpec.null ∉ l) :
    ∀ (errors : List ValidationError) (handled : List Handled),
      ∃ handled', validateLoop rules value allValues l errors handled
        = .ok (errors ++ (l.filter (fun r => isRegistered rules r
            && rejectsOrThrows rules value allValues r)).filterMap
              (entryOf rules value allValues), handled') := by
  induction l with
  | nil => intro errors handled; exact ⟨handled, by simp [validateLoop]⟩
  | cons rule rest ih =>
    intro errors handled
    have hrest : RuleSpec.null ∉ rest := fun h => hnull (List.mem_cons_of_mem _ h)
    have hrule : rule ≠ RuleSpec.null := fun h => hnull (by simp [h])
    cases rule with
    | null => exact absurd rfl hrule
    | other =>
      obtain ⟨h', hh⟩ := ih hrest errors (handled ++ [.notFound none])
      refine ⟨h', ?_⟩
      simp [validateLoop, ruleNameAndParams, lookupRule, hh, isRegistered, listedName]
    | name s =>
      cases hg : JsMap.get rules s with
      | none =>
        obtain ⟨h', hh⟩ := ih hrest errors (handled ++ [.notFound (some s)])
        refine ⟨h', ?_⟩
        simp [validateLoop, ruleNameAndParams, lookupRule, hh, isRegistered, listedName,
          JsMap.has, hg]
      | some f =>
        cases hf : f value JsParam.null allValues with
        | error msg =>
          obtain ⟨h', hh⟩ := ih hrest
            (errors ++ [{ rule := s, message := some "Erro interno de validação",
                          params := JsParam.null }]) (handled ++ [.threw s msg])
          refine ⟨h', ?_⟩
          simp [validateLoop, ruleNameAndParams, lookupRule, hh, isRegistered, listedName,
            JsMap.has, hg, hf, rejectsOrThrows, listedParams, entryOf]
        | ok result =>
          by_cases hv : result.valid = true
          · obtain ⟨h', hh⟩ := ih hrest errors handled
            refine ⟨h', ?_⟩
            simp [validateLoop, ruleNameAndParams, lookupRule, hh, isRegistered, listedName,
              JsMap.has, hg, hf, rejectsOrThrows, listedParams, entryOf, hv]
          · obtain ⟨h', hh⟩ := ih hrest
              (errors ++ [{ rule := s, message := result.message, params := JsParam.null }])
              handled
            refine ⟨h', ?_⟩
            simp [validateLoop, ruleNameAndParams, lookupRule, hh, isRegistered, listedName,
              JsMap.has, hg, hf, rejectsOrThrows, listedParams, entryOf, hv]
    | object r n p v =>
      cases hn : nameOrElse r n with
      | none =>
        obtain ⟨h', hh⟩ := ih hrest errors (handled ++ [.notFound none])
        refine ⟨h', ?_⟩
        simp [validateLoop, ruleNameAndParams, lookupRule, hh, isRegistered, listedName, hn]
      | some s =>
        cases hg : JsMap.get rules s with
        | none =>
          obtain ⟨h', hh⟩ := ih hrest errors (handled ++ [.notFound (some s)])
          refine ⟨h', ?_⟩
          simp [validateLoop, ruleNameAndParams, lookupRule, hh, isRegistered, listedName,
            JsMap.has, hg, hn]
        | some f =>
          cases hf : f value (p.orElse v) allValues with
          | error msg =>
            obtain ⟨h', hh⟩ := ih hrest
              (errors ++ [{ rule := s, message := some "Erro interno de validação",
                            params := p.orElse v }]) (handled ++ [.threw s msg])
            refine ⟨h', ?_⟩
            simp [validateLoop, ruleNameAndParams, lookupRule, hh, isRegistered, listedName,
              JsMap.has, hg, hf, rejectsOrThrows, listedParams, entryOf, hn]
          | ok result =>
            by_cases hv : result.valid = true
            · obtain ⟨h', hh⟩ := ih hrest errors handled
              refine ⟨h', ?_⟩
              simp [validateLoop, ruleNameAndParams, lookupRule, hh, isRegistered, listedName,
                JsMap.has, hg, hf, rejectsOrThrows, listedParams, entryOf, hv, hn]
            · obtain ⟨h', hh⟩ := ih hrest
                (errors ++ [{ rule := s, message := result.message, params := p.orElse v }])
                handled
              refine ⟨h', ?_⟩
              simp [validateLoop, ruleNameAndParams, lookupRule, hh, isRegistered, listedName,
                JsMap.has, hg, hf, rejectsOrThrows, listedParams, entryOf, hv, hn]

theorem filter_registered_nil {V A : Type} (rules : List (String × RuleFn V A)) (value : V)
    (allValues : A) (l : List RuleSpec) (h : ∀ r ∈ l, isRegistered rules r = false) :
    l.filter (fun r => isRegistered rules r && rejectsOrThrows rules value allValues r) = [] := by
  rw [List.filter_eq_nil_iff]
  intro r hr
  simp [h r hr]

theorem length_filterMap_of_isSome {α β : Type} (f : α → Option β) (l : List α)
    (h : ∀ x ∈ l, (f x).isSome = true) : (l.filterMap f).length = l.length := by
  induction l with
  | nil => rfl
  | cons x rest ih =>
    obtain ⟨y, hy⟩ := Option.isSome_iff_exists.mp (h x (by simp))
    rw [List.filterMap_cons_some hy, List.length_cons, List.length_cons,
      ih (fun z hz => h z (List.mem_cons_of_mem _ hz))]

theorem entryOf_isSome {V A : Type} (rules : List (String × RuleFn V A)) (value : V)
    (allValues : A) (rule : RuleSpec) (h : isRegistered rules rule = true) :
    (entryOf rules value allValues rule).isSome = true := by
  unfold isRegistered at h
  unfold entryOf
  cases hn : listedName rule with
  | none => simp [hn] at h
  | some n =>
    simp only [hn, JsMap.has] at h
    obtain ⟨f, hf⟩ := Option.isSome_iff_exists.mp h
    simp only [hf]
    cases f value (listedParams rule) allValues <;> rfl

/-- C26 (counterexample): with `rules = null`, and with `rules = [null]`, the method does
not return a result: `typeof null` is `'object'`, and reading `rule.rule` raises a
`TypeError`, although no listed rule is registered. -/
theorem validateValue_null_rule_counterexample :
    validateValue sampleRules "123" (.single .null) ()
        = .error (.typeError "Cannot read properties of null")
      ∧ validateValue sampleRules "123" (.array [.null]) ()
        = .error (.typeError "Cannot read properties of null")
      ∧ (∀ r ∈ rulesArray (.single .null), isRegistered sampleRules r = false)
      ∧ (∀ r ∈ rulesArray (.array [.null]), isRegistered sampleRules r = false) := by
  refine ⟨rfl, rfl, ?_, ?_⟩ <;>
  · intro r hr
    simp only [rulesArray, List.mem_singleton] at hr
    rw [hr]
    rfl

/-- C26 (amended): when no listed rule is `null`, `validateValue` returns; `valid` is true
exactly when `errors` is empty; `errors` holds, in the order of `rules`, one entry for each
listed rule that is registered and rejects the value or throws, and nothing else; a value
checked only against rules that are not registered is reported valid. -/
theorem validateValue_errors_of_failing_rules {V A : Type} (rules : List (String × RuleFn V A))
    (value : V) (arg : RulesArg) (allValues : A) (hnull : RuleSpec.null ∉ rulesArray arg) :
    ∃ result handled, validateValue rules value arg allValues = .ok (result, handled)
      ∧ (result.valid = true ↔ result.errors = [])
      ∧ result.errors = ((rulesArray arg).filter (fun r => isRegistered rules r
          && rejectsOrThrows rules value allValues r)).filterMap (entryOf rules value allValues)
      ∧ result.errors.length = ((rulesArray arg).filter (fun r => isRegistered rules r
          && rejectsOrThrows rules value allValues r)).length
      ∧ ((∀ r ∈ rulesArray arg, isRegistered rules r = false) →
          result.valid = true ∧ result.errors = []) := by
  obtain ⟨handled, hloop⟩ := validateLoop_spec rules value allValues (rulesArray arg) hnull [] []
  simp only [List.nil_append] at hloop
  refine ⟨ValidationResult.mk ((((rulesArray arg).filter (fun r => isRegistered rules r
      && rejectsOrThrows rules value allValues r)).filterMap
        (entryOf rules value allValues)).length == 0)
    (((rulesArray arg).filter (fun r => isRegistered rules r
      && rejectsOrThrows rules value allValues r)).filterMap (entryOf rules value allValues)),
    handled, by simp only [validateValue, hloop], ?_, rfl, ?_, ?_⟩
  · simp [List.length_eq_zero]
  · apply length_filterMap_of_isSome
    intro r hr
    have hreg := (List.mem_filter.mp hr).2
    simp only [Bool.and_eq_true] at hreg
    exact entryOf_isSome rules value allValues r hreg.1
  · intro h
    simp [filter_registered_nil rules value allValues _ h]

/-- Witness for C26 : the rules `required`, `unknown`, `cpf` and `broken` on the value
`123`. -/
theorem validateValue_errors_of_failing_rules_witness :
    RuleSpec.null ∉ rulesArray (.array [.name "required", .name "unknown",
        .object none (some "cpf") .undefined (.num 3), .name "broken"])
      ∧ ∃ result handled, validateValue sampleRules "123"
          (.array [.name "required", .name "unknown",
            .object none (some "cpf") .undefined (.num 3), .name "broken"]) ()
          = .ok (result, handled)
        ∧ (result.valid = true ↔ result.errors = [])
        ∧ result.errors = ((rulesArray (.array [.name "required", .name "unknown",
            .object none (some "cpf") .undefined (.num 3), .name "broken"])).filter
              (fun r => isRegistered sampleRules r
                && rejectsOrThrows sampleRules "123" () r)).filterMap
                  (entryOf sampleRules "123" ())
        ∧ result.errors.length = ((rulesArray (.array [.name "required", .name "unknown",
            .object none (some "cpf") .undefined (.num 3), .name "broken"])).filter
              (fun r => isRegistered sampleRules r
                && rejectsOrThrows sampleRules "123" () r)).length
        ∧ ((∀ r ∈ rulesArray (.array [.name "required", .name "unknown",
            .object none (some "cpf") .undefined (.num 3), .name "broken"]),
              isRegistered sampleRules r = false) →
            result.valid = true ∧ result.errors = []) :=
  ⟨by decide, validateValue_errors_of_failing_rules sampleRules "123" _ () (by decide)⟩

end Validator

/-! ## Theorems about the validation utilities -/

namespace ValidationUtils

open DashboardMetrics (isJsSpace jsTrim)

theorem entityOf_mem (c : Char) (e : String) (h : entityOf c = some e) : e ∈ entities := by
  unfold entityOf at h
  split_ifs at h <;> simp at h <;> subst h <;> decide

theorem entityOf_none (c : Char) (h : entityOf c = none) :
    c ≠ '<' ∧ c ≠ '>' ∧ c ≠ Char.ofNat 34 ∧ c ≠ Char.ofNat 39 ∧ c ≠ '&' := by
  unfold entityOf at h
  split_ifs at h
  exact ⟨by assumption, by assumption, by assumption, by assumption, by assumption⟩

theorem entities_chars : ∀ e ∈ entities, e.data.head? = some '&' ∧ '&' ∉ e.data.tail
    ∧ ∀ c ∈ e.data, c ≠ '<' ∧ c ≠ '>' ∧ c ≠ Char.ofNat 34 ∧ c ≠ Char.ofNat 39
      ∧ isJsSpace c = false := by
  decide

theorem escapeChars_cons (c : Char) (rest : List Char) :
    (∃ e ∈ entities, escapeChars (c :: rest) = e.data ++ escapeChars rest)
      ∨ (escapeChars (c :: rest) = c :: escapeChars rest
          ∧ c ≠ '<' ∧ c ≠ '>' ∧ c ≠ Char.ofNat 34 ∧ c ≠ Char.ofNat 39 ∧ c ≠ '&') := by
  cases h : entityOf c with
  | some e => exact Or.inl ⟨e, entityOf_mem c e h, by simp [escapeChars, h]⟩
  | none => exact Or.inr ⟨by simp [escapeChars, h], entityOf_none c h⟩

theorem mem_escapeChars (l : List Char) :
    ∀ c ∈ escapeChars l, c ≠ '<' ∧ c ≠ '>' ∧ c ≠ Char.ofNat 34 ∧ c ≠ Char.ofNat 39 := by
  induction l with
  | nil => intro c hc; simp [escapeChars] at hc
  | cons x rest ih =>
    intro c hc
    rcases escapeChars_cons x rest with ⟨e, he, heq⟩ | ⟨heq, h1, h2, h3, h4, _⟩
    · rw [heq, List.mem_append] at hc
      rcases hc with hc | hc
      · obtain ⟨_, _, hall⟩ := entities_chars e he
        obtain ⟨a, b, c', d, _⟩ := hall c hc
        exact ⟨a, b, c', d⟩
      · exact ih c hc
    · rw [heq, List.mem_cons] at hc
      rcases hc with hc | hc
      · subst hc; exact ⟨h1, h2, h3, h4⟩
      · exact ih c hc

theorem entity_amp_first (e : String) (he : e ∈ entities) (pre post : List Char)
    (h : e.data = pre ++ '&' :: post) : pre = [] := by
  obtain ⟨_, htail, _⟩ := entities_chars e he
  cases pre with
  | nil => rfl
  | cons p pre' =>
    exfalso
    apply htail
    rw [h]
    simp

theorem amp_escapeChars (l : List Char) :
    ∀ pre post, escapeChars l = pre ++ '&' :: post →
      ∃ e ∈ entities, e.data <+: '&' :: post := by
  induction l with
  | nil => intro pre post h; simp [escapeChars] at h
  | cons x rest ih =>
    intro pre post h
    rcases escapeChars_cons x rest with ⟨e, he, heq⟩ | ⟨heq, _, _, _, _, hamp⟩
    · rw [heq, List.append_eq_append_iff] at h
      rcases h with ⟨a, ha, hrest⟩ | ⟨c, hc, hpost⟩
      · exact ih a post hrest
      · cases c with
        | nil =>
          simp only [List.nil_append] at hpost
          exact ih [] post (by simpa using hpost.symm)
        | cons y c' =>
          simp only [List.cons_append, List.cons.injEq] at hpost
          obtain ⟨hy, hpost⟩ := hpost
          subst hy
          have hpre := entity_amp_first e he _ _ hc
          subst hpre
          refine ⟨e, he, ?_⟩
          rw [hc, hpost]
          simp
    · rw [heq] at h
      cases pre with
      | nil =>
        simp only [List.nil_append, List.cons.injEq] at h
        exact absurd h.1 hamp
      | cons p pre' =>
        simp only [List.cons_append, List.cons.injEq] at h
        exact ih pre' post h.2

theorem trim_decompose (l : List Char) :
    ∃ front back, l = front ++ (jsTrim (String.mk l)).data ++ back
      ∧ (∀ c ∈ back, isJsSpace c = true) := by
  refine ⟨l.takeWhile isJsSpace,
    (((l.dropWhile isJsSpace).reverse).takeWhile isJsSpace).reverse, ?_, ?_⟩
  · have h1 := List.takeWhile_append_dropWhile isJsSpace l
    have h2 := List.takeWhile_append_dropWhile isJsSpace (l.dropWhile isJsSpace).reverse
    have h3 : l.dropWhile isJsSpace
        = (((l.dropWhile isJsSpace).reverse).dropWhile isJsSpace).reverse
          ++ (((l.dropWhile isJsSpace).reverse).takeWhile isJsSpace).reverse := by
      rw [← List.reverse_append, h2, List.reverse_reverse]
    show l = _ ++ (((l.dropWhile isJsSpace).reverse).dropWhile isJsSpace).reverse ++ _
    rw [List.append_assoc, ← h3, h1]
  · intro c hc
    exact List.mem_takeWhile_imp (List.mem_reverse.mp hc)

theorem trim_head (l : List Char) (c : Char)
    (h : (jsTrim (String.mk l)).data.head? = some c) : isJsSpace c = false := by
  have h2 := List.takeWhile_append_dropWhile isJsSpace (l.dropWhile isJsSpace).reverse
  have h3 : l.dropWhile isJsSpace
      = (((l.dropWhile isJsSpace).reverse).dropWhile isJsSpace).reverse
        ++ (((l.dropWhile isJsSpace).reverse).takeWhile isJsSpace).reverse := by
    rw [← List.reverse_append, h2, List.reverse_reverse]
  have h4 : (l.dropWhile isJsSpace).head? = some c := by
    rw [h3]
    change ((((l.dropWhile isJsSpace).reverse).dropWhile isJsSpace).reverse).head? = some c at h
    cases hT : (((l.dropWhile isJsSpace).reverse).dropWhile isJsSpace).reverse with
    | nil => rw [hT] at h; simp at h
    | cons t T => rw [hT] at h; simpa using h
  have h5 := List.head?_dropWhile_not isJsSpace l
  rw [h4] at h5
  simpa using h5

theorem trim_last (l : List Char) (c : Char)
    (h : (jsTrim (String.mk l)).data.getLast? = some c) : isJsSpace c = false := by
  change ((((l.dropWhile isJsSpace).reverse).dropWhile isJsSpace).reverse).getLast? = some c at h
  rw [List.getLast?_reverse] at h
  have h5 := List.head?_dropWhile_not isJsSpace (l.dropWhile isJsSpace).reverse
  rw [h] at h5
  simpa using h5

/-- C27: on a string, `sanitizeString` returns a string that contains none of the
characters `<`, `>`, double quote and single quote, in which every `&` begins one of the
entities `&lt;`, `&gt;`, `&quot;`, `&#x27;`, `&amp;`, and whose first and last characters
are not white space; a value that is not a string is returned unchanged. -/
theorem sanitizeString_escapes_and_trims (s : String) :
    ∃ r, sanitizeString (.str s) = .str r
      ∧ (∀ c ∈ r.data, c ≠ '<' ∧ c ≠ '>' ∧ c ≠ Char.ofNat 34 ∧ c ≠ Char.ofNat 39)
      ∧ (∀ pre post, r.data = pre ++ '&' :: post →
          ∃ e ∈ entities, e.data <+: '&' :: post)
      ∧ (∀ c, r.data.head? = some c → isJsSpace c = false)
      ∧ (∀ c, r.data.getLast? = some c → isJsSpace c = false)
      ∧ ∀ tag, sanitizeString (.notString tag) = .notString tag := by
  refine ⟨sanitizeText s, rfl, ?_, ?_, ?_, ?_, fun _ => rfl⟩
  · intro c hc
    obtain ⟨front, back, hdec, _⟩ := trim_decompose (escapeChars s.data)
    apply mem_escapeChars s.data c
    rw [hdec]
    exact List.mem_append_left _ (List.mem_append_right _ hc)
  · intro pre post hr
    obtain ⟨front, back, hdec, hback⟩ := trim_decompose (escapeChars s.data)
    have hr2 : (jsTrim (String.mk (escapeChars s.data))).data = pre ++ '&' :: post := hr
    rw [hr2] at hdec
    have hdec2 : escapeChars s.data = (front ++ pre) ++ '&' :: (post ++ back) := by
      rw [hdec]; simp
    obtain ⟨e, he, hpre⟩ := amp_escapeChars s.data _ _ hdec2
    refine ⟨e, he, ?_⟩
    have hpre2 : e.data <+: ('&' :: post) ++ back := by simpa using hpre
    rcases List.prefix_or_prefix_of_prefix hpre2 (List.prefix_append _ back) with h | h
    · exact h
    · obtain ⟨k, hk⟩ := h
      cases k with
      | nil =>
        rw [List.append_nil] at hk
        rw [← hk]
      | cons w k' =>
        exfalso
        rw [← hk] at hpre2
        have hkb : w :: k' <+: back := (List.prefix_append_right_inj _).mp hpre2
        have hwb : w ∈ back := hkb.subset (by simp)
        have hwe : w ∈ e.data := by rw [← hk]; simp
        obtain ⟨_, _, hall⟩ := entities_chars e he
        have := (hall w hwe).2.2.2.2
        rw [hback w hwb] at this
        exact absurd this (by simp)
  · intro c hc
    exact trim_head (escapeChars s.data) c hc
  · intro c hc
    exact trim_last (escapeChars s.data) c hc

end ValidationUtils
